import Mathlib

/-!
Verification of the gae_rest data-mapping core (src/models/__init__.py and
src/views/__init__.py) against its specification.

The embedding models Python JSON-like dictionaries as association lists of
string keys to `Val` values, ndb model instances as association lists of field
values (`Rec`), and ndb property descriptors as `PTy`.  Machinery that lives in
the external `google.appengine.ext.ndb` library (model `populate`, `_to_dict`,
key urlsafe codec, `strftime`/`strptime`) is modelled from the spec's
description of those collaborators; everything else is translated from the
repository source.
-/

set_option maxHeartbeats 1000000

namespace GaeRest

/-- A Python value as it appears in the dictionaries and ndb model fields that
`ModelParser` operates on: JSON scalars, `datetime.date` / `datetime.datetime`
objects, `ndb.Key` objects, and nested dictionaries (which also represent
nested `StructuredProperty` sub-models, as `ndb.Model._to_dict` renders them).
Floats are carried opaquely by their bit pattern: the code never computes with
them, it only passes them through. -/
inductive Val where
  | null
  | str (s : String)
  | int (n : Int)
  | float (bits : Nat)
  | bool (b : Bool)
  | date (y m d : Nat)
  | datetime (y m d h mi s us : Nat)
  | key (path : List (String × Val))
  | dict (entries : List (String × Val))

/-- An ndb property descriptor's kind, as `ModelParser` dispatches on it with
`isinstance`: the scalar property classes, `DateProperty`, `DateTimeProperty`,
`KeyProperty`, and `StructuredProperty` carrying the nested model class. -/
inductive PTy where
  | pStr
  | pInt
  | pFloat
  | pBool
  | pDate
  | pDateTime
  | pKey
  | pStruct (fields : List (String × PTy))

/-- The declared properties of an ndb model class, in declaration order. -/
abbrev Schema := List (String × PTy)

/-- A Python dictionary (or the field assignment of an ndb model instance). -/
abbrev Dict := List (String × Val)

/-- An ndb model instance's field assignment. -/
abbrev Rec := List (String × Val)

namespace Dict

/-- `d.get(k)` distinguishing absence from a stored `None`. -/
def dget : Dict → String → Option Val
  | [], _ => none
  | (k', v) :: rest, k => if k' = k then some v else dget rest k

/-- `d[k] = v`: replace the entry in place, append if absent. -/
def dset : Dict → String → Val → Dict
  | [], k, v => [(k, v)]
  | (k', v') :: rest, k, v =>
    if k' = k then (k, v) :: rest else (k', v') :: dset rest k v

/-- `del d[k]`. -/
def ddel : Dict → String → Dict
  | [], _ => []
  | (k', v') :: rest, k => if k' = k then rest else (k', v') :: ddel rest k

/-- `k in d`. -/
def hasKey (d : Dict) (k : String) : Bool := (dget d k).isSome

/-- `d.get(k)` as Python sees it: absent and `None` both read as `None`. -/
def pyget (d : Dict) (k : String) : Val := (dget d k).getD .null

/-- The keys of the dictionary, in order. -/
def keys (d : Dict) : List String := d.map (·.1)

end Dict

export Dict (dget dset ddel hasKey pyget)

mutual

/-- A value as Python produces it: nested dictionaries have unique keys. -/
def valWF : Val → Bool
  | .dict es => dictWF es
  | _ => true

/-- A dictionary as Python produces it: keys are unique, recursively so inside
nested dictionary values. -/
def dictWF : Dict → Bool
  | [] => true
  | (k, v) :: rest => !(hasKey rest k) && valWF v && dictWF rest

end

/-- Look up a property descriptor by name on a model class
(`getattr(model.__class__, name)` in `_get_property_from_model_by_name`). -/
def lookupProp : Schema → String → Option PTy
  | [], _ => none
  | (k', ty) :: rest, k => if k' = k then some ty else lookupProp rest k

mutual

/-- A model class as ndb guarantees it: property names are unique, recursively
so in nested structured models. -/
def schemaWF : Schema → Bool
  | [] => true
  | (k, ty) :: rest => (lookupProp rest k).isNone && ptyWF ty && schemaWF rest

def ptyWF : PTy → Bool
  | .pStruct ns => schemaWF ns
  | _ => true

end

/-! ## Errors

One constructor per Python exception class the modelled code can raise.
`notFoundError` is modelled from the spec: §7 of the spec lists a distinct
`NotFoundError` kind, but the source defines no such class — it is included
only so that statements about the spec's taxonomy can be written. -/

inductive PyErr where
  | invalidKeyError (msg : String)
  | invalidValueError (msg : String)
  | badValueError (msg : String)
  | ndbModelMismatchError (msg : String)
  | missingRequiredPropertyError (props : List String)
  | parserConversionError (cause : String)
  | valueError (msg : String)
  | typeError (msg : String)
  | attributeError (msg : String)
  | unboundLocalError
  | recursionError
  | viewValueError (msg : String)
  | keyMisMatchViewError (msg : String)
  | notFoundError (msg : String)
  deriving DecidableEq

/-- `ex.__class__.__name__`, used when `ParserConversionError` records its
cause. -/
def PyErr.className : PyErr → String
  | .invalidKeyError _ => "InvalidKeyError"
  | .invalidValueError _ => "InvalidValueError"
  | .badValueError _ => "BadValueError"
  | .ndbModelMismatchError _ => "NdbModelMismatchError"
  | .missingRequiredPropertyError _ => "MissingRequiredPropertyError"
  | .parserConversionError _ => "ParserConversionError"
  | .valueError _ => "ValueError"
  | .typeError _ => "TypeError"
  | .attributeError _ => "AttributeError"
  | .unboundLocalError => "UnboundLocalError"
  | .recursionError => "RuntimeError"
  | .viewValueError _ => "ViewValueError"
  | .keyMisMatchViewError _ => "KeyMisMatchViewError"
  | .notFoundError _ => "NotFoundError"

/-! ## Dates and datetimes

Modelled from the spec: the wire formats are produced by the external
`strftime`/`isoformat`/`strptime` collaborators — dates as `YYYY-MM-DD`,
datetimes as ISO-8601 with microsecond precision and no zone suffix.  The
parsers accept exactly the zero-padded forms (CPython's `strptime` is
additionally lenient about field widths; that leniency is not modelled).
Python 2's `strftime` refuses years before 1900; `isoformat` does not. -/

def digitChar (n : Nat) : Char := Char.ofNat (48 + n)

def digit? (c : Char) : Option Nat :=
  if 48 ≤ c.toNat ∧ c.toNat ≤ 57 then some (c.toNat - 48) else none

def num2 (a b : Char) : Option Nat := do
  let x ← digit? a
  let y ← digit? b
  some (10 * x + y)

def num4 (a b c d : Char) : Option Nat := do
  let x ← num2 a b
  let y ← num2 c d
  some (100 * x + y)

def num6 (a b c d e f : Char) : Option Nat := do
  let x ← num4 a b c d
  let y ← num2 e f
  some (100 * x + y)

def chars4 (n : Nat) : List Char :=
  [digitChar (n / 1000 % 10), digitChar (n / 100 % 10),
   digitChar (n / 10 % 10), digitChar (n % 10)]

def chars2 (n : Nat) : List Char := [digitChar (n / 10 % 10), digitChar (n % 10)]

def chars6 (n : Nat) : List Char :=
  chars4 (n / 100) ++ chars2 (n % 100)

def isLeapYear (y : Nat) : Bool :=
  (y % 4 == 0 && y % 100 != 0) || y % 400 == 0

def daysInMonth (y m : Nat) : Nat :=
  if m = 2 then (if isLeapYear y then 29 else 28)
  else if m = 4 ∨ m = 6 ∨ m = 9 ∨ m = 11 then 30
  else 31

def validDate (y m d : Nat) : Bool :=
  1 ≤ y && y ≤ 9999 && 1 ≤ m && m ≤ 12 && 1 ≤ d && d ≤ daysInMonth y m

def validTime (h mi s : Nat) : Bool :=
  h ≤ 23 && mi ≤ 59 && s ≤ 59

/-- `value.strftime('%Y-%m-%d')` / `date.isoformat()`. -/
def fmtDate (y m d : Nat) : String :=
  ⟨chars4 y ++ '-' :: chars2 m ++ '-' :: chars2 d⟩

/-- `datetime.isoformat()`: the `.ffffff` fraction appears only when the
microsecond field is nonzero. -/
def fmtDateTime (y m d h mi s us : Nat) : String :=
  ⟨chars4 y ++ '-' :: chars2 m ++ '-' :: chars2 d ++
   'T' :: chars2 h ++ ':' :: chars2 mi ++ ':' :: chars2 s ++
   (if us = 0 then [] else '.' :: chars6 us)⟩

/-- `datetime.strptime(value, "%Y-%m-%d")`. -/
def parseDate (str : String) : Option (Nat × Nat × Nat) :=
  match str.data with
  | [a, b, c, d, '-', e, f, '-', g, h] => do
    let y ← num4 a b c d
    let mo ← num2 e f
    let dy ← num2 g h
    if validDate y mo dy then some (y, mo, dy) else none
  | _ => none

/-- `datetime.strptime(value, "%Y-%m-%dT%H:%M:%S.%f")`: the fraction is
mandatory, so ISO text without microseconds does not parse. -/
def parseDateTime (str : String) :
    Option (Nat × Nat × Nat × Nat × Nat × Nat × Nat) :=
  match str.data with
  | [a, b, c, d, '-', e, f, '-', g, h, 'T',
     i, j, ':', k, l, ':', m, n, '.', o, p, q, r, s, t] => do
    let y ← num4 a b c d
    let mo ← num2 e f
    let dy ← num2 g h
    let hh ← num2 i j
    let mi ← num2 k l
    let ss ← num2 m n
    let us ← num6 o p q r s t
    if validDate y mo dy && validTime hh mi ss then
      some (y, mo, dy, hh, mi, ss, us)
    else none
  | _ => none

/-! ## Key codec

Modelled from the spec: `ndb.Key` urlsafe text is an opaque, deterministic,
reversible encoding of the key's (kind, id) path, produced by the external
ndb/protobuf collaborator.  Strings that are not in the codec's image fail to
decode, standing in for `ProtocolBufferDecodeError`. -/

def idText : Val → String
  | .int n => "i" ++ toString n
  | .str s => "s" ++ s
  | _ => "x"

def urlsafeOfPath (p : List (String × Val)) : String :=
  "agx" ++ String.join (p.map (fun e => e.1 ++ "." ++ idText e.2 ++ "."))

/-- Split a character list on `'.'`, keeping empty segments. -/
def splitDots : List Char → List (List Char)
  | [] => [[]]
  | c :: rest =>
    let r := splitDots rest
    if c = '.' then [] :: r
    else
      match r with
      | h :: t => (c :: h) :: t
      | [] => [[c]]

def parseNatAux : List Char → Nat → Option Nat
  | [], acc => some acc
  | c :: rest, acc =>
    match digit? c with
    | some d => parseNatAux rest (10 * acc + d)
    | none => none

def parseIntChars : List Char → Option Int
  | [] => none
  | '-' :: rest =>
    match rest with
    | [] => none
    | _ => (parseNatAux rest 0).map (fun n => -(n : Int))
  | cs => (parseNatAux cs 0).map Int.ofNat

def parseIdSeg : List Char → Option Val
  | 'i' :: rest => (parseIntChars rest).map .int
  | 's' :: rest => some (.str ⟨rest⟩)
  | _ => none

def pairUpSegs : List (List Char) → Option (List (String × Val))
  | [] => some []
  | kind :: idseg :: rest =>
    match kind with
    | [] => none
    | _ => do
      let idv ← parseIdSeg idseg
      let tail ← pairUpSegs rest
      some ((⟨kind⟩, idv) :: tail)
  | _ => none

def decodeUrlsafe (s : String) : Option (List (String × Val)) :=
  match s.data with
  | 'a' :: 'g' :: 'x' :: rest =>
    let segs := splitDots rest
    match segs.getLast? with
    | some [] =>
      match segs.dropLast with
      | [] => none
      | body => pairUpSegs body
    | _ => none
  | _ => none

/-! ## ModelParser conversion primitives -/

/-- `ModelParser.decode_ndb_key` (src/models/__init__.py:112).  A `None` or
`ndb.Key` input short-circuits; a string is handed to the urlsafe decoder.
When decoding fails and `raise_exception` is false, the `except` clause
swallows the exception without assigning `res`, so the final `return res`
raises `UnboundLocalError`; the same happens for inputs of any other type. -/
def decode_ndb_key (in_key : Val) (raise_exception : Bool) : Except PyErr Val :=
  match in_key with
  | .null =>
    if raise_exception then .error (.invalidKeyError "A 'None' value passed as key")
    else .ok .null
  | .key p => .ok (.key p)
  | .str s =>
    match decodeUrlsafe s with
    | some p => .ok (.key p)
    | none =>
      if raise_exception then
        .error (.invalidKeyError ("Key '" ++ s ++ "' is not a valid key"))
      else .error .unboundLocalError
  | _ =>
    if raise_exception then .error (.invalidKeyError "not a valid key")
    else .error .unboundLocalError

/-- `ModelParser.value_for_property` (src/models/__init__.py:211): dictionary
value → model value.  Dates and datetimes are parsed with `strptime` (which
raises `TypeError` on non-string input); key fields decode urlsafe strings
with `raise_exception` left at its default `False`; everything else passes
through. -/
def value_for_property (ty : PTy) (v : Val) : Except PyErr Val :=
  match v with
  | .null => .ok .null
  | _ =>
    match ty with
    | .pDate =>
      match v with
      | .str s =>
        match parseDate s with
        | some (y, m, d) => .ok (.datetime y m d 0 0 0 0)
        | none => .error (.valueError ("time data '" ++ s ++ "' does not match format"))
      | _ => .error (.typeError "strptime expected a string")
    | .pDateTime =>
      match v with
      | .str s =>
        match parseDateTime s with
        | some (y, m, d, h, mi, sec, us) => .ok (.datetime y m d h mi sec us)
        | none => .error (.valueError ("time data '" ++ s ++ "' does not match format"))
      | _ => .error (.typeError "strptime expected a string")
    | .pKey =>
      match v with
      | .str s => decode_ndb_key (.str s) false
      | _ => .ok v
    | _ => .ok v

/-- `ModelParser.text_from_property` (src/models/__init__.py:248): model value
→ dictionary value.  Note the `KeyProperty` branch: the source tests
`isinstance(value, ndb.KeyProperty)`, but the value of a key field is an
`ndb.Key`, never the `KeyProperty` descriptor class, so the test fails and the
branch raises `ValueError` for every non-null key field value.  Python 2's
`strftime` (the `DateProperty` branch) refuses years before 1900. -/
def text_from_property (ty : PTy) (v : Val) : Except PyErr Val :=
  match v with
  | .null => .ok .null
  | _ =>
    match ty with
    | .pDate =>
      match v with
      | .date y m d =>
        if y < 1900 then .error (.valueError "strftime requires year >= 1900")
        else .ok (.str (fmtDate y m d))
      | .datetime y m d _ _ _ _ =>
        if y < 1900 then .error (.valueError "strftime requires year >= 1900")
        else .ok (.str (fmtDate y m d))
      | _ => .error (.valueError "Property expected value type of date or datetime")
    | .pDateTime =>
      match v with
      | .date y m d => .ok (.str (fmtDate y m d))
      | .datetime y m d h mi s us => .ok (.str (fmtDateTime y m d h mi s us))
      | _ => .error (.valueError "Property expected value type of date or datetime")
    | .pKey => .error (.valueError "Expected KeyProperty")
    | _ => .ok v

/-! ## ModelParser._iter_dict and the model collaborators -/

mutual

/-- One non-null entry of the `_iter_dict` loop: resolve the property (missing
→ `AttributeError` from `getattr`), recurse for a `StructuredProperty` (which
requires a dict value), otherwise run the hook and wrap its failures. -/
def iter_entry (cv : PTy → Val → Except PyErr Val) :
    Option PTy → String → Val → Except PyErr Val
  | none, k, _ => .error (.attributeError k)
  | some (.pStruct ns), _, .dict sub => (iter_dict cv ns false sub).map .dict
  | some (.pStruct _), k, _ =>
    .error (.invalidValueError
      ("ndb.StructuredProperty '" ++ k ++ "' expect a dict as value"))
  | some ty, _, v =>
    match cv ty v with
    | .ok v2 => .ok v2
    | .error e => .error (.parserConversionError e.className)

/-- `ModelParser._iter_dict` (src/models/__init__.py:155), parametrised by the
conversion hook `cv` (`value_for_property` or `text_from_property`).  Null
entries are skipped (deleted afterwards when `remove_null_entries`; the source
defers the deletions to after the loop, which produces the same dictionary).
The recursive call for a `StructuredProperty` does not pass
`remove_null_entries`, so nulls are only stripped at the top level.  The
source mutates the dictionary in place and aborts on the first error; both
callers hand it a private dictionary (a deepcopy or a fresh `to_dict`), so the
partially-mutated dictionary is never observable and the traversal is
modelled as all-or-error. -/
def iter_dict (cv : PTy → Val → Except PyErr Val) :
    Schema → Bool → Dict → Except PyErr Dict
  | _, _, [] => .ok []
  | S, rn, (k, v) :: rest =>
    match v with
    | .null =>
      if rn then iter_dict cv S rn rest
      else (iter_dict cv S rn rest).map (fun tail => (k, .null) :: tail)
    | _ => do
      let v2 ← iter_entry cv (lookupProp S k) k v
      let tail ← iter_dict cv S rn rest
      .ok ((k, v2) :: tail)

end

mutual

/-- Modelled from the spec: `ndb.Model._to_dict`, the store collaborator's
rendering of a model instance — every declared property appears, unset fields
read as `None`, and a structured sub-model is rendered recursively as a
dictionary. -/
def to_dict : Schema → Rec → Dict
  | [], _ => []
  | (k, ty) :: rest, r =>
    (k, to_dict_val ty (pyget r k)) :: to_dict rest r

/-- Rendering of one field value: a structured sub-model is rendered through
its own class's `_to_dict`; every other value is returned as stored. -/
def to_dict_val : PTy → Val → Val
  | .pStruct ns, .dict sub => .dict (to_dict ns sub)
  | _, v => v

end

mutual

/-- Modelled from the spec: `ndb.Model.populate` — "populate semantics":
overwrites only the fields named in the dictionary, and a dictionary value for
a structured field constructs a fresh sub-model from it wholesale
(`StructuredProperty._set_value` builds `self._modelclass(**value)`). -/
def populate : Schema → Rec → Dict → Rec
  | _, r, [] => r
  | S, r, (k, v) :: rest =>
    populate S (dset r k (populate_val (lookupProp S k) v)) rest

/-- Assignment of one field: a dict assigned to a `StructuredProperty` builds
a fresh sub-model from it; any other value is stored as given. -/
def populate_val : Option PTy → Val → Val
  | some (.pStruct ns), .dict sub => .dict (populate ns [] sub)
  | _, v => v

end

/-- `ModelParser.get_dict_from_model` (src/models/__init__.py:278). -/
def get_dict_from_model (S : Schema) (r : Rec) (remove_null_entries : Bool) :
    Except PyErr Dict :=
  iter_dict text_from_property S remove_null_entries (to_dict S r)

/-- `NdbUtilMixIn.json_dict` (src/models/__init__.py:384). -/
def json_dict (S : Schema) (r : Rec) (skip_null_value : Bool) :
    Except PyErr Dict :=
  get_dict_from_model S r skip_null_value

/-- `ModelParser.set_dict_for_model` (src/models/__init__.py:239); the
deepcopy that protects the caller's dictionary is implicit in the purely
functional embedding. -/
def set_dict_for_model (S : Schema) (in_dict : Dict) (remove_null_entries : Bool) :
    Except PyErr Dict :=
  iter_dict value_for_property S remove_null_entries in_dict

/-- `NdbUtilMixIn.update` (src/models/__init__.py:416). -/
def update (S : Schema) (r : Rec) (in_dict : Dict) (skip_null_value : Bool) :
    Except PyErr Rec :=
  (set_dict_for_model S in_dict skip_null_value).map (populate S r)

/-! ## NdbUtilMixIn._patch_dict

The recursive in-place merge.  The Python loop runs over
`set(data.keys() + patch.keys())` and, per key, writes at most `data[key]` and
`patch[key]`; distinct keys do not interact, so the loop is modelled as a pass
that computes each key's two optional writebacks from the original
dictionaries and then applies them.  The recursion is driven by a fuel
parameter so that the definitions stay kernel-reducible; exhausted fuel maps
to Python's recursion limit (`RuntimeError`), which no call made by this
development ever reaches. -/

mutual

/-- The body of the `_patch_dict` loop for one key: `de`/`pe` are
`data.get(key)` and `patch.get(key)` (absent reads as null, as in Python).
The result is the optional writeback to `data[key]` and to `patch[key]`.
If either side is a dict, a null side is first replaced by `{}` and the merge
recurses (mutating both sides); a non-dict, non-null value on either side then
crashes with `AttributeError` (`.keys()` on a non-dict).  Otherwise a non-null
patch value overwrites and a null one is ignored. -/
def patch_val : Nat → Val → Val → Except PyErr (Option Val × Option Val)
  | 0, _, _ => .error .recursionError
  | n + 1, de, pe =>
    match de, pe with
    | .dict ds, .dict ps =>
      (patch_dict n ds ps).map (fun r => (some (.dict r.1), some (.dict r.2)))
    | .null, .dict ps =>
      (patch_dict n [] ps).map (fun r => (some (.dict r.1), some (.dict r.2)))
    | .dict ds, .null =>
      (patch_dict n ds []).map (fun r => (some (.dict r.1), some (.dict r.2)))
    | .dict _, _ => .error (.attributeError "keys")
    | _, .dict _ => .error (.attributeError "keys")
    | _, .null => .ok (none, none)
    | _, pv => .ok (some pv, none)

def patch_entries : Nat → List String → Dict → Dict →
    Except PyErr (List (String × Option Val × Option Val))
  | _, [], _, _ => .ok []
  | 0, _ :: _, _, _ => .error .recursionError
  | n + 1, k :: ks, ds, ps => do
    let r ← patch_val n (pyget ds k) (pyget ps k)
    let rest ← patch_entries n ks ds ps
    .ok ((k, r.1, r.2) :: rest)

def patch_dict : Nat → Dict → Dict → Except PyErr (Dict × Dict)
  | 0, _, _ => .error .recursionError
  | n + 1, ds, ps => do
    let res ← patch_entries n (Dict.keys ds ++ (Dict.keys ps).filter (fun k => !hasKey ds k)) ds ps
    .ok (res.foldl (fun d e => match e.2.1 with | some v => dset d e.1 v | none => d) ds,
         res.foldl (fun p e => match e.2.2 with | some v => dset p e.1 v | none => p) ps)

end

mutual

/-- Structural size of a value, used to provision the merge's fuel. -/
def vsize : Val → Nat
  | .dict es => 1 + dsize es
  | .key es => 1 + dsize es
  | _ => 1

def dsize : Dict → Nat
  | [] => 1
  | (_, v) :: rest => 1 + vsize v + dsize rest

end

/-- `NdbUtilMixIn._patch_dict` (src/models/__init__.py:398), entered with
enough fuel for its arguments. -/
def patch_dict_top (ds ps : Dict) : Except PyErr (Dict × Dict) :=
  patch_dict (dsize ds + dsize ps + 1) ds ps

/-- `NdbUtilMixIn.patch` (src/models/__init__.py:422).  Besides the updated
model, the result carries the caller's `in_dict` as `_patch_dict` left it,
because the merge mutates its `patch` argument in place (a pre-merge failure
leaves it untouched; a mid-merge crash would leave it partially mutated,
which is not modelled — the failing merge's mutations are dropped). -/
def patch (S : Schema) (r : Rec) (in_dict : Dict) (skip_null_value : Bool) :
    Except PyErr Rec × Dict :=
  match json_dict S r false with
  | .error e => (.error e, in_dict)
  | .ok current_data =>
    match patch_dict_top current_data in_dict with
    | .error e => (.error e, in_dict)
    | .ok (merged, mutated) =>
      match set_dict_for_model S merged skip_null_value with
      | .error e => (.error e, mutated)
      | .ok data_dict => (.ok (populate S r data_dict), mutated)

/-- The state transformer induced by `patch`: the model's fields after a
`patch(d)` call — unchanged when the call raises, since every failure happens
before `populate` touches the model. -/
def patchT (S : Schema) (r : Rec) (d : Dict) : Rec :=
  match (patch S r d false).1 with
  | .ok r2 => r2
  | .error _ => r

/-! ## Python value equality and truthiness -/

mutual

/-- Python `==` on the modelled values (`!=` is its negation). -/
def valBeq : Val → Val → Bool
  | .null, .null => true
  | .str a, .str b => a == b
  | .int a, .int b => a == b
  | .float a, .float b => a == b
  | .bool a, .bool b => a == b
  | .date a b c, .date a' b' c' => a == a' && b == b' && c == c'
  | .datetime a b c d e f g, .datetime a' b' c' d' e' f' g' =>
    a == a' && b == b' && c == c' && d == d' && e == e' && f == f' && g == g'
  | .key p, .key q => entriesBeq p q
  | .dict p, .dict q => entriesBeq p q
  | _, _ => false

def entriesBeq : List (String × Val) → List (String × Val) → Bool
  | [], [] => true
  | (k, v) :: r, (k', v') :: r' => k == k' && valBeq v v' && entriesBeq r r'
  | _, _ => false

end

/-- Python truthiness of the modelled values. -/
def pyTruthy : Val → Bool
  | .null => false
  | .str s => !(s == "")
  | .int n => !(n == 0)
  | .float bits => !(bits == 0)
  | .bool b => b
  | .date _ _ _ => true
  | .datetime _ _ _ _ _ _ _ => true
  | .key _ => true
  | .dict es => !es.isEmpty

/-- `"%s" % value` as far as the modelled error messages need it. -/
def valToString : Val → String
  | .null => "None"
  | .str s => s
  | .int n => toString n
  | .bool b => if b then "True" else "False"
  | _ => "<value>"

/-! ## The datastore collaborator

Modelled from the spec: the store is a key-value collaborator with
hierarchical keys — `get(Identity) -> Record|null`, `put(Record) ->
Identity`.  A stored entity carries its model class's name and its fields. -/

abbrev KeyPath := List (String × Val)

abbrev Store := List (KeyPath × (String × Rec))

def sget : Store → KeyPath → Option (String × Rec)
  | [], _ => none
  | (k, e) :: rest, p => if entriesBeq k p then some e else sget rest p

def supdate : Store → KeyPath → String × Rec → Store
  | [], p, e => [(p, e)]
  | (k, e') :: rest, p, e =>
    if entriesBeq k p then (p, e) :: rest else (k, e') :: supdate rest p e

/-- An ndb model instance as the mix-in-level operations see it: its class
name, its (pending) parent key, its assigned key, and its fields. -/
structure Entity where
  cls : String
  parent : Option KeyPath := none
  key : Option KeyPath := none
  fields : Rec := []

/-- `put`: an entity with a key overwrites its stored copy; one without gets a
fresh key under its pending parent (the generated numeric id is an arbitrary
deterministic choice standing in for the store's allocator). -/
def put_entity (store : Store) (ent : Entity) : Store × Entity :=
  match ent.key with
  | some k => (supdate store k (ent.cls, ent.fields), ent)
  | none =>
    let k := (ent.parent.getD []) ++ [(ent.cls, .int (Int.ofNat (store.length + 1000)))]
    (store ++ [(k, (ent.cls, ent.fields))], { ent with key := some k })

/-! ## NdbUtilMixIn class-level operations -/

/-- The per-class configuration that `NdbUtilMixIn.__init_class_variables`
and `NdbViewMixIn.__init_class_variables` normalise: unset attributes default
to `None`, except `_key_property` which defaults to `"key"`.  Python
`isinstance` against the expected class is modelled as class-name equality
(class hierarchies are not modelled). -/
structure MCls where
  name : String
  schema : Schema
  required_properties : Option (List String) := none
  identity_property : Option String := none
  parent_property : Option String := none
  key_property : Option String := some "key"
  classname_property : Option String := none

/-- `NdbUtilMixIn.check_required_properties` (src/models/__init__.py:352):
collects every declared required property whose current value is `None` and
raises one `MissingRequiredPropertyError` naming them all. -/
def check_required_properties (cls : MCls) (r : Rec) : Except PyErr Unit :=
  match cls.required_properties with
  | none => .ok ()
  | some props =>
    match props.filter (fun p => match pyget r p with | .null => true | _ => false) with
    | [] => .ok ()
    | missing => .error (.missingRequiredPropertyError missing)

/-- `NdbUtilMixIn.__raise_if_not_same_class` (src/models/__init__.py:388). -/
def raise_if_not_same_class (cls : MCls) (model_cls : String) : Except PyErr Unit :=
  if model_cls = cls.name then .ok ()
  else
    .error (.ndbModelMismatchError
      ("Expected model to be '" ++ cls.name ++ "' but got '" ++ model_cls ++ "'"))

/-- Key assignment at construction: an id fixes the key under the parent. -/
def model_new_mk (cls : MCls) (parent : Option KeyPath) (idv : Option Val) :
    Except PyErr Entity :=
  match idv with
  | none => .ok { cls := cls.name, parent := parent }
  | some (.int n) =>
    .ok { cls := cls.name, parent := parent,
          key := some ((parent.getD []) ++ [(cls.name, .int n)]) }
  | some (.str s) =>
    .ok { cls := cls.name, parent := parent,
          key := some ((parent.getD []) ++ [(cls.name, .str s)]) }
  | some _ => .error (.badValueError "id must be a string or an integer")

/-- `ndb.Model.__init__` as `create_from_dict` drives it: an explicit id
fixes the key immediately (under the parent, which must be an `ndb.Key`);
without an id the key stays unassigned until `put`. -/
def model_new (cls : MCls) (in_id : Option Val) (in_parent : Option Val) :
    Except PyErr Entity :=
  match in_parent with
  | some (.key p) => model_new_mk cls (some p) in_id
  | some _ => .error (.badValueError "Expected Key instance")
  | none => model_new_mk cls none in_id

/-- `NdbUtilMixIn.create_from_dict` (src/models/__init__.py:430): note the
truthiness test `if in_id:` — a falsy id (empty string, 0, `None`) is simply
not passed to the constructor. -/
def create_from_dict (cls : MCls) (in_dict : Dict) (in_id : Option Val)
    (in_parent : Option Val) (skip_null_value : Bool) : Except PyErr Entity := do
  let idArg := match in_id with
    | some v => if pyTruthy v then some v else none
    | none => none
  let parentArg := match in_parent with
    | some .null => none
    | x => x
  let ent ← model_new cls idArg parentArg
  let f2 ← update cls.schema ent.fields in_dict skip_null_value
  .ok { ent with fields := f2 }

/-- `NdbUtilMixIn.update_from_dict` (src/models/__init__.py:444): decode the
key (raising), fetch, raise `InvalidKeyError` with an entry-not-found message
when the store has nothing, `NdbModelMismatchError` when the stored model's
class is not the caller's, then `update`. -/
def update_from_dict (cls : MCls) (store : Store) (in_dict : Dict) (in_key : Val)
    (skip_null_value : Bool) : Except PyErr Entity := do
  let kv ← decode_ndb_key in_key true
  match kv with
  | .key p =>
    match sget store p with
    | none =>
      .error (.invalidKeyError ("Entry not found for key " ++ valToString in_key))
    | some (cn, fields) => do
      raise_if_not_same_class cls cn
      let f2 ← update cls.schema fields in_dict skip_null_value
      .ok { cls := cn, key := some p, fields := f2 }
  | _ => .error (.invalidKeyError "not a valid key")

/-- `NdbUtilMixIn.patch_from_dict` (src/models/__init__.py:461): as
`update_from_dict` but patching; the caller's dictionary comes back as
`patch` left it. -/
def patch_from_dict (cls : MCls) (store : Store) (in_dict : Dict) (in_key : Val)
    (skip_null_value : Bool) : Except PyErr Entity × Dict :=
  match decode_ndb_key in_key true with
  | .error e => (.error e, in_dict)
  | .ok kv =>
    match kv with
    | .key p =>
      match sget store p with
      | none =>
        (.error (.invalidKeyError ("Entry not found for key " ++ valToString in_key)),
         in_dict)
      | some (cn, fields) =>
        match raise_if_not_same_class cls cn with
        | .error e => (.error e, in_dict)
        | .ok _ =>
          let (res, d2) := patch cls.schema fields in_dict skip_null_value
          (res.map (fun f2 => { cls := cn, key := some p, fields := f2 }), d2)
    | _ => (.error (.invalidKeyError "not a valid key"), in_dict)

/-! ## NdbViewMixIn -/

/-- The result dictionary of `_read_dict_attributes`: one optional slot per
supported meta attribute; `some` marks presence in the result (a present slot
may still hold a null value, exactly as the Python dict can). -/
structure ParsedAttrs where
  id : Option Val := none
  parent : Option Val := none
  key : Option Val := none
  classname : Option Val := none

/-- `parsed.get(k)`: a present-but-null slot and an absent slot both read as
`None`. -/
def ParsedAttrs.pyopt : Option Val → Option Val
  | some .null => none
  | x => x

/-- One step of the `_read_dict_attributes` loop: when the attribute is
configured (truthy) and its field is present, move the field's value out of
the dictionary. -/
def take_attr (o : Option String) (d : Dict) : Option Val × Dict :=
  match o with
  | some a => if a ≠ "" ∧ hasKey d a then (some (pyget d a), ddel d a) else (none, d)
  | none => (none, d)

/-- `NdbViewMixIn._read_dict_attributes` (src/views/__init__.py:103): move
each configured meta field out of the incoming dictionary (mutating it), and
check a present classname against the class's name
(`NdbModelMismatchError` on mismatch).  The source iterates
`ATTRIBUTE_RESULT_MAP` in the interpreter's fixed but unspecified dict order;
the model fixes the declaration order identity, parent, key, classname.  The
dictionary returned alongside the parse reflects the deletions; when the
classname check aborts the call the partially-deleted dictionary is not
modelled. -/
def read_dict_attributes (cls : MCls) (d0 : Dict) : Except PyErr (ParsedAttrs × Dict) :=
  let t1 := take_attr cls.identity_property d0
  let t2 := take_attr cls.parent_property t1.2
  let t3 := take_attr cls.key_property t2.2
  match cls.classname_property with
  | some a =>
    if a ≠ "" ∧ hasKey t3.2 a then
      let v := pyget t3.2 a
      if valBeq v (.str cls.name) then
        .ok ({ id := t1.1, parent := t2.1, key := t3.1, classname := some v }, ddel t3.2 a)
      else
        .error (.ndbModelMismatchError
          ("Expected '" ++ cls.name ++ "' but got '" ++ valToString v ++ "' for '" ++
           a ++ "' property"))
    else .ok ({ id := t1.1, parent := t2.1, key := t3.1 }, t3.2)
  | none => .ok ({ id := t1.1, parent := t2.1, key := t3.1 }, t3.2)

/-- `key.id()`: the id of the key's last (kind, id) pair. -/
def keyId (k : KeyPath) : Val :=
  match k.getLast? with
  | some e => e.2
  | none => .null

/-- `NdbViewMixIn._set_dict_attributes` (src/views/__init__.py:128): render
the model and inject the configured meta fields, recomputed from the model's
actual key. -/
def set_dict_attributes (cls : MCls) (ent : Entity) : Except PyErr Dict := do
  let data ← json_dict cls.schema ent.fields false
  let k := ent.key.getD []
  let d1 := match cls.identity_property with
    | some a => if a ≠ "" then dset data a (keyId k) else data
    | none => data
  let d2 := match cls.parent_property with
    | some a =>
      if a ≠ "" then
        dset d1 a (match k.dropLast with
          | [] => .null
          | parent => .str (urlsafeOfPath parent))
      else d1
    | none => d1
  let d3 := match cls.key_property with
    | some a => if a ≠ "" then dset d2 a (.str (urlsafeOfPath k)) else d2
    | none => d2
  let d4 := match cls.classname_property with
    | some a => if a ≠ "" then dset d3 a (.str cls.name) else d3
    | none => d3
  .ok d4

/-- `NdbViewMixIn.view_create` (src/views/__init__.py:190): strip meta
fields, reject a caller-supplied key outright, build, persist, render.  The
returned triple is (store after the call, the caller's dictionary after the
call, result). -/
def view_create (cls : MCls) (store : Store) (in_dict : Dict) (skip_null_value : Bool) :
    Store × Dict × Except PyErr Dict :=
  match read_dict_attributes cls in_dict with
  | .error e => (store, in_dict, .error e)
  | .ok (parsed, d') =>
    match parsed.key with
    | some kv =>
      (store, d',
       .error (.viewValueError
         ("'" ++ valToString kv ++ "' key entry is not expected in the .view_create method")))
    | none =>
      match create_from_dict cls d' parsed.id parsed.parent skip_null_value with
      | .error e => (store, d', .error e)
      | .ok ent =>
        let (store2, ent2) := put_entity store ent
        (store2, d', set_dict_attributes cls ent2)

/-- `NdbViewMixIn._validate_input_urlsafe_key` (src/views/__init__.py:209).
Both arguments are Python-`None`-normalised before the call. -/
def validate_input_urlsafe_key (key_property : Option Val) (in_key : Option Val) :
    Except PyErr Val :=
  match key_property, in_key with
  | none, none =>
    .error (.viewValueError "Key property or urlsafe_key is required for this operation.")
  | none, some k => .ok k
  | some kp, none => .ok kp
  | some kp, some k =>
    if valBeq k kp then .ok k
    else
      .error (.keyMisMatchViewError
        ("Key provided in the JSON '" ++ valToString kp ++
         "' does not match the one URL '" ++ valToString k ++ "'"))

/-- `NdbViewMixIn.view_update` (src/views/__init__.py:231). -/
def view_update (cls : MCls) (store : Store) (in_dict : Dict) (in_key : Option Val)
    (skip_null_value : Bool) : Store × Dict × Except PyErr Dict :=
  match read_dict_attributes cls in_dict with
  | .error e => (store, in_dict, .error e)
  | .ok (parsed, d') =>
    match validate_input_urlsafe_key (ParsedAttrs.pyopt parsed.key)
        (ParsedAttrs.pyopt in_key) with
    | .error e => (store, d', .error e)
    | .ok key =>
      match update_from_dict cls store d' key skip_null_value with
      | .error e => (store, d', .error e)
      | .ok ent =>
        let (store2, ent2) := put_entity store ent
        (store2, d', set_dict_attributes cls ent2)

/-- `NdbViewMixIn.view_patch` (src/views/__init__.py:248): as `view_update`
but through `patch_from_dict`, whose in-place merge also mutates the caller's
dictionary. -/
def view_patch (cls : MCls) (store : Store) (in_dict : Dict) (in_key : Option Val)
    (skip_null_value : Bool) : Store × Dict × Except PyErr Dict :=
  match read_dict_attributes cls in_dict with
  | .error e => (store, in_dict, .error e)
  | .ok (parsed, d') =>
    match validate_input_urlsafe_key (ParsedAttrs.pyopt parsed.key)
        (ParsedAttrs.pyopt in_key) with
    | .error e => (store, d', .error e)
    | .ok key =>
      match patch_from_dict cls store d' key skip_null_value with
      | (.error e, d'') => (store, d'', .error e)
      | (.ok ent, d'') =>
        let (store2, ent2) := put_entity store ent
        (store2, d'', set_dict_attributes cls ent2)

/-! ## Helper predicates and concrete fixtures used by the statements -/

/-- Does the computation raise the spec taxonomy's `NotFoundError`? -/
def isNotFoundError {α : Type} : Except PyErr α → Bool
  | .error (.notFoundError _) => true
  | _ => false

/-- Is this exception a `MissingRequiredPropertyError`? -/
def PyErr.isMissingRequired : PyErr → Bool
  | .missingRequiredPropertyError _ => true
  | _ => false

/-- Does the computation raise `MissingRequiredPropertyError`? -/
def raisesMissingRequired {α : Type} : Except PyErr α → Bool
  | .error e => e.isMissingRequired
  | .ok _ => false

/-- Is `k` one of the class's configured (truthy) meta field names? -/
def metaName (cls : MCls) (k : String) : Bool :=
  let is := fun (o : Option String) =>
    match o with
    | some a => a == k && !(a == "")
    | none => false
  is cls.identity_property || is cls.parent_property ||
    is cls.key_property || is cls.classname_property

/-- A value a real Python `datetime.date` / `datetime.datetime` object could
be: their constructors validate the component ranges. -/
def validValue : Val → Bool
  | .date y m d => validDate y m d
  | .datetime y m d h mi s us => validDate y m d && validTime h mi s && us < 1000000
  | _ => true

/-- The `Person{name, birthday}` schema of the spec's scenarios. -/
def PersonS : Schema := [("name", .pStr), ("birthday", .pDate)]

/-- A one-field nested schema for the patch-vs-update scenario. -/
def NestS : Schema := [("nested", .pStruct [("a", .pInt), ("b", .pInt)])]

/-- A record of `NestS` whose nested field holds `{a:1, b:2}`. -/
def NestR : Rec := [("nested", .dict [("a", .int 1), ("b", .int 2)])]

/-- A depth-3 schema exercising every supported value kind. -/
def DeepS : Schema :=
  [("s", .pStr), ("i", .pInt), ("f", .pFloat), ("b", .pBool),
   ("d", .pDate), ("dt", .pDateTime), ("ref", .pKey),
   ("n1", .pStruct
     [("x", .pInt),
      ("n2", .pStruct
        [("y", .pStr),
         ("n3", .pStruct [("z", .pBool)])])])]

/-- A fully populated record of `DeepS`, including a key-valued field. -/
def DeepR : Rec :=
  [("s", .str "ann"), ("i", .int 7), ("f", .float 13), ("b", .bool true),
   ("d", .date 1990 1 19), ("dt", .datetime 2017 4 19 22 4 9 500000),
   ("ref", .key [("T", .int 1)]),
   ("n1", .dict
     [("x", .int 1),
      ("n2", .dict
        [("y", .str "deep"),
         ("n3", .dict [("z", .bool false)])])])]

/-- A minimal model class for the class-level lookup scenarios. -/
def WidgetCls : MCls := { name := "Widget", schema := [("x", .pInt)] }

/-- A class with one nested-record field, for the view-mutation scenarios. -/
def ThingCls : MCls := { name := "Thing", schema := [("n", .pStruct [("a", .pInt)])] }

/-- A store holding one `Thing` whose nested field is `{a:1}`. -/
def ThingStore : Store :=
  [([("Thing", .int 7)], ("Thing", [("n", .dict [("a", .int 1)])]))]

/-! ## Auxiliary definitions for the patch-idempotence development -/

/-- The conversion `_iter_dict` applies to one entry: a `None` value is left
alone (the loop `continue`s past it when not removing nulls), any other value
goes through `_get_property_from_model_by_name` + the conversion hook
(`iter_entry`). -/
def eConv (cv : PTy → Val → Except PyErr Val) (o : Option PTy) (k : String)
    (v : Val) : Except PyErr Val :=
  match v with
  | .null => .ok .null
  | _ => iter_entry cv o k v

/-- The `data`-side writeback `_patch_dict` performs at a key whose patch
entry reads as `None`: a dictionary on the data side is merged with `{}` (and
written back), anything else is left alone. -/
def vnilWriteback : Val → Option Val
  | .dict ds => some (.dict ds)
  | _ => none

mutual

/-- Structural size of a property kind, used as the termination measure of the
patch-idempotence induction. -/
def tsize : PTy → Nat
  | .pStruct ns => 1 + ssize ns
  | _ => 1

/-- Structural size of a schema. -/
def ssize : Schema → Nat
  | [] => 1
  | (_, ty) :: rest => 1 + tsize ty + ssize rest

end

/-! # Theorems -/

/-! ## Dictionary lemmas -/

theorem dget_ddel_ne (d : Dict) (k' k : String) (h : k' ≠ k) :
    dget (ddel d k') k = dget d k := by
  induction d with
  | nil => rfl
  | cons e rest ih =>
    obtain ⟨ek, ev⟩ := e
    by_cases he : ek = k'
    · subst he
      simp [ddel, dget, h]
    · simp [ddel, dget, he]
      by_cases hk : ek = k
      · simp [hk]
      · simp [hk, ih]

theorem take_attr_dget_ne (o : Option String) (d : Dict) (a : String)
    (h : o ≠ some a) : dget (take_attr o d).2 a = dget d a := by
  match o with
  | none => rfl
  | some b =>
    have hb : b ≠ a := fun hba => h (by rw [hba])
    unfold take_attr
    by_cases hc : b ≠ "" ∧ hasKey d b
    · simp [hc, dget_ddel_ne d b a hb]
    · simp [hc]

/-- C2: on a record whose nested field holds `{a:1, b:2}`,
`update({nested:{a:9}})` replaces the nested record wholesale — afterwards it
holds `{a:9}` and `b` is lost — while `patch({nested:{a:9}})` deep-merges —
afterwards it holds `{a:9, b:2}`. -/
theorem C2_update_replaces_patch_merges :
    update NestS NestR [("nested", .dict [("a", .int 9)])] false =
      .ok [("nested", .dict [("a", .int 9)])] ∧
    (patch NestS NestR [("nested", .dict [("a", .int 9)])] false).1 =
      .ok [("nested", .dict [("a", .int 9), ("b", .int 2)])] :=
  ⟨rfl, rfl⟩

/-- C3: the round-trip breaks on the code as written — converting a record
that uses a key-reference field to a dictionary raises `ParserConversionError`
(wrapping the `ValueError` of `text_from_property`'s inverted isinstance
test), so `toRecordValues(fromRecordValues(r))` cannot even start. -/
theorem C3_roundtrip_fails_on_key_field :
    get_dict_from_model DeepS DeepR false = .error (.parserConversionError "ValueError") :=
  rfl

/-- C4: `text_from_property` raises `ValueError` for every non-null key field
value instead of returning its urlsafe text: the source compares the value
against the `ndb.KeyProperty` descriptor class rather than `ndb.Key`.
`get_dict_from_model` consequently wraps that as `ParserConversionError`. -/
theorem C4_key_value_raises_instead_of_urlsafe :
    text_from_property .pKey (.key [("Thing", .int 7)]) =
      .error (.valueError "Expected KeyProperty") ∧
    get_dict_from_model [("ref", .pKey)] [("ref", .key [("Thing", .int 7)])] false =
      .error (.parserConversionError "ValueError") :=
  ⟨rfl, rfl⟩

/-- C5: `decode_ndb_key` on malformed or wrong-typed input raises
`InvalidKeyError` when `raise_exception` is true, but when `raise_exception`
is false it does not return `None`: the swallowed decode failure leaves `res`
unassigned and the final `return res` raises `UnboundLocalError`. -/
theorem C5_decode_garbage_crashes_instead_of_none :
    decode_ndb_key (.str "garbage") true =
      .error (.invalidKeyError "Key 'garbage' is not a valid key") ∧
    decode_ndb_key (.str "garbage") false = .error .unboundLocalError ∧
    decode_ndb_key (.int 42) true = .error (.invalidKeyError "not a valid key") ∧
    decode_ndb_key (.int 42) false = .error .unboundLocalError :=
  ⟨rfl, rfl, rfl, rfl⟩

/-- C6 counterexample: with a well-formed key whose entry is absent,
`update_from_dict` raises `InvalidKeyError` ("Entry not found ..."), not the
spec taxonomy's distinct `NotFoundError` kind. -/
theorem C6_counterexample :
    update_from_dict WidgetCls [] [] (.str "agxWidget.i1.") false =
      .error (.invalidKeyError "Entry not found for key agxWidget.i1.") ∧
    isNotFoundError (update_from_dict WidgetCls [] [] (.str "agxWidget.i1.") false) = false :=
  ⟨rfl, rfl⟩

/-- C9 counterexample: on a Person whose birthday is already set,
`patch({"birthday": null})` does not null the field — the merge ignores null
patch values — so the subsequent full read reports the old birthday, not
null. -/
theorem C9_counterexample :
    json_dict PersonS
      (patchT PersonS [("name", .str "Ann"), ("birthday", .date 1990 1 19)]
        [("birthday", .null)]) false =
      .ok [("name", .str "Ann"), ("birthday", .str "1990-01-19")] ∧
    Val.str "1990-01-19" ≠ Val.null :=
  ⟨rfl, by simp⟩

/-- C10 counterexample: `view_patch` does not leave the non-meta entries of
the caller's dictionary unchanged: the in-place merge rewrites a null-valued
nested entry to `{}` (while the call itself succeeds). -/
theorem C10_counterexample :
    (view_patch ThingCls ThingStore [("key", .str "agxThing.i7."), ("n", .null)]
        none false).2.1 = [("n", .dict [])] ∧
    dget [("n", Val.dict [])] "n" ≠ dget [("key", Val.str "agxThing.i7."), ("n", Val.null)] "n" ∧
    (view_patch ThingCls ThingStore [("key", .str "agxThing.i7."), ("n", .null)]
        none false).2.2 =
      .ok [("n", .dict [("a", .int 1)]), ("key", .str "agxThing.i7.")] :=
  ⟨rfl, by simp [dget], rfl⟩

/-- C6 amended: `updateFromDict` / `patchFromDict` with a well-formed key
look the Record up first and raise `InvalidKeyError` (with an entry-not-found
message — the source has no separate `NotFoundError` class) when the lookup
returns nothing, and `NdbModelMismatchError` (the spec's
`TypeMismatchError`) when the looked-up Record's class differs from the
caller's expected class. -/
theorem C6_amended (cls : MCls) (store : Store) (d : Dict) (tok : Val) (sk : Bool)
    (p : KeyPath) (hdec : decode_ndb_key tok true = .ok (.key p)) :
    (sget store p = none →
      update_from_dict cls store d tok sk =
        .error (.invalidKeyError ("Entry not found for key " ++ valToString tok)) ∧
      (patch_from_dict cls store d tok sk).1 =
        .error (.invalidKeyError ("Entry not found for key " ++ valToString tok))) ∧
    (∀ cn fields, sget store p = some (cn, fields) → cn ≠ cls.name →
      update_from_dict cls store d tok sk =
        .error (.ndbModelMismatchError
          ("Expected model to be '" ++ cls.name ++ "' but got '" ++ cn ++ "'")) ∧
      (patch_from_dict cls store d tok sk).1 =
        .error (.ndbModelMismatchError
          ("Expected model to be '" ++ cls.name ++ "' but got '" ++ cn ++ "'"))) := by
  constructor
  · intro hs
    constructor
    · simp [update_from_dict, hdec, hs, Bind.bind, Except.bind]
    · simp [patch_from_dict, hdec, hs]
  · intro cn fields hs hcn
    constructor
    · simp [update_from_dict, hdec, hs, raise_if_not_same_class, hcn,
        Bind.bind, Except.bind]
    · simp [patch_from_dict, hdec, hs, raise_if_not_same_class, hcn]

theorem C6_amended_witness :
    update_from_dict WidgetCls [] [("x", Val.int 5)] (.str "agxWidget.i1.") false =
      .error (.invalidKeyError "Entry not found for key agxWidget.i1.") ∧
    (patch_from_dict WidgetCls
        [([("Widget", .int 1)], ("Gadget", []))]
        [("x", Val.int 5)] (.str "agxWidget.i1.") false).1 =
      .error (.ndbModelMismatchError "Expected model to be 'Widget' but got 'Gadget'") :=
  ⟨((C6_amended WidgetCls [] [("x", .int 5)] (.str "agxWidget.i1.") false
      [("Widget", .int 1)] rfl).1 rfl).1,
   ((C6_amended WidgetCls [([("Widget", .int 1)], ("Gadget", []))] [("x", .int 5)]
      (.str "agxWidget.i1.") false [("Widget", .int 1)] rfl).2 "Gadget" [] rfl
      (by simp [WidgetCls])).2⟩

/-- C7: `view_create` with a present classname field whose value differs from
the class's declared name raises `NdbModelMismatchError` (the spec's
`TypeMismatchError`) and performs no persist: the returned store is the one
passed in, untouched, and the caller's dictionary is returned as given.  The
configured identity/parent/key names must differ from the classname field's
name (as they do in any sensible configuration), since those attributes are
consumed from the dictionary first. -/
theorem C7_classname_mismatch_no_persist (cls : MCls) (store : Store) (d : Dict)
    (sk : Bool) (a : String) (v : Val)
    (ha : cls.classname_property = some a) (hne : a ≠ "")
    (hid : cls.identity_property ≠ some a) (hp : cls.parent_property ≠ some a)
    (hk : cls.key_property ≠ some a)
    (hv : dget d a = some v) (hmm : valBeq v (.str cls.name) = false) :
    view_create cls store d sk =
      (store, d, .error (.ndbModelMismatchError
        ("Expected '" ++ cls.name ++ "' but got '" ++ valToString v ++ "' for '" ++
         a ++ "' property"))) := by
  have h3 : dget (take_attr cls.key_property
      (take_attr cls.parent_property (take_attr cls.identity_property d).2).2).2 a
      = some v := by
    rw [take_attr_dget_ne _ _ _ hk, take_attr_dget_ne _ _ _ hp,
      take_attr_dget_ne _ _ _ hid, hv]
  have hhas : hasKey (take_attr cls.key_property
      (take_attr cls.parent_property (take_attr cls.identity_property d).2).2).2 a
      = true := by
    simp [hasKey, h3]
  have hpy : pyget (take_attr cls.key_property
      (take_attr cls.parent_property (take_attr cls.identity_property d).2).2).2 a
      = v := by
    simp [pyget, h3]
  have hread : read_dict_attributes cls d =
      .error (.ndbModelMismatchError
        ("Expected '" ++ cls.name ++ "' but got '" ++ valToString v ++ "' for '" ++
         a ++ "' property")) := by
    unfold read_dict_attributes
    rw [ha]
    simp [hhas, hne, hpy, hmm]
  simp [view_create, hread]

/-! ## Size lemmas -/

theorem dsize_pos (d : Dict) : 1 ≤ dsize d := by
  cases d <;> simp [dsize] <;> omega

theorem vsize_pos (v : Val) : 1 ≤ vsize v := by
  cases v <;> simp [vsize]

theorem dsize_tail_lt (k : String) (v : Val) (rest : Dict) :
    dsize rest < dsize ((k, v) :: rest) := by
  have := vsize_pos v
  simp only [dsize]
  omega

theorem dsize_head_dict_lt (k : String) (sub : Dict) (rest : Dict) :
    dsize sub < dsize ((k, .dict sub) :: rest) := by
  have := dsize_pos rest
  simp only [dsize, vsize]
  omega

/-! ## Error classification: no modelled mutation path raises
`MissingRequiredPropertyError` (C8's "invoked only at persist time") -/

theorem except_bind_noMissing {α β : Type} (ma : Except PyErr α) (f : α → Except PyErr β)
    (h1 : raisesMissingRequired ma = false) (h2 : ∀ a, raisesMissingRequired (f a) = false) :
    raisesMissingRequired (ma >>= f) = false := by
  cases ma with
  | ok a => simpa [Bind.bind, Except.bind] using h2 a
  | error e =>
    simp only [raisesMissingRequired] at h1
    simpa [Bind.bind, Except.bind, raisesMissingRequired] using h1

theorem except_map_noMissing {α β : Type} (ma : Except PyErr α) (f : α → β)
    (h1 : raisesMissingRequired ma = false) :
    raisesMissingRequired (ma.map f) = false := by
  cases ma with
  | ok a => simp [Except.map, raisesMissingRequired]
  | error e =>
    simp only [raisesMissingRequired] at h1
    simpa [Except.map, raisesMissingRequired] using h1

theorem iter_entry_noMissing (cv : PTy → Val → Except PyErr Val) (o : Option PTy)
    (k : String) (v : Val)
    (hnest : ∀ ns sub, v = .dict sub →
      raisesMissingRequired (iter_dict cv ns false sub) = false) :
    raisesMissingRequired (iter_entry cv o k v) = false := by
  cases o with
  | none => simp [iter_entry, raisesMissingRequired, PyErr.isMissingRequired]
  | some ty =>
    cases ty
    case pStruct ns =>
      cases v
      case dict sub =>
        simp only [iter_entry]
        exact except_map_noMissing _ _ (hnest ns sub rfl)
      all_goals simp [iter_entry, raisesMissingRequired, PyErr.isMissingRequired]
    all_goals
      simp only [iter_entry]
      split <;> simp [raisesMissingRequired, PyErr.isMissingRequired]

theorem iter_dict_noMissing (cv : PTy → Val → Except PyErr Val) :
    ∀ (N : Nat) (S : Schema) (rn : Bool) (d : Dict), dsize d ≤ N →
      raisesMissingRequired (iter_dict cv S rn d) = false := by
  intro N
  induction N with
  | zero =>
    intro S rn d h
    have := dsize_pos d
    omega
  | succ N ih =>
    intro S rn d hle
    match d with
    | [] => simp [iter_dict, raisesMissingRequired, PyErr.isMissingRequired]
    | (k, v) :: rest =>
      have hrest : dsize rest ≤ N := by
        have := dsize_tail_lt k v rest
        omega
      have htail := ih S rn rest hrest
      have hentry : ∀ o, raisesMissingRequired (iter_entry cv o k v) = false := by
        intro o
        apply iter_entry_noMissing
        intro ns sub hv
        apply ih ns false sub
        subst hv
        have := dsize_head_dict_lt k sub rest
        omega
      cases v
      case null =>
        cases rn with
        | true => simpa [iter_dict] using ih S true rest hrest
        | false =>
          simp only [iter_dict]
          exact except_map_noMissing _ _ (ih S false rest hrest)
      all_goals
        simp only [iter_dict]
        refine except_bind_noMissing _ _ (hentry _) (fun v2 => ?_)
        refine except_bind_noMissing _ _ htail (fun tail => ?_)
        rfl

theorem patch_fuel_noMissing (n : Nat) :
    (∀ de pe, raisesMissingRequired (patch_val n de pe) = false) ∧
    (∀ ks ds ps, raisesMissingRequired (patch_entries n ks ds ps) = false) ∧
    (∀ ds ps, raisesMissingRequired (patch_dict n ds ps) = false) := by
  induction n with
  | zero =>
    refine ⟨fun de pe => by simp [patch_val, raisesMissingRequired, PyErr.isMissingRequired],
      fun ks ds ps => ?_, fun ds ps => by simp [patch_dict, raisesMissingRequired, PyErr.isMissingRequired]⟩
    cases ks <;> simp [patch_entries, raisesMissingRequired, PyErr.isMissingRequired]
  | succ n ih =>
    obtain ⟨ihv, ihe, ihd⟩ := ih
    refine ⟨?_, ?_, ?_⟩
    · intro de pe
      cases de <;> cases pe <;>
        simp only [patch_val] <;>
        first
          | exact except_map_noMissing _ _ (ihd _ _)
          | simp [raisesMissingRequired, PyErr.isMissingRequired]
    · intro ks ds ps
      cases ks with
      | nil => simp [patch_entries, raisesMissingRequired, PyErr.isMissingRequired]
      | cons k ks =>
        simp only [patch_entries]
        exact except_bind_noMissing _ _ (ihv _ _)
          (fun r => except_bind_noMissing _ _ (ihe _ _ _) (fun rest => rfl))
    · intro ds ps
      simp only [patch_dict]
      exact except_bind_noMissing _ _ (ihe _ _ _) (fun res => rfl)

theorem update_noMissing (S : Schema) (r : Rec) (d : Dict) (sk : Bool) :
    raisesMissingRequired (update S r d sk) = false := by
  unfold update set_dict_for_model
  exact except_map_noMissing _ _ (iter_dict_noMissing _ (dsize d) S sk d le_rfl)

theorem patch_noMissing (S : Schema) (r : Rec) (d : Dict) (sk : Bool) :
    raisesMissingRequired ((patch S r d sk).1) = false := by
  unfold patch
  split
  next e heq =>
    have h := iter_dict_noMissing text_from_property (dsize (to_dict S r)) S false
      (to_dict S r) le_rfl
    simp only [json_dict, get_dict_from_model] at heq
    rw [heq] at h
    simpa [raisesMissingRequired] using h
  next cur heq =>
    split
    next e heq2 =>
      have h := (patch_fuel_noMissing (dsize cur + dsize d + 1)).2.2 cur d
      simp only [patch_dict_top] at heq2
      rw [heq2] at h
      simpa [raisesMissingRequired] using h
    next merged mutated heq2 =>
      split
      next e heq3 =>
        have h := iter_dict_noMissing value_for_property (dsize merged) S sk merged le_rfl
        simp only [set_dict_for_model] at heq3
        rw [heq3] at h
        simpa [raisesMissingRequired] using h
      next data heq3 => simp [raisesMissingRequired]

theorem model_new_mk_noMissing (cls : MCls) (par : Option KeyPath) (idv : Option Val) :
    raisesMissingRequired (model_new_mk cls par idv) = false := by
  cases idv with
  | none => simp [model_new_mk, raisesMissingRequired]
  | some v =>
    cases v <;> simp [model_new_mk, raisesMissingRequired, PyErr.isMissingRequired]

theorem model_new_noMissing (cls : MCls) (i p : Option Val) :
    raisesMissingRequired (model_new cls i p) = false := by
  cases p with
  | none => simpa [model_new] using model_new_mk_noMissing cls none i
  | some v =>
    cases v
    case key p => simpa [model_new] using model_new_mk_noMissing cls (some p) i
    all_goals simp [model_new, raisesMissingRequired, PyErr.isMissingRequired]

theorem create_from_dict_noMissing (cls : MCls) (d : Dict) (idv pv : Option Val)
    (sk : Bool) : raisesMissingRequired (create_from_dict cls d idv pv sk) = false := by
  unfold create_from_dict
  refine except_bind_noMissing _ _ (model_new_noMissing _ _ _) (fun ent => ?_)
  exact except_bind_noMissing _ _ (update_noMissing _ _ _ _) (fun f2 => rfl)

theorem C7_witness :
    view_create
      { name := "Widget", schema := [("x", .pInt)], classname_property := some "classname" }
      [] [("classname", .str "Gadget"), ("x", .int 1)] false =
      ([], [("classname", .str "Gadget"), ("x", .int 1)],
       .error (.ndbModelMismatchError
         "Expected 'Widget' but got 'Gadget' for 'classname' property")) :=
  C7_classname_mismatch_no_persist
    { name := "Widget", schema := [("x", .pInt)], classname_property := some "classname" }
    [] [("classname", .str "Gadget"), ("x", .int 1)] false "classname" (.str "Gadget")
    rfl (by simp) (by simp) (by simp) (by simp) rfl rfl

/-- C8: `check_required_properties` raises one
`MissingRequiredPropertyError` naming every declared required property whose
current value is null — every such property appears in the single raised
error, not just the first — raises nothing when all required properties are
non-null, and `update` / `patch` / `create_from_dict` never perform this
check themselves (no input can make them raise it). -/
theorem C8_required_check (cls : MCls) (props : List String) (r : Rec)
    (hreq : cls.required_properties = some props) :
    (∀ p ∈ props, pyget r p = .null →
      ∃ ms, check_required_properties cls r =
          .error (.missingRequiredPropertyError ms) ∧ p ∈ ms) ∧
    ((∀ p ∈ props, pyget r p ≠ .null) → check_required_properties cls r = .ok ()) ∧
    (∀ S r' d sk, raisesMissingRequired (update S r' d sk) = false) ∧
    (∀ S r' d sk, raisesMissingRequired ((patch S r' d sk).1) = false) ∧
    (∀ c' d i pv sk, raisesMissingRequired (create_from_dict c' d i pv sk) = false) := by
  refine ⟨?_, ?_, update_noMissing, patch_noMissing, create_from_dict_noMissing⟩
  · intro p hp hnull
    have hmem : p ∈ props.filter
        (fun p => match pyget r p with | Val.null => true | _ => false) :=
      List.mem_filter.mpr ⟨hp, by rw [hnull]⟩
    unfold check_required_properties
    rw [hreq]
    dsimp only
    cases hms : props.filter
        (fun p => match pyget r p with | Val.null => true | _ => false) with
    | nil =>
      rw [hms] at hmem
      exact absurd hmem (List.not_mem_nil p)
    | cons a l =>
      rw [hms] at hmem
      exact ⟨a :: l, rfl, hmem⟩
  · intro hall
    unfold check_required_properties
    rw [hreq]
    dsimp only
    have hnil : props.filter
        (fun p => match pyget r p with | Val.null => true | _ => false) = [] := by
      rw [List.filter_eq_nil]
      intro a ha hpred
      apply hall a ha
      revert hpred
      cases hv : pyget r a <;> simp
    rw [hnil]

theorem C8_required_check_witness :
    (∃ ms, check_required_properties
        { name := "W", schema := [("a", .pStr), ("b", .pStr)],
          required_properties := some ["a", "b"] }
        [("a", .null)] = .error (.missingRequiredPropertyError ms) ∧ "b" ∈ ms) ∧
    check_required_properties
        { name := "W", schema := [("a", .pStr), ("b", .pStr)],
          required_properties := some ["a", "b"] }
        [("a", .str "x"), ("b", .str "y")] = .ok () ∧
    raisesMissingRequired (update [("a", .pStr)] [] [("a", .str "v")] false) = false :=
  ⟨(C8_required_check _ ["a", "b"] [("a", .null)] rfl).1 "b" (by simp) rfl,
   (C8_required_check _ ["a", "b"] [("a", .str "x"), ("b", .str "y")] rfl).2.1
     (by
       intro p hp
       fin_cases hp <;> simp [pyget, dget]),
   (C8_required_check
       { name := "W", schema := [], required_properties := some [] } [] [] rfl).2.2.1
     [("a", .pStr)] [] [("a", .str "v")] false⟩

/-! ## More dictionary lemmas -/

theorem dget_dset_self (d : Dict) (k : String) (v : Val) :
    dget (dset d k v) k = some v := by
  induction d with
  | nil => simp [dset, dget]
  | cons e rest ih =>
    obtain ⟨ek, ev⟩ := e
    by_cases he : ek = k
    · simp [dset, he, dget]
    · simp [dset, he, dget, ih]

theorem dget_dset_ne (d : Dict) (k' k : String) (v : Val) (h : k' ≠ k) :
    dget (dset d k' v) k = dget d k := by
  induction d with
  | nil => simp [dset, dget, h]
  | cons e rest ih =>
    obtain ⟨ek, ev⟩ := e
    by_cases he : ek = k'
    · subst he
      simp [dset, dget, h]
    · simp only [dset, if_neg he, dget]
      by_cases hk : ek = k
      · simp [hk]
      · simp [hk, ih]

theorem hasKey_false_iff (d : Dict) (k : String) :
    hasKey d k = false ↔ dget d k = none := by
  unfold hasKey
  cases dget d k <;> simp

theorem dget_none_iff (d : Dict) (k : String) :
    dget d k = none ↔ k ∉ Dict.keys d := by
  induction d with
  | nil => simp [dget, Dict.keys]
  | cons e rest ih =>
    obtain ⟨ek, ev⟩ := e
    simp only [Dict.keys, List.map_cons, List.mem_cons, dget]
    by_cases he : ek = k
    · subst he
      simp
    · rw [if_neg he, ih]
      simp only [Dict.keys]
      constructor
      · intro hn hc
        rcases hc with hc | hc
        · exact he hc.symm
        · exact hn hc
      · intro hn hc
        exact hn (Or.inr hc)

theorem dget_ddel_none (d : Dict) (b k : String) (h : dget d k = none) :
    dget (ddel d b) k = none := by
  induction d with
  | nil => simpa [ddel] using h
  | cons e rest ih =>
    obtain ⟨ek, ev⟩ := e
    simp only [dget] at h
    by_cases hk : ek = k
    · simp [hk] at h
    · rw [if_neg hk] at h
      by_cases hb : ek = b
      · simpa [ddel, hb] using h
      · simp only [ddel, if_neg hb, dget, if_neg hk]
        exact ih h

theorem dictWF_tail (e : String × Val) (rest : Dict) (h : dictWF (e :: rest) = true) :
    dictWF rest = true := by
  obtain ⟨k, v⟩ := e
  simp only [dictWF, Bool.and_eq_true] at h
  exact h.2

theorem dictWF_head_not (k : String) (v : Val) (rest : Dict)
    (h : dictWF ((k, v) :: rest) = true) : dget rest k = none := by
  simp only [dictWF, Bool.and_eq_true, Bool.not_eq_true'] at h
  exact (hasKey_false_iff rest k).mp h.1.1

theorem dget_ddel_self_wf (d : Dict) (k : String) (h : dictWF d = true) :
    dget (ddel d k) k = none := by
  induction d with
  | nil => simp [ddel, dget]
  | cons e rest ih =>
    obtain ⟨ek, ev⟩ := e
    by_cases hk : ek = k
    · subst hk
      simp only [ddel, if_true]
      exact dictWF_head_not ek ev rest h
    · simp only [ddel, if_neg hk, dget, if_neg hk]
      exact ih (dictWF_tail _ _ h)

theorem dictWF_ddel (d : Dict) (b : String) (h : dictWF d = true) :
    dictWF (ddel d b) = true := by
  induction d with
  | nil => simpa [ddel] using h
  | cons e rest ih =>
    obtain ⟨ek, ev⟩ := e
    have hrest := dictWF_tail _ _ h
    have hnk := dictWF_head_not ek ev rest h
    simp only [dictWF, Bool.and_eq_true, Bool.not_eq_true'] at h
    by_cases hb : ek = b
    · simpa [ddel, hb] using hrest
    · simp only [ddel, if_neg hb, dictWF, Bool.and_eq_true, Bool.not_eq_true']
      refine ⟨⟨?_, h.1.2⟩, ih hrest⟩
      rw [hasKey_false_iff]
      exact dget_ddel_none rest b ek hnk

/-! ## Except inversion lemmas -/

theorem except_map_ok {α β : Type} {ma : Except PyErr α} {f : α → β} {x : β}
    (h : ma.map f = .ok x) : ∃ a, ma = .ok a ∧ x = f a := by
  cases ma with
  | ok a =>
    refine ⟨a, rfl, ?_⟩
    simpa [Except.map] using h.symm
  | error e => simp [Except.map] at h

theorem except_bind_ok {α β : Type} {ma : Except PyErr α} {f : α → Except PyErr β}
    {x : β} (h : ma >>= f = .ok x) : ∃ a, ma = .ok a ∧ f a = .ok x := by
  cases ma with
  | ok a => exact ⟨a, rfl, by simpa [Bind.bind, Except.bind] using h⟩
  | error e => simp [Bind.bind, Except.bind] at h

/-! ## _iter_dict inversion -/

theorem iter_false_nil (cv : PTy → Val → Except PyErr Val) (S : Schema) :
    iter_dict cv S false [] = .ok [] := rfl

theorem iter_false_cons_null (cv : PTy → Val → Except PyErr Val) (S : Schema)
    (k : String) (rest : Dict) :
    iter_dict cv S false ((k, .null) :: rest) =
      (iter_dict cv S false rest).map (fun tail => (k, .null) :: tail) := by
  simp [iter_dict]

theorem iter_false_cons_nonnull (cv : PTy → Val → Except PyErr Val) (S : Schema)
    (k : String) (v : Val) (rest : Dict) (hv : v ≠ Val.null) :
    iter_dict cv S false ((k, v) :: rest) =
      (iter_entry cv (lookupProp S k) k v) >>=
        (fun v2 => (iter_dict cv S false rest).map (fun tail => (k, v2) :: tail)) := by
  cases v
  case null => exact absurd rfl hv
  all_goals
    simp only [iter_dict]
    cases h1 : iter_entry cv (lookupProp S k) k _ with
    | ok v2 =>
      simp only [Bind.bind, Except.bind]
      cases h2 : iter_dict cv S false rest <;> simp [Except.map]
    | error e => simp [Bind.bind, Except.bind]

/-! ## Merge fuel lemmas -/

theorem patch_fuel_mono : ∀ n : Nat,
    (∀ de pe x, patch_val n de pe = .ok x → ∀ m, n ≤ m → patch_val m de pe = .ok x) ∧
    (∀ ks ds ps x, patch_entries n ks ds ps = .ok x →
      ∀ m, n ≤ m → patch_entries m ks ds ps = .ok x) ∧
    (∀ ds ps x, patch_dict n ds ps = .ok x → ∀ m, n ≤ m → patch_dict m ds ps = .ok x) := by
  intro n
  induction n with
  | zero =>
    refine ⟨fun de pe x h => by simp [patch_val] at h,
      fun ks ds ps x h m hm => ?_,
      fun ds ps x h => by simp [patch_dict] at h⟩
    cases ks with
    | nil => cases m <;> simpa [patch_entries] using h
    | cons k ks => simp [patch_entries] at h
  | succ n ih =>
    obtain ⟨ihv, ihe, ihd⟩ := ih
    refine ⟨?_, ?_, ?_⟩
    · intro de pe x h m hm
      cases m with
      | zero => omega
      | succ m =>
        have hm' : n ≤ m := by omega
        cases de <;> cases pe <;> simp only [patch_val] at h ⊢ <;>
          first
            | exact h
            | (obtain ⟨y, hy, rfl⟩ := except_map_ok h
               rw [ihd _ _ _ hy m hm']
               simp [Except.map])
    · intro ks ds ps x h m hm
      cases ks with
      | nil => cases m <;> simpa [patch_entries] using h
      | cons k ks =>
        cases m with
        | zero => omega
        | succ m =>
          have hm' : n ≤ m := by omega
          simp only [patch_entries] at h ⊢
          obtain ⟨r, hr, h2⟩ := except_bind_ok h
          obtain ⟨rest, hrest, h3⟩ := except_bind_ok h2
          rw [ihv _ _ _ hr m hm']
          simp only [Bind.bind, Except.bind]
          rw [ihe _ _ _ _ hrest m hm']
          simpa [Bind.bind, Except.bind] using h3
    · intro ds ps x h m hm
      cases m with
      | zero => omega
      | succ m =>
        have hm' : n ≤ m := by omega
        simp only [patch_dict] at h ⊢
        obtain ⟨res, hres, h2⟩ := except_bind_ok h
        rw [ihe _ _ _ _ hres m hm']
        simpa [Bind.bind, Except.bind] using h2

theorem patch_entries_ok_char : ∀ (n : Nat) (ks : List String) (ds ps : Dict)
    (res : List (String × Option Val × Option Val)),
    patch_entries n ks ds ps = .ok res →
    res.map (·.1) = ks ∧
    ∀ e ∈ res, ∃ m, patch_val m (pyget ds e.1) (pyget ps e.1) = .ok e.2 := by
  intro n
  induction n with
  | zero =>
    intro ks ds ps res h
    cases ks with
    | nil =>
      simp only [patch_entries] at h
      cases h
      simp
    | cons k ks => simp [patch_entries] at h
  | succ n ih =>
    intro ks ds ps res h
    cases ks with
    | nil =>
      simp only [patch_entries] at h
      cases h
      simp
    | cons k ks =>
      simp only [patch_entries] at h
      obtain ⟨r, hr, h2⟩ := except_bind_ok h
      obtain ⟨rest, hrest, h3⟩ := except_bind_ok h2
      simp only [Except.ok.injEq] at h3
      subst h3
      obtain ⟨hmap, hall⟩ := ih ks ds ps rest hrest
      refine ⟨by simpa using hmap, ?_⟩
      intro e he
      rcases List.mem_cons.mp he with he1 | he2
      · subst he1
        exact ⟨n, hr⟩
      · exact hall e he2

/-! ## _read_dict_attributes characterization -/

theorem take_attr_dget_keep (o : Option String) (d : Dict) (k : String)
    (h : ∀ a, o = some a → a = k → a = "") :
    dget (take_attr o d).2 k = dget d k := by
  cases o with
  | none => rfl
  | some a =>
    unfold take_attr
    by_cases hc : a ≠ "" ∧ hasKey d a
    · have hak : a ≠ k := fun hk => hc.1 (h a rfl hk)
      simp [hc, dget_ddel_ne d a k hak]
    · simp [hc]

theorem take_attr_dget_none (o : Option String) (d : Dict) (k : String)
    (h : dget d k = none) : dget (take_attr o d).2 k = none := by
  cases o with
  | none => exact h
  | some a =>
    unfold take_attr
    by_cases hc : a ≠ "" ∧ hasKey d a
    · simp [hc, dget_ddel_none d a k h]
    · simpa [hc] using h

theorem take_attr_dget_self (a : String) (d : Dict) (hwf : dictWF d = true)
    (ha : a ≠ "") : dget (take_attr (some a) d).2 a = none := by
  unfold take_attr
  by_cases hc : a ≠ "" ∧ hasKey d a
  · simp [hc, dget_ddel_self_wf d a hwf]
  · have : hasKey d a = false := by
      rcases Bool.eq_false_or_eq_true (hasKey d a) with h | h
      · exact absurd ⟨ha, h⟩ hc
      · exact h
    simp [hc, (hasKey_false_iff d a).mp this]

theorem dictWF_take_attr (o : Option String) (d : Dict) (h : dictWF d = true) :
    dictWF (take_attr o d).2 = true := by
  cases o with
  | none => exact h
  | some a =>
    unfold take_attr
    by_cases hc : a ≠ "" ∧ hasKey d a
    · simp [hc, dictWF_ddel d a h]
    · simpa [hc] using h

/-- Decompose `metaName cls k = false` into its four per-attribute parts. -/
theorem metaName_false_parts (cls : MCls) (k : String) (h : metaName cls k = false) :
    (∀ a, cls.identity_property = some a → a = k → a = "") ∧
    (∀ a, cls.parent_property = some a → a = k → a = "") ∧
    (∀ a, cls.key_property = some a → a = k → a = "") ∧
    (∀ a, cls.classname_property = some a → a = k → a = "") := by
  simp only [metaName, Bool.or_eq_false_iff] at h
  obtain ⟨⟨⟨h1, h2⟩, h3⟩, h4⟩ := h
  refine ⟨?_, ?_, ?_, ?_⟩ <;>
    · intro a ha hak
      subst hak
      first
        | (rw [ha] at h1; simpa using h1)
        | (rw [ha] at h2; simpa using h2)
        | (rw [ha] at h3; simpa using h3)
        | (rw [ha] at h4; simpa using h4)

theorem read_ok_dget_nonmeta (cls : MCls) (d : Dict) (ps : ParsedAttrs) (d' : Dict)
    (hok : read_dict_attributes cls d = .ok (ps, d'))
    (k : String) (hk : metaName cls k = false) :
    dget d' k = dget d k := by
  obtain ⟨h1, h2, h3, h4⟩ := metaName_false_parts cls k hk
  have hchain : dget (take_attr cls.key_property
      (take_attr cls.parent_property (take_attr cls.identity_property d).2).2).2 k
      = dget d k := by
    rw [take_attr_dget_keep _ _ _ h3, take_attr_dget_keep _ _ _ h2,
      take_attr_dget_keep _ _ _ h1]
  unfold read_dict_attributes at hok
  dsimp only at hok
  split at hok
  next a hcn =>
    split at hok
    next hpres =>
      split at hok
      next hval =>
        injection hok with hok1
        injection hok1 with _ hok2
        subst hok2
        have hak : a ≠ k := fun hk' => hpres.1 (h4 a hcn hk')
        rw [dget_ddel_ne _ a k hak]
        exact hchain
      next hval => exact absurd hok (by simp)
    next hpres =>
      injection hok with hok1
      injection hok1 with _ hok2
      subst hok2
      exact hchain
  next hcn =>
    injection hok with hok1
    injection hok1 with _ hok2
    subst hok2
    exact hchain

theorem read_ok_dget_meta (cls : MCls) (d : Dict) (ps : ParsedAttrs) (d' : Dict)
    (hwf : dictWF d = true)
    (hok : read_dict_attributes cls d = .ok (ps, d'))
    (k : String) (hk : metaName cls k = true) :
    dget d' k = none := by
  have w1 : dictWF (take_attr cls.identity_property d).2 = true :=
    dictWF_take_attr _ _ hwf
  have w2 : dictWF (take_attr cls.parent_property
      (take_attr cls.identity_property d).2).2 = true := dictWF_take_attr _ _ w1
  have w3 : dictWF (take_attr cls.key_property
      (take_attr cls.parent_property (take_attr cls.identity_property d).2).2).2
      = true := dictWF_take_attr _ _ w2
  simp only [metaName, Bool.or_eq_true] at hk
  have hcomp : ∀ (o : Option String),
      (match o with
       | some a => a == k && !(a == "")
       | none => false) = true → o = some k ∧ k ≠ "" := by
    intro o ho
    cases o with
    | none => simp at ho
    | some a =>
      simp only [Bool.and_eq_true, beq_iff_eq, Bool.not_eq_true', beq_eq_false_iff_ne,
        ne_eq] at ho
      exact ⟨by rw [ho.1], by rw [← ho.1]; exact ho.2⟩
  -- the dictionary reaching the classname step
  have hnone3 : (cls.identity_property = some k ∨ cls.parent_property = some k ∨
      cls.key_property = some k) → k ≠ "" →
      dget (take_attr cls.key_property
        (take_attr cls.parent_property (take_attr cls.identity_property d).2).2).2 k
        = none := by
    intro hor hne
    rcases hor with h | h | h
    · apply take_attr_dget_none
      apply take_attr_dget_none
      rw [h]
      exact take_attr_dget_self k d hwf hne
    · apply take_attr_dget_none
      rw [h]
      exact take_attr_dget_self k _ w1 hne
    · rw [h]
      exact take_attr_dget_self k _ w2 hne
  unfold read_dict_attributes at hok
  dsimp only at hok
  rcases hk with ((hid | hpar) | hkey) | hcls
  case inl.inl.inl =>
    obtain ⟨ho, hne⟩ := hcomp _ hid
    have h3 := hnone3 (Or.inl ho) hne
    split at hok
    next a hcn =>
      split at hok
      next hpres =>
        split at hok
        next hval =>
          injection hok with hok1
          injection hok1 with _ hok2
          subst hok2
          exact dget_ddel_none _ a k h3
        next hval => exact absurd hok (by simp)
      next hpres =>
        injection hok with hok1
        injection hok1 with _ hok2
        subst hok2
        exact h3
    next hcn =>
      injection hok with hok1
      injection hok1 with _ hok2
      subst hok2
      exact h3
  case inl.inl.inr =>
    obtain ⟨ho, hne⟩ := hcomp _ hpar
    have h3 := hnone3 (Or.inr (Or.inl ho)) hne
    split at hok
    next a hcn =>
      split at hok
      next hpres =>
        split at hok
        next hval =>
          injection hok with hok1
          injection hok1 with _ hok2
          subst hok2
          exact dget_ddel_none _ a k h3
        next hval => exact absurd hok (by simp)
      next hpres =>
        injection hok with hok1
        injection hok1 with _ hok2
        subst hok2
        exact h3
    next hcn =>
      injection hok with hok1
      injection hok1 with _ hok2
      subst hok2
      exact h3
  case inl.inr =>
    obtain ⟨ho, hne⟩ := hcomp _ hkey
    have h3 := hnone3 (Or.inr (Or.inr ho)) hne
    split at hok
    next a hcn =>
      split at hok
      next hpres =>
        split at hok
        next hval =>
          injection hok with hok1
          injection hok1 with _ hok2
          subst hok2
          exact dget_ddel_none _ a k h3
        next hval => exact absurd hok (by simp)
      next hpres =>
        injection hok with hok1
        injection hok1 with _ hok2
        subst hok2
        exact h3
    next hcn =>
      injection hok with hok1
      injection hok1 with _ hok2
      subst hok2
      exact h3
  case inr =>
    obtain ⟨ho, hne⟩ := hcomp _ hcls
    split at hok
    next a hcn =>
      rw [hcn] at ho
      injection ho with ho
      subst ho
      split at hok
      next hpres =>
        split at hok
        next hval =>
          injection hok with hok1
          injection hok1 with _ hok2
          subst hok2
          exact dget_ddel_self_wf _ a w3
        next hval => exact absurd hok (by simp)
      next hpres =>
        injection hok with hok1
        injection hok1 with _ hok2
        subst hok2
        rcases Bool.eq_false_or_eq_true (hasKey (take_attr cls.key_property
          (take_attr cls.parent_property (take_attr cls.identity_property d).2).2).2 a)
          with hh | hh
        · exact absurd ⟨hne, hh⟩ hpres
        · exact (hasKey_false_iff _ a).mp hh
    next hcn =>
      rw [hcn] at ho
      exact absurd ho (by simp)

/-! ## Keys lemmas -/

theorem to_dict_keys (S : Schema) (r : Rec) :
    Dict.keys (to_dict S r) = S.map (·.1) := by
  induction S with
  | nil => rfl
  | cons e rest ih =>
    obtain ⟨k, ty⟩ := e
    simp [to_dict, Dict.keys, List.map_cons]
    simpa [Dict.keys] using ih

theorem lookupProp_none_iff (S : Schema) (k : String) :
    lookupProp S k = none ↔ k ∉ S.map (·.1) := by
  induction S with
  | nil => simp [lookupProp]
  | cons e rest ih =>
    obtain ⟨ek, ty⟩ := e
    simp only [List.map_cons, List.mem_cons, lookupProp]
    by_cases he : ek = k
    · subst he
      simp
    · rw [if_neg he, ih]
      constructor
      · intro hn hc
        rcases hc with hc | hc
        · exact he hc.symm
        · exact hn hc
      · intro hn hc
        exact hn (Or.inr hc)

theorem iter_false_keys (cv : PTy → Val → Except PyErr Val) :
    ∀ (d : Dict) (S : Schema) (out : Dict), iter_dict cv S false d = .ok out →
      Dict.keys out = Dict.keys d := by
  intro d
  induction d with
  | nil =>
    intro S out h
    rw [iter_false_nil] at h
    cases h
    rfl
  | cons e rest ih =>
    obtain ⟨k, v⟩ := e
    intro S out h
    cases v
    case null =>
      rw [iter_false_cons_null] at h
      obtain ⟨tail, htail, hout⟩ := except_map_ok h
      subst hout
      have hkeys := ih S tail htail
      simp only [Dict.keys, List.map_cons] at hkeys ⊢
      rw [hkeys]
    all_goals
      rw [iter_false_cons_nonnull _ _ _ _ _ (by simp)] at h
      obtain ⟨v2, hv2, h2⟩ := except_bind_ok h
      obtain ⟨tail, htail, hout⟩ := except_map_ok h2
      subst hout
      have hkeys := ih S tail htail
      simp only [Dict.keys, List.map_cons] at hkeys ⊢
      rw [hkeys]

/-! ## Merge writeback lemmas -/

theorem foldl_writeP_dget_skip :
    ∀ (res : List (String × Option Val × Option Val)) (d0 : Dict) (k : String),
    (∀ e ∈ res, e.1 ≠ k) →
    dget (res.foldl
      (fun p e => match e.2.2 with | some v => dset p e.1 v | none => p) d0) k
      = dget d0 k := by
  intro res
  induction res with
  | nil =>
    intro d0 k h
    rfl
  | cons e res ih =>
    intro d0 k h
    obtain ⟨k', od, op⟩ := e
    have he : k' ≠ k := h (k', od, op) (by simp)
    have hrest : ∀ e' ∈ res, e'.1 ≠ k := fun e' he' => h e' (by simp [he'])
    cases op with
    | some v =>
      simp only [List.foldl_cons]
      rw [ih _ k hrest]
      exact dget_dset_ne _ _ _ _ he
    | none =>
      simp only [List.foldl_cons]
      exact ih _ k hrest

theorem foldl_writeD_dget_skip :
    ∀ (res : List (String × Option Val × Option Val)) (d0 : Dict) (k : String),
    (∀ e ∈ res, e.1 ≠ k) →
    dget (res.foldl
      (fun p e => match e.2.1 with | some v => dset p e.1 v | none => p) d0) k
      = dget d0 k := by
  intro res
  induction res with
  | nil =>
    intro d0 k h
    rfl
  | cons e res ih =>
    intro d0 k h
    obtain ⟨k', od, op⟩ := e
    have he : k' ≠ k := h (k', od, op) (by simp)
    have hrest : ∀ e' ∈ res, e'.1 ≠ k := fun e' he' => h e' (by simp [he'])
    cases od with
    | some v =>
      simp only [List.foldl_cons]
      rw [ih _ k hrest]
      exact dget_dset_ne _ _ _ _ he
    | none =>
      simp only [List.foldl_cons]
      exact ih _ k hrest

theorem patch_dict_snd_none (n : Nat) (ds ps a b : Dict) (k : String)
    (h : patch_dict n ds ps = .ok (a, b))
    (hds : dget ds k = none) (hps : dget ps k = none) : dget b k = none := by
  cases n with
  | zero => simp [patch_dict] at h
  | succ n =>
    simp only [patch_dict] at h
    obtain ⟨res, hres, h2⟩ := except_bind_ok h
    simp only [Except.ok.injEq] at h2
    have hks := (patch_entries_ok_char _ _ _ _ _ hres).1
    have hknotin : ∀ e ∈ res, e.1 ≠ k := by
      intro e he hek
      have : e.1 ∈ res.map (·.1) := List.mem_map_of_mem _ he
      rw [hks, hek] at this
      rcases List.mem_append.mp this with hin | hin
      · exact (dget_none_iff ds k).mp hds hin
      · exact (dget_none_iff ps k).mp hps (List.mem_of_mem_filter hin)
    have hb : b = res.foldl
        (fun p e => match e.2.2 with | some v => dset p e.1 v | none => p) ps := by
      have := congrArg Prod.snd h2
      simpa using this.symm
    rw [hb, foldl_writeP_dget_skip res ps k hknotin]
    exact hps

/-! ## patch leaves absent non-schema keys of the caller's dictionary absent -/

theorem patch_snd_none (S : Schema) (r : Rec) (d : Dict) (sk : Bool) (k : String)
    (hd : dget d k = none) (hs : lookupProp S k = none) :
    dget (patch S r d sk).2 k = none := by
  unfold patch
  split
  next e heq => exact hd
  next cur heq =>
    have hcurk : dget cur k = none := by
      rw [dget_none_iff]
      have hkeys : Dict.keys cur = Dict.keys (to_dict S r) := by
        apply iter_false_keys text_from_property (to_dict S r) S cur
        simpa [json_dict, get_dict_from_model] using heq
      rw [hkeys, to_dict_keys]
      exact (lookupProp_none_iff S k).mp hs
    split
    next e heq2 => exact hd
    next merged mutated heq2 =>
      have hmut : dget mutated k = none := by
        apply patch_dict_snd_none (dsize cur + dsize d + 1) cur d merged mutated k
        · simpa [patch_dict_top] using heq2
        · exact hcurk
        · exact hd
      split
      next e heq3 => exact hmut
      next data heq3 => exact hmut

theorem patch_from_dict_snd_none (cls : MCls) (store : Store) (d : Dict) (tok : Val)
    (sk : Bool) (k : String) (hd : dget d k = none)
    (hs : lookupProp cls.schema k = none) :
    dget (patch_from_dict cls store d tok sk).2 k = none := by
  unfold patch_from_dict
  split
  next e heq => exact hd
  next kv heq =>
    split
    next p =>
      split
      next hget => exact hd
      next cn fields hget =>
        split
        next e heq2 => exact hd
        next heq2 => exact patch_snd_none cls.schema fields d sk k hd hs
    next hnk => exact hd

/-! ## Success-path plumbing for the view operations -/

theorem view_create_parts (cls : MCls) (store : Store) (d : Dict) (sk : Bool)
    (out : Dict) (h : (view_create cls store d sk).2.2 = .ok out) :
    ∃ ps d', read_dict_attributes cls d = .ok (ps, d') ∧
      (view_create cls store d sk).2.1 = d' := by
  unfold view_create at h ⊢
  split at h
  next e heq => simp at h
  next ps d' heq =>
    refine ⟨ps, d', heq, ?_⟩
    split
    · rfl
    · split <;> rfl

theorem view_update_parts (cls : MCls) (store : Store) (d : Dict) (ik : Option Val)
    (sk : Bool) (out : Dict) (h : (view_update cls store d ik sk).2.2 = .ok out) :
    ∃ ps d', read_dict_attributes cls d = .ok (ps, d') ∧
      (view_update cls store d ik sk).2.1 = d' := by
  unfold view_update at h ⊢
  split at h
  next e heq => simp at h
  next ps d' heq =>
    refine ⟨ps, d', heq, ?_⟩
    split
    · rfl
    · split <;> rfl

theorem view_patch_parts (cls : MCls) (store : Store) (d : Dict) (ik : Option Val)
    (sk : Bool) (out : Dict) (h : (view_patch cls store d ik sk).2.2 = .ok out) :
    ∃ ps d' key, read_dict_attributes cls d = .ok (ps, d') ∧
      (view_patch cls store d ik sk).2.1 = (patch_from_dict cls store d' key sk).2 := by
  unfold view_patch at h ⊢
  split at h
  next e heq => simp at h
  next ps d' heq =>
    split at h
    next e heq2 => simp at h
    next key heq2 =>
      refine ⟨ps, d', key, heq, ?_⟩
      split
      next e d'' heq3 => exact (congrArg Prod.snd heq3).symm
      next ent d'' heq3 => exact (congrArg Prod.snd heq3).symm

/-- C10 amended: for calls that return successfully, `view_create`,
`view_update` and `view_patch` delete every configured meta field present in
the caller's dictionary; `view_create` and `view_update` leave the non-meta
entries unchanged, but `view_patch` may additionally mutate non-meta entries
(the in-place merge rewrites null-valued nested entries to `{}` and grows
skeletons), so for it only the meta-field deletion holds.  Meta names are
assumed not to collide with schema property names. -/
theorem C10_amended (cls : MCls) (store : Store) (d : Dict) (in_key : Option Val)
    (sk : Bool) (hwf : dictWF d = true)
    (hnoshadow : ∀ k, metaName cls k = true → lookupProp cls.schema k = none) :
    (∀ out, (view_create cls store d sk).2.2 = .ok out →
      (∀ k, metaName cls k = false →
        dget (view_create cls store d sk).2.1 k = dget d k) ∧
      (∀ k, metaName cls k = true → dget (view_create cls store d sk).2.1 k = none)) ∧
    (∀ out, (view_update cls store d in_key sk).2.2 = .ok out →
      (∀ k, metaName cls k = false →
        dget (view_update cls store d in_key sk).2.1 k = dget d k) ∧
      (∀ k, metaName cls k = true →
        dget (view_update cls store d in_key sk).2.1 k = none)) ∧
    (∀ out, (view_patch cls store d in_key sk).2.2 = .ok out →
      ∀ k, metaName cls k = true →
        dget (view_patch cls store d in_key sk).2.1 k = none) := by
  refine ⟨?_, ?_, ?_⟩
  · intro out h
    obtain ⟨ps, d', hread, hmut⟩ := view_create_parts cls store d sk out h
    rw [hmut]
    exact ⟨fun k hk => read_ok_dget_nonmeta cls d ps d' hread k hk,
      fun k hk => read_ok_dget_meta cls d ps d' hwf hread k hk⟩
  · intro out h
    obtain ⟨ps, d', hread, hmut⟩ := view_update_parts cls store d in_key sk out h
    rw [hmut]
    exact ⟨fun k hk => read_ok_dget_nonmeta cls d ps d' hread k hk,
      fun k hk => read_ok_dget_meta cls d ps d' hwf hread k hk⟩
  · intro out h k hk
    obtain ⟨ps, d', key, hread, hmut⟩ := view_patch_parts cls store d in_key sk out h
    rw [hmut]
    exact patch_from_dict_snd_none cls store d' key sk k
      (read_ok_dget_meta cls d ps d' hwf hread k hk) (hnoshadow k hk)

theorem C10_amended_witness :
    dget (view_patch ThingCls ThingStore
      [("key", .str "agxThing.i7."), ("n", .dict [("a", .int 5)])] none false).2.1
      "key" = none :=
  (C10_amended ThingCls ThingStore
      [("key", .str "agxThing.i7."), ("n", .dict [("a", .int 5)])] none false
      rfl
      (by
        intro k hk
        have hkey : k = "key" := by
          have := hk
          simp [metaName, ThingCls] at this
          exact this.symm
        subst hkey
        rfl)).2.2
    [("n", .dict [("a", .int 5)]), ("key", .str "agxThing.i7.")]
    rfl "key" rfl

/-! ## Wire-format round-trip lemmas -/

theorem digit_digitChar (n : Nat) (h : n < 10) : digit? (digitChar n) = some n := by
  interval_cases n <;> rfl

theorem num2_digits (n : Nat) (h : n < 100) :
    num2 (digitChar (n / 10 % 10)) (digitChar (n % 10)) = some n := by
  have h1 : n / 10 % 10 < 10 := Nat.mod_lt _ (by omega)
  have h2 : n % 10 < 10 := Nat.mod_lt _ (by omega)
  simp only [num2, digit_digitChar _ h1, digit_digitChar _ h2, Option.bind_eq_bind,
    Option.some_bind]
  have : 10 * (n / 10 % 10) + n % 10 = n := by omega
  rw [this]

theorem num4_digits (n : Nat) (h : n < 10000) :
    num4 (digitChar (n / 1000 % 10)) (digitChar (n / 100 % 10))
      (digitChar (n / 10 % 10)) (digitChar (n % 10)) = some n := by
  have e1 : n / 1000 % 10 = (n / 100) / 10 % 10 := by
    rw [Nat.div_div_eq_div_mul]
  have e2 : n / 100 % 10 = (n / 100) % 10 := rfl
  rw [e1]
  have h1 : n / 100 < 100 := by omega
  have h2 : n % 100 < 100 := Nat.mod_lt _ (by omega)
  have e3 : n / 10 % 10 = (n % 100) / 10 % 10 := by omega
  have e4 : n % 10 = (n % 100) % 10 := by omega
  rw [e3, e4]
  simp only [num4, num2_digits _ h1, num2_digits _ h2, Option.bind_eq_bind,
    Option.some_bind]
  have : 100 * (n / 100) + n % 100 = n := by omega
  rw [this]

theorem num6_digits (n : Nat) (h : n < 1000000) :
    num6 (digitChar (n / 100 / 1000 % 10)) (digitChar (n / 100 / 100 % 10))
      (digitChar (n / 100 / 10 % 10)) (digitChar (n / 100 % 10))
      (digitChar (n % 100 / 10 % 10)) (digitChar (n % 100 % 10)) = some n := by
  have h1 : n / 100 < 10000 := by omega
  have h2 : n % 100 < 100 := Nat.mod_lt _ (by omega)
  have e : n % 100 / 10 % 10 = (n % 100) / 10 % 10 := rfl
  simp only [num6, num4_digits _ h1, num2_digits _ h2, Option.bind_eq_bind,
    Option.some_bind]
  have : 100 * (n / 100) + n % 100 = n := by omega
  rw [this]

theorem parse_fmtDate (y m d : Nat) (h : validDate y m d = true) :
    parseDate (fmtDate y m d) = some (y, m, d) := by
  have hb : ((((1 ≤ y ∧ y ≤ 9999) ∧ 1 ≤ m) ∧ m ≤ 12) ∧ 1 ≤ d) ∧ d ≤ daysInMonth y m := by
    simpa [validDate, Bool.and_eq_true, decide_eq_true_eq] using h
  obtain ⟨⟨⟨⟨⟨hy1, hy2⟩, hm1⟩, hm2⟩, hd1⟩, hd2⟩ := hb
  have hy : y < 10000 := by omega
  have hm : m < 100 := by omega
  have hd : d < 100 := by
    have : daysInMonth y m ≤ 31 := by
      unfold daysInMonth
      split <;> try split
      all_goals omega
    omega
  unfold parseDate fmtDate
  simp only [chars4, chars2, List.cons_append, List.nil_append]
  have e1 : m / 10 % 10 = m / 10 := by omega
  have e2 : d / 10 % 10 = d / 10 := by omega
  rw [e1, e2]
  have hm' : num2 (digitChar (m / 10)) (digitChar (m % 10)) = some m := by
    have := num2_digits m hm
    rwa [show m / 10 % 10 = m / 10 by omega] at this
  have hd' : num2 (digitChar (d / 10)) (digitChar (d % 10)) = some d := by
    have := num2_digits d hd
    rwa [show d / 10 % 10 = d / 10 by omega] at this
  simp only [num4_digits y hy, hm', hd', Option.bind_eq_bind, Option.some_bind, h,
    if_true]

theorem parse_fmtDateTime (y m d hh mi s us : Nat) (h : validDate y m d = true)
    (ht : validTime hh mi s = true) (hus : us < 1000000) (hus0 : us ≠ 0) :
    parseDateTime (fmtDateTime y m d hh mi s us) = some (y, m, d, hh, mi, s, us) := by
  have hb : ((((1 ≤ y ∧ y ≤ 9999) ∧ 1 ≤ m) ∧ m ≤ 12) ∧ 1 ≤ d) ∧ d ≤ daysInMonth y m := by
    simpa [validDate, Bool.and_eq_true, decide_eq_true_eq] using h
  have htb : (hh ≤ 23 ∧ mi ≤ 59) ∧ s ≤ 59 := by
    simpa [validTime, Bool.and_eq_true, decide_eq_true_eq] using ht
  obtain ⟨⟨⟨⟨⟨hy1, hy2⟩, hm1⟩, hm2⟩, hd1⟩, hd2⟩ := hb
  obtain ⟨⟨hh1, hmi1⟩, hs1⟩ := htb
  have hy : y < 10000 := by omega
  have hm : m < 100 := by omega
  have hd : d < 100 := by
    have : daysInMonth y m ≤ 31 := by
      unfold daysInMonth
      split <;> try split
      all_goals omega
    omega
  unfold parseDateTime fmtDateTime
  rw [if_neg hus0]
  simp only [chars4, chars2, chars6, List.cons_append, List.nil_append,
    List.append_assoc]
  have hm' : num2 (digitChar (m / 10 % 10)) (digitChar (m % 10)) = some m :=
    num2_digits m hm
  have hd' : num2 (digitChar (d / 10 % 10)) (digitChar (d % 10)) = some d :=
    num2_digits d hd
  have hhh : num2 (digitChar (hh / 10 % 10)) (digitChar (hh % 10)) = some hh :=
    num2_digits hh (by omega)
  have hmi2 : num2 (digitChar (mi / 10 % 10)) (digitChar (mi % 10)) = some mi :=
    num2_digits mi (by omega)
  have hss : num2 (digitChar (s / 10 % 10)) (digitChar (s % 10)) = some s :=
    num2_digits s (by omega)
  simp only [num4_digits y hy, hm', hd', hhh, hmi2, hss, num6_digits us hus,
    Option.bind_eq_bind, Option.some_bind, h, ht, Bool.and_self, if_true]

theorem parseDateTime_no_frac (y m d hh mi s : Nat) :
    parseDateTime (fmtDateTime y m d hh mi s 0) = none := by
  unfold parseDateTime fmtDateTime
  simp [chars4, chars2]

/-- C9 amended: on an existing Person (name a string, birthday a genuine
date/datetime value or null), `patch({"birthday": null})` succeeds, leaves
the read of `name` untouched and leaves the read of `birthday` at its prior
rendering — a null in the patch dictionary is ignored by the merge — so the
subsequent full (non-null-skipping) read reports `"birthday": null` exactly
when birthday was already null. -/
theorem C9_amended (nv : String) (bv : Val) (j0 : Dict)
    (hval : validValue bv = true)
    (h0 : json_dict PersonS [("name", .str nv), ("birthday", bv)] false = .ok j0) :
    ∃ j1, json_dict PersonS
        (patchT PersonS [("name", .str nv), ("birthday", bv)] [("birthday", .null)])
        false = .ok j1 ∧
      dget j1 "name" = dget j0 "name" ∧
      dget j1 "birthday" = dget j0 "birthday" ∧
      (bv = .null → dget j1 "birthday" = some .null) := by
  cases bv with
  | null =>
    have heq : json_dict PersonS [("name", Val.str nv), ("birthday", Val.null)] false
        = .ok [("name", Val.str nv), ("birthday", Val.null)] := rfl
    rw [heq] at h0
    injection h0 with h0
    subst h0
    exact ⟨[("name", .str nv), ("birthday", .null)], rfl, rfl, rfl, fun _ => rfl⟩
  | date y mo dd =>
    by_cases hy : y < 1900
    · exfalso
      simp [json_dict, get_dict_from_model, to_dict, to_dict_val, pyget, dget, PersonS,
        iter_dict, iter_entry, lookupProp, text_from_property, hy, Bind.bind,
        Except.bind, Except.map] at h0
    · have hv : validDate y mo dd = true := by simpa [validValue] using hval
      have hfmt : json_dict PersonS
          [("name", Val.str nv), ("birthday", Val.date y mo dd)] false
          = .ok [("name", .str nv), ("birthday", .str (fmtDate y mo dd))] := by
        simp [json_dict, get_dict_from_model, to_dict, to_dict_val, pyget, dget,
          PersonS, iter_dict, iter_entry, lookupProp, text_from_property, hy,
          Bind.bind, Except.bind, Except.map]
      rw [hfmt] at h0
      injection h0 with h0
      subst h0
      have hp : patchT PersonS [("name", Val.str nv), ("birthday", Val.date y mo dd)]
          [("birthday", Val.null)] =
          [("name", .str nv), ("birthday", .datetime y mo dd 0 0 0 0)] := by
        simp [patchT, patch, json_dict, get_dict_from_model, set_dict_for_model,
          to_dict, to_dict_val, pyget, dget, PersonS, iter_dict, iter_entry,
          lookupProp, text_from_property, value_for_property, hy,
          parse_fmtDate y mo dd hv, patch_dict_top, patch_dict, patch_entries,
          patch_val, Dict.keys, hasKey, dsize, vsize, populate, populate_val, dset,
          Bind.bind, Except.bind, Except.map]
      refine ⟨[("name", .str nv), ("birthday", .str (fmtDate y mo dd))], ?_, rfl, rfl,
        ?_⟩
      · rw [hp]
        simp [json_dict, get_dict_from_model, to_dict, to_dict_val, pyget, dget,
          PersonS, iter_dict, iter_entry, lookupProp, text_from_property, hy,
          Bind.bind, Except.bind, Except.map]
      · intro hh
        exact absurd hh (by simp)
  | datetime y mo dd hh mi ss us =>
    by_cases hy : y < 1900
    · exfalso
      simp [json_dict, get_dict_from_model, to_dict, to_dict_val, pyget, dget, PersonS,
        iter_dict, iter_entry, lookupProp, text_from_property, hy, Bind.bind,
        Except.bind, Except.map] at h0
    · have hv : validDate y mo dd = true := by
        have := hval
        simp only [validValue, Bool.and_eq_true] at this
        exact this.1.1
      have hfmt : json_dict PersonS
          [("name", Val.str nv), ("birthday", Val.datetime y mo dd hh mi ss us)] false
          = .ok [("name", .str nv), ("birthday", .str (fmtDate y mo dd))] := by
        simp [json_dict, get_dict_from_model, to_dict, to_dict_val, pyget, dget,
          PersonS, iter_dict, iter_entry, lookupProp, text_from_property, hy,
          Bind.bind, Except.bind, Except.map]
      rw [hfmt] at h0
      injection h0 with h0
      subst h0
      have hp : patchT PersonS
          [("name", Val.str nv), ("birthday", Val.datetime y mo dd hh mi ss us)]
          [("birthday", Val.null)] =
          [("name", .str nv), ("birthday", .datetime y mo dd 0 0 0 0)] := by
        simp [patchT, patch, json_dict, get_dict_from_model, set_dict_for_model,
          to_dict, to_dict_val, pyget, dget, PersonS, iter_dict, iter_entry,
          lookupProp, text_from_property, value_for_property, hy,
          parse_fmtDate y mo dd hv, patch_dict_top, patch_dict, patch_entries,
          patch_val, Dict.keys, hasKey, dsize, vsize, populate, populate_val, dset,
          Bind.bind, Except.bind, Except.map]
      refine ⟨[("name", .str nv), ("birthday", .str (fmtDate y mo dd))], ?_, rfl, rfl,
        ?_⟩
      · rw [hp]
        simp [json_dict, get_dict_from_model, to_dict, to_dict_val, pyget, dget,
          PersonS, iter_dict, iter_entry, lookupProp, text_from_property, hy,
          Bind.bind, Except.bind, Except.map]
      · intro hh
        exact absurd hh (by simp)
  | str s =>
    exfalso
    simp [json_dict, get_dict_from_model, to_dict, to_dict_val, pyget, dget, PersonS,
      iter_dict, iter_entry, lookupProp, text_from_property, Bind.bind, Except.bind,
      Except.map] at h0
  | int n =>
    exfalso
    simp [json_dict, get_dict_from_model, to_dict, to_dict_val, pyget, dget, PersonS,
      iter_dict, iter_entry, lookupProp, text_from_property, Bind.bind, Except.bind,
      Except.map] at h0
  | float b =>
    exfalso
    simp [json_dict, get_dict_from_model, to_dict, to_dict_val, pyget, dget, PersonS,
      iter_dict, iter_entry, lookupProp, text_from_property, Bind.bind, Except.bind,
      Except.map] at h0
  | bool b =>
    exfalso
    simp [json_dict, get_dict_from_model, to_dict, to_dict_val, pyget, dget, PersonS,
      iter_dict, iter_entry, lookupProp, text_from_property, Bind.bind, Except.bind,
      Except.map] at h0
  | key p =>
    exfalso
    simp [json_dict, get_dict_from_model, to_dict, to_dict_val, pyget, dget, PersonS,
      iter_dict, iter_entry, lookupProp, text_from_property, Bind.bind, Except.bind,
      Except.map] at h0
  | dict es =>
    exfalso
    simp [json_dict, get_dict_from_model, to_dict, to_dict_val, pyget, dget, PersonS,
      iter_dict, iter_entry, lookupProp, text_from_property, Bind.bind, Except.bind,
      Except.map] at h0

theorem C9_amended_witness :
    ∃ j1, json_dict PersonS
        (patchT PersonS [("name", .str "Ann"), ("birthday", .date 1990 1 19)]
          [("birthday", .null)]) false = .ok j1 ∧
      dget j1 "name" =
        dget [("name", Val.str "Ann"), ("birthday", Val.str "1990-01-19")] "name" ∧
      dget j1 "birthday" =
        dget [("name", Val.str "Ann"), ("birthday", Val.str "1990-01-19")] "birthday" ∧
      (Val.date 1990 1 19 = Val.null → dget j1 "birthday" = some .null) :=
  C9_amended "Ann" (.date 1990 1 19)
    [("name", .str "Ann"), ("birthday", .str "1990-01-19")] rfl rfl
/-! ## Dictionary algebra for the patch-idempotence development -/

theorem keys_cons (k : String) (v : Val) (d : Dict) :
    Dict.keys ((k, v) :: d) = k :: Dict.keys d := rfl

theorem dset_self : ∀ (d : Dict) (k : String) (v : Val),
    dget d k = some v → dset d k v = d := by
  intro d
  induction d with
  | nil =>
    intro k v h
    simp [dget] at h
  | cons e rest ih =>
    intro k v h
    obtain ⟨k', v'⟩ := e
    by_cases hk : k' = k
    · subst hk
      simp [dget] at h
      simp [dset, h]
    · simp only [dget, if_neg hk] at h
      simp [dset, hk, ih k v h]

theorem keys_dset : ∀ (d : Dict) (k : String) (v : Val),
    Dict.keys (dset d k v) =
      if hasKey d k then Dict.keys d else Dict.keys d ++ [k] := by
  intro d
  induction d with
  | nil =>
    intro k v
    simp [dset, Dict.keys, hasKey, dget]
  | cons e rest ih =>
    intro k v
    obtain ⟨k', v'⟩ := e
    by_cases hk : k' = k
    · subst hk
      simp [dset, Dict.keys, hasKey, dget]
    · have hh : hasKey ((k', v') :: rest) k = hasKey rest k := by
        simp [hasKey, dget, hk]
      rw [hh]
      simp only [dset, if_neg hk, keys_cons, ih]
      by_cases h2 : hasKey rest k = true
      · simp [h2]
      · simp [h2]

theorem dget_vsize : ∀ (d : Dict) (k : String) (v : Val),
    dget d k = some v → vsize v + d.length + 1 ≤ dsize d := by
  intro d
  induction d with
  | nil =>
    intro k v h
    simp [dget] at h
  | cons e rest ih =>
    intro k v h
    obtain ⟨k', v'⟩ := e
    have hlen : rest.length + 1 ≤ dsize rest := by
      clear h ih
      induction rest with
      | nil => simp [dsize]
      | cons e2 r2 ih2 =>
        obtain ⟨a, b⟩ := e2
        have := vsize_pos b
        simp only [List.length_cons, dsize] at ih2 ⊢
        omega
    by_cases hk : k' = k
    · subst hk
      simp [dget] at h
      subst h
      simp only [dsize, List.length_cons]
      omega
    · simp only [dget, if_neg hk] at h
      have h1 := ih k v h
      have h2 := vsize_pos v'
      simp only [dsize, List.length_cons]
      omega

theorem dict_ext : ∀ (d1 d2 : Dict),
    (Dict.keys d1).Nodup → Dict.keys d1 = Dict.keys d2 →
    (∀ k, dget d1 k = dget d2 k) → d1 = d2 := by
  intro d1
  induction d1 with
  | nil =>
    intro d2 _ hk _
    cases d2 with
    | nil => rfl
    | cons e r => simp [Dict.keys] at hk
  | cons e r ih =>
    intro d2 hnd hk hg
    obtain ⟨k, v⟩ := e
    cases d2 with
    | nil => simp [Dict.keys] at hk
    | cons e2 r2 =>
      obtain ⟨k2, v2⟩ := e2
      rw [keys_cons, keys_cons] at hk
      injection hk with hkk hkr
      subst hkk
      have hv : v = v2 := by
        have hgk := hg k
        simpa [dget] using hgk
      subst hv
      rw [keys_cons] at hnd
      have hnd2 := List.nodup_cons.mp hnd
      have hg2 : ∀ k', dget r k' = dget r2 k' := by
        intro k'
        by_cases hkk' : k = k'
        · subst hkk'
          have h1 : dget r k = none := (dget_none_iff r k).mpr hnd2.1
          have h2 : dget r2 k = none := (dget_none_iff r2 k).mpr (hkr ▸ hnd2.1)
          rw [h1, h2]
        · have hgk := hg k'
          simpa [dget, hkk'] using hgk
      rw [ih r2 hnd2.2 hkr hg2]

theorem dget_valWF : ∀ (d : Dict) (k : String) (v : Val),
    dictWF d = true → dget d k = some v → valWF v = true := by
  intro d
  induction d with
  | nil =>
    intro k v _ h
    simp [dget] at h
  | cons e rest ih =>
    intro k v hwf h
    obtain ⟨k', v'⟩ := e
    simp only [dictWF, Bool.and_eq_true] at hwf
    by_cases hk : k' = k
    · subst hk
      simp [dget] at h
      subst h
      exact hwf.1.2
    · simp only [dget, if_neg hk] at h
      exact ih k v hwf.2 h

theorem pyget_valWF (d : Dict) (k : String) (h : dictWF d = true) :
    valWF (pyget d k) = true := by
  unfold Dict.pyget
  cases hd : dget d k with
  | none => rfl
  | some v => exact dget_valWF d k v h hd

theorem dictWF_keys_nodup : ∀ (d : Dict), dictWF d = true →
    (Dict.keys d).Nodup := by
  intro d
  induction d with
  | nil =>
    intro _
    simp [Dict.keys]
  | cons e rest ih =>
    intro h
    obtain ⟨k, v⟩ := e
    simp only [dictWF, Bool.and_eq_true, Bool.not_eq_true'] at h
    rw [keys_cons]
    refine List.nodup_cons.mpr ⟨?_, ih h.2⟩
    have := (hasKey_false_iff rest k).mp h.1.1
    exact (dget_none_iff rest k).mp this

theorem dictWF_of_parts : ∀ (d : Dict), (Dict.keys d).Nodup →
    (∀ k v, dget d k = some v → valWF v = true) → dictWF d = true := by
  intro d
  induction d with
  | nil =>
    intro _ _
    rfl
  | cons e rest ih =>
    intro hnd hv
    obtain ⟨k, v⟩ := e
    rw [keys_cons] at hnd
    have hnd2 := List.nodup_cons.mp hnd
    simp only [dictWF, Bool.and_eq_true, Bool.not_eq_true']
    refine ⟨⟨?_, hv k v (by simp [dget])⟩, ?_⟩
    · exact (hasKey_false_iff rest k).mpr ((dget_none_iff rest k).mpr hnd2.1)
    · refine ih hnd2.2 ?_
      intro k' v' h'
      by_cases hkk : k = k'
      · subst hkk
        have hn : dget rest k = none := (dget_none_iff rest k).mpr hnd2.1
        rw [hn] at h'
        cases h'
      · exact hv k' v' (by simpa [dget, hkk] using h')

theorem dset_wf (d : Dict) (k : String) (v : Val) (hd : dictWF d = true)
    (hv : valWF v = true) : dictWF (dset d k v) = true := by
  refine dictWF_of_parts _ ?_ ?_
  · rw [keys_dset]
    by_cases h : hasKey d k = true
    · simpa [h] using dictWF_keys_nodup d hd
    · have hk : k ∉ Dict.keys d := by
        refine (dget_none_iff d k).mp ?_
        simp only [hasKey, Option.isSome] at h
        cases hdg : dget d k with
        | none => rfl
        | some w =>
          rw [hdg] at h
          simp at h
      simp only [h, if_false]
      refine List.Nodup.append (dictWF_keys_nodup d hd) (by simp) ?_
      intro a ha hb
      simp only [List.mem_singleton] at hb
      subst hb
      exact hk ha
  · intro k' v' h'
    by_cases hkk : k = k'
    · subst hkk
      rw [dget_dset_self] at h'
      cases h'
      exact hv
    · rw [dget_dset_ne d k k' v (fun hc => hkk hc)] at h'
      exact dget_valWF d k' v' hd h'

/-! ## Writeback-fold lemmas -/

theorem hasKey_iff_mem (d : Dict) (k : String) :
    hasKey d k = true ↔ k ∈ Dict.keys d := by
  rw [hasKey, Option.isSome_iff_ne_none, ne_eq, dget_none_iff, not_not]

theorem foldl_writeD_at :
    ∀ (res : List (String × Option Val × Option Val)) (d0 : Dict)
      (k : String) (od op : Option Val),
    (res.map (·.1)).Nodup → (k, od, op) ∈ res →
    dget (res.foldl (fun d e => match e.2.1 with
      | some v => dset d e.1 v | none => d) d0) k
      = match od with | some v => some v | none => dget d0 k := by
  intro res
  induction res with
  | nil =>
    intro d0 k od op _ hm
    simp at hm
  | cons e res ih =>
    intro d0 k od op hnd hm
    obtain ⟨k2, od2, op2⟩ := e
    rw [List.map_cons] at hnd
    have hnd2 := List.nodup_cons.mp hnd
    rcases List.mem_cons.mp hm with he | he
    · injection he with h1 h2
      injection h2 with h2a h2b
      subst h1
      subst h2a
      subst h2b
      have hrest : ∀ e2 ∈ res, e2.1 ≠ k := by
        intro e2 he2 hk
        apply hnd2.1
        rw [← hk]
        exact List.mem_map.mpr ⟨e2, he2, rfl⟩
      cases od with
      | some v =>
        simp only [List.foldl_cons]
        rw [foldl_writeD_dget_skip res _ k hrest, dget_dset_self]
      | none =>
        simp only [List.foldl_cons]
        exact foldl_writeD_dget_skip res _ k hrest
    · have hk2 : k2 ≠ k := by
        intro hc
        apply hnd2.1
        rw [hc]
        exact List.mem_map.mpr ⟨(k, od, op), he, rfl⟩
      cases od2 with
      | some v =>
        have ihr := ih (dset d0 k2 v) k od op hnd2.2 he
        simp only [List.foldl_cons]
        rw [ihr]
        cases od with
        | some w => rfl
        | none => exact dget_dset_ne _ _ _ _ hk2
      | none =>
        have ihr := ih d0 k od op hnd2.2 he
        simp only [List.foldl_cons]
        exact ihr

theorem foldl_writeD_keys_preserve :
    ∀ (res : List (String × Option Val × Option Val)) (d0 : Dict),
    (∀ e ∈ res, e.2.1.isSome = true → hasKey d0 e.1 = true) →
    Dict.keys (res.foldl (fun d e => match e.2.1 with
      | some v => dset d e.1 v | none => d) d0) = Dict.keys d0 := by
  intro res
  induction res with
  | nil =>
    intro d0 _
    rfl
  | cons e res ih =>
    intro d0 h
    obtain ⟨k2, od2, op2⟩ := e
    cases od2 with
    | none =>
      simp only [List.foldl_cons]
      exact ih d0 (fun e2 he2 => h e2 (List.mem_cons_of_mem _ he2))
    | some v =>
      have hk : hasKey d0 k2 = true := h (k2, some v, op2) (List.mem_cons_self _ _)
        (by simp)
      have hkeq : Dict.keys (dset d0 k2 v) = Dict.keys d0 := by
        rw [keys_dset, if_pos hk]
      have hside : ∀ e2 ∈ res, e2.2.1.isSome = true →
          hasKey (dset d0 k2 v) e2.1 = true := by
        intro e2 he2 hs
        rw [hasKey_iff_mem, hkeq, ← hasKey_iff_mem]
        exact h e2 (List.mem_cons_of_mem _ he2) hs
      simp only [List.foldl_cons]
      rw [ih (dset d0 k2 v) hside, hkeq]

theorem foldl_writeD_keys_ext :
    ∀ (res : List (String × Option Val × Option Val)) (d0 : Dict),
    ∃ ws : List String,
      Dict.keys (res.foldl (fun d e => match e.2.1 with
        | some v => dset d e.1 v | none => d) d0) = Dict.keys d0 ++ ws ∧
      ws.Nodup ∧ (∀ k ∈ ws, k ∉ Dict.keys d0) := by
  intro res
  induction res with
  | nil =>
    intro d0
    exact ⟨[], by simp, by simp, by simp⟩
  | cons e res ih =>
    intro d0
    obtain ⟨k2, od2, op2⟩ := e
    cases od2 with
    | none =>
      obtain ⟨ws, h1, h2, h3⟩ := ih d0
      refine ⟨ws, ?_, h2, h3⟩
      simpa using h1
    | some v =>
      obtain ⟨ws, h1, h2, h3⟩ := ih (dset d0 k2 v)
      by_cases hk : hasKey d0 k2 = true
      · have hkeq : Dict.keys (dset d0 k2 v) = Dict.keys d0 := by
          rw [keys_dset, if_pos hk]
        refine ⟨ws, ?_, h2, ?_⟩
        · simp only [List.foldl_cons]
          rw [h1, hkeq]
        · intro k hkw
          have := h3 k hkw
          rwa [hkeq] at this
      · have hknotin : k2 ∉ Dict.keys d0 := by
          intro hc
          exact hk ((hasKey_iff_mem d0 k2).mpr hc)
        have hkeq : Dict.keys (dset d0 k2 v) = Dict.keys d0 ++ [k2] := by
          rw [keys_dset, if_neg hk]
        refine ⟨k2 :: ws, ?_, ?_, ?_⟩
        · simp only [List.foldl_cons]
          rw [h1, hkeq, List.append_assoc]
          rfl
        · refine List.nodup_cons.mpr ⟨?_, h2⟩
          intro hc
          have := h3 k2 hc
          rw [hkeq] at this
          simp at this
        · intro k hkw
          rcases List.mem_cons.mp hkw with rfl | hkw2
          · exact hknotin
          · intro hc
            have := h3 k hkw2
            rw [hkeq] at this
            exact this (List.mem_append_left _ hc)

theorem foldl_writeD_noop :
    ∀ (res : List (String × Option Val × Option Val)) (d0 : Dict),
    (∀ e ∈ res, ∀ v, e.2.1 = some v → dget d0 e.1 = some v) →
    res.foldl (fun d e => match e.2.1 with
      | some v => dset d e.1 v | none => d) d0 = d0 := by
  intro res
  induction res with
  | nil =>
    intro d0 _
    rfl
  | cons e res ih =>
    intro d0 h
    obtain ⟨k2, od2, op2⟩ := e
    cases od2 with
    | none =>
      simp only [List.foldl_cons]
      exact ih d0 (fun e2 he2 => h e2 (List.mem_cons_of_mem _ he2))
    | some v =>
      have hd := h (k2, some v, op2) (List.mem_cons_self _ _) v rfl
      simp only [List.foldl_cons]
      rw [dset_self d0 k2 v hd]
      exact ih d0 (fun e2 he2 => h e2 (List.mem_cons_of_mem _ he2))

/-! ## Fuel-bounded merge characterizations -/

theorem patch_entries_ok_charB : ∀ (n : Nat) (ks : List String) (ds ps : Dict)
    (res : List (String × Option Val × Option Val)),
    patch_entries n ks ds ps = .ok res →
    res.map (·.1) = ks ∧
    ∀ e ∈ res, ∃ m, m < n ∧ patch_val m (pyget ds e.1) (pyget ps e.1) = .ok e.2 := by
  intro n
  induction n with
  | zero =>
    intro ks ds ps res h
    cases ks with
    | nil =>
      simp only [patch_entries] at h
      cases h
      simp
    | cons k ks => simp [patch_entries] at h
  | succ n ih =>
    intro ks ds ps res h
    cases ks with
    | nil =>
      simp only [patch_entries] at h
      cases h
      simp
    | cons k ks =>
      simp only [patch_entries] at h
      obtain ⟨r, hr, h2⟩ := except_bind_ok h
      obtain ⟨rest, hrest, h3⟩ := except_bind_ok h2
      simp only [Except.ok.injEq] at h3
      subst h3
      obtain ⟨hmap, hall⟩ := ih ks ds ps rest hrest
      refine ⟨by simpa using hmap, ?_⟩
      intro e he
      rcases List.mem_cons.mp he with he1 | he2
      · subst he1
        exact ⟨n, Nat.lt_succ_self n, hr⟩
      · obtain ⟨m, hm, hpv⟩ := hall e he2
        exact ⟨m, Nat.lt_succ_of_lt hm, hpv⟩

theorem patch_val_none_wb (n : Nat) (de pe : Val) (o2 : Option Val)
    (h : patch_val n de pe = .ok (none, o2)) : pe = .null := by
  cases n with
  | zero => simp [patch_val] at h
  | succ n =>
    cases de <;> cases pe <;>
      simp only [patch_val] at h <;>
      first
        | rfl
        | simp at h
        | (obtain ⟨y, hy, hx⟩ := except_map_ok h
           simp at hx)

theorem patch_val_some_ne_null (n : Nat) (de pe : Val) (v : Val) (o2 : Option Val)
    (h : patch_val n de pe = .ok (some v, o2)) : v ≠ Val.null := by
  cases n with
  | zero => simp [patch_val] at h
  | succ n =>
    cases de <;> cases pe <;>
      simp only [patch_val] at h <;>
      first
        | (simp only [Except.ok.injEq, Prod.mk.injEq, Option.some.injEq] at h
           rw [← h.1]
           simp)
        | (obtain ⟨y, hy, hx⟩ := except_map_ok h
           simp only [Prod.mk.injEq, Option.some.injEq] at hx
           rw [hx.1]
           simp)
        | simp at h

theorem merge_dget_char_in (n : Nat) (x p m b : Dict) (k : String)
    (hx : (Dict.keys x).Nodup) (hp : (Dict.keys p).Nodup)
    (h : patch_dict n x p = .ok (m, b))
    (hk : k ∈ Dict.keys x ∨ k ∈ Dict.keys p) :
    ∃ nv, nv < n ∧ ∃ o : Option Val × Option Val,
      patch_val nv (pyget x k) (pyget p k) = .ok o ∧
      dget m k = (match o.1 with | some v => some v | none => dget x k) := by
  cases n with
  | zero => simp [patch_dict] at h
  | succ n =>
    simp only [patch_dict] at h
    obtain ⟨res, hres, h2⟩ := except_bind_ok h
    simp only [Except.ok.injEq] at h2
    have hm : m = res.foldl (fun d e => match e.2.1 with
        | some v => dset d e.1 v | none => d) x := by
      have h3 := congrArg Prod.fst h2
      simpa using h3.symm
    obtain ⟨hmap, hall⟩ := patch_entries_ok_charB _ _ _ _ _ hres
    have hkin : k ∈ Dict.keys x ++ (Dict.keys p).filter (fun k2 => !hasKey x k2) := by
      by_cases h2x : k ∈ Dict.keys x
      · exact List.mem_append_left _ h2x
      · rcases hk with h1 | h1
        · exact absurd h1 h2x
        · refine List.mem_append_right _ ?_
          refine List.mem_filter.mpr ⟨h1, ?_⟩
          have hf : hasKey x k = false := by
            cases hhk : hasKey x k
            · rfl
            · exact absurd ((hasKey_iff_mem x k).mp hhk) h2x
          simp [hf]
    have hkres : k ∈ res.map (·.1) := by
      rw [hmap]
      exact hkin
    obtain ⟨e, he, hek⟩ := List.mem_map.mp hkres
    obtain ⟨k2, od, op⟩ := e
    simp only at hek
    subst hek
    obtain ⟨nv, hnv, hpv⟩ := hall (k2, od, op) he
    have hndres : (res.map (·.1)).Nodup := by
      rw [hmap]
      refine List.Nodup.append hx (List.Nodup.filter _ hp) ?_
      intro a ha hb
      have hf2 := (List.mem_filter.mp hb).2
      simp only [Bool.not_eq_true'] at hf2
      exact ((dget_none_iff x a).mp ((hasKey_false_iff x a).mp hf2)) ha
    refine ⟨nv, Nat.lt_succ_of_lt hnv, (od, op), hpv, ?_⟩
    rw [hm]
    exact foldl_writeD_at res x k2 od op hndres he

theorem merge_dget_char_out (n : Nat) (x p m b : Dict) (k : String)
    (h : patch_dict n x p = .ok (m, b))
    (hkx : k ∉ Dict.keys x) (hkp : k ∉ Dict.keys p) :
    dget m k = none := by
  cases n with
  | zero => simp [patch_dict] at h
  | succ n =>
    simp only [patch_dict] at h
    obtain ⟨res, hres, h2⟩ := except_bind_ok h
    simp only [Except.ok.injEq] at h2
    have hm : m = res.foldl (fun d e => match e.2.1 with
        | some v => dset d e.1 v | none => d) x := by
      have h3 := congrArg Prod.fst h2
      simpa using h3.symm
    have hks := (patch_entries_ok_char _ _ _ _ _ hres).1
    have hknotin : ∀ e ∈ res, e.1 ≠ k := by
      intro e he hek
      have hmem : e.1 ∈ res.map (·.1) := List.mem_map.mpr ⟨e, he, rfl⟩
      rw [hks, hek] at hmem
      rcases List.mem_append.mp hmem with hin | hin
      · exact hkx hin
      · exact hkp (List.mem_of_mem_filter hin)
    rw [hm, foldl_writeD_dget_skip res x k hknotin]
    exact (dget_none_iff x k).mpr hkx

/-! ## Merge idempotence

`_patch_dict` run a second time over its own output (against the same patch
dictionary) rewrites every key to the value it already has: the data-side
writebacks of the second run are no-ops.  Proved jointly with preservation of
well-formedness, by induction on the first run's fuel. -/

theorem dget_pyget (d : Dict) (k : String) (v : Val) (h : dget d k = some v) :
    pyget d k = v := by
  unfold Dict.pyget
  rw [h]
  rfl

theorem merge_idem_core : ∀ N : Nat,
    (∀ n1, n1 ≤ N → ∀ de pe o, valWF de = true → valWF pe = true →
      patch_val n1 de pe = .ok o →
      valWF (o.1.getD de) = true ∧
      ∀ n2 o2, patch_val n2 (o.1.getD de) pe = .ok o2 →
        o2.1.getD (o.1.getD de) = o.1.getD de) ∧
    (∀ n1, n1 ≤ N → ∀ x p m b, dictWF x = true → dictWF p = true →
      patch_dict n1 x p = .ok (m, b) →
      dictWF m = true ∧
      ∀ n2 z, patch_dict n2 m p = .ok z → z.1 = m) := by
  intro N
  induction N with
  | zero =>
    constructor
    · intro n1 hn1 de pe o _ _ h
      interval_cases n1
      simp [patch_val] at h
    · intro n1 hn1 x p m b _ _ h
      interval_cases n1
      simp [patch_dict] at h
  | succ N ih =>
    constructor
    · -- value level
      intro n1 hn1 de pe o hde hpe h
      cases n1 with
      | zero => simp [patch_val] at h
      | succ nv =>
        have hnv : nv ≤ N := by omega
        cases de <;> cases pe <;> simp only [patch_val, Except.ok.injEq] at h
        -- merge branches: (dict, dict), (null, dict), (dict, null)
        case dict.dict ds ps =>
          obtain ⟨y, hy, hyo⟩ := except_map_ok h
          obtain ⟨m1, b1⟩ := y
          subst hyo
          have hds : dictWF ds = true := by simpa [valWF] using hde
          have hps : dictWF ps = true := by simpa [valWF] using hpe
          obtain ⟨hwfm, hdet⟩ := ih.2 nv hnv ds ps m1 b1 hds hps hy
          refine ⟨by simpa [valWF] using hwfm, ?_⟩
          intro n2 o2 h2
          cases n2 with
          | zero => simp [patch_val] at h2
          | succ n2 =>
            simp only [Option.getD_some, patch_val] at h2
            obtain ⟨z, hz, hzo⟩ := except_map_ok h2
            subst hzo
            have := hdet n2 z hz
            simp [this]
        case null.dict ps =>
          obtain ⟨y, hy, hyo⟩ := except_map_ok h
          obtain ⟨m1, b1⟩ := y
          subst hyo
          have hps : dictWF ps = true := by simpa [valWF] using hpe
          obtain ⟨hwfm, hdet⟩ := ih.2 nv hnv [] ps m1 b1 rfl hps hy
          refine ⟨by simpa [valWF] using hwfm, ?_⟩
          intro n2 o2 h2
          cases n2 with
          | zero => simp [patch_val] at h2
          | succ n2 =>
            simp only [Option.getD_some, patch_val] at h2
            obtain ⟨z, hz, hzo⟩ := except_map_ok h2
            subst hzo
            have := hdet n2 z hz
            simp [this]
        case dict.null ds =>
          obtain ⟨y, hy, hyo⟩ := except_map_ok h
          obtain ⟨m1, b1⟩ := y
          subst hyo
          have hds : dictWF ds = true := by simpa [valWF] using hde
          obtain ⟨hwfm, hdet⟩ := ih.2 nv hnv ds [] m1 b1 hds rfl hy
          refine ⟨by simpa [valWF] using hwfm, ?_⟩
          intro n2 o2 h2
          cases n2 with
          | zero => simp [patch_val] at h2
          | succ n2 =>
            simp only [Option.getD_some, patch_val] at h2
            obtain ⟨z, hz, hzo⟩ := except_map_ok h2
            subst hzo
            have := hdet n2 z hz
            simp [this]
        -- all remaining live branches: no-write (pe null) or scalar overwrite
        all_goals
          first
            | exact absurd h (by simp)
            | ( -- pe = null, de non-dict: the run writes nothing
               subst h
               dsimp only
               refine ⟨hde, ?_⟩
               intro n2 o2 h2
               cases n2 with
               | zero => simp [patch_val] at h2
               | succ n2 =>
                 simp only [patch_val, Except.ok.injEq] at h2
                 cases h2
                 rfl)
            | ( -- non-null scalar patch value: both runs write the patch value
               subst h
               dsimp only
               refine ⟨hpe, ?_⟩
               intro n2 o2 h2
               cases n2 with
               | zero => simp [patch_val] at h2
               | succ n2 =>
                 simp only [patch_val, Except.ok.injEq] at h2
                 cases h2
                 rfl)
    · -- dictionary level
      intro n1 hn1 x p m b hx hp h
      cases n1 with
      | zero => simp [patch_dict] at h
      | succ nd =>
        have hnd : nd ≤ N := by omega
        have hxnd := dictWF_keys_nodup x hx
        have hpnd := dictWF_keys_nodup p hp
        -- the merged dictionary's value at any key in scope
        have hkey_val : ∀ k, k ∈ Dict.keys x ∨ k ∈ Dict.keys p →
            ∃ nv, nv ≤ N ∧ ∃ o : Option Val × Option Val,
              patch_val nv (pyget x k) (pyget p k) = .ok o ∧
              dget m k = (match o.1 with | some v => some v | none => dget x k) := by
          intro k hk
          obtain ⟨nv, hlt, o, hpv, hdm⟩ :=
            merge_dget_char_in (nd + 1) x p m b k hxnd hpnd h hk
          exact ⟨nv, by omega, o, hpv, hdm⟩
        have hkey_out : ∀ k, k ∉ Dict.keys x → k ∉ Dict.keys p →
            dget m k = none :=
          fun k h1 h2 => merge_dget_char_out (nd + 1) x p m b k h h1 h2
        -- membership in m implies membership in x or p
        have hmem_m : ∀ k, k ∈ Dict.keys m → k ∈ Dict.keys x ∨ k ∈ Dict.keys p := by
          intro k hk
          by_contra hc
          push_neg at hc
          exact ((dget_none_iff m k).mp (hkey_out k hc.1 hc.2)) hk
        -- a key of p absent from m reads null in p
        have hp_null : ∀ k, k ∈ Dict.keys p → k ∉ Dict.keys m →
            pyget p k = Val.null := by
          intro k hkp hkm
          obtain ⟨nv, hle, o, hpv, hdm⟩ := hkey_val k (Or.inr hkp)
          have hdmn : dget m k = none := (dget_none_iff m k).mpr hkm
          rw [hdmn] at hdm
          cases ho : o.1 with
          | some v =>
            rw [ho] at hdm
            simp at hdm
          | none =>
            obtain ⟨o1, o2⟩ := o
            simp only at ho
            subst ho
            exact patch_val_none_wb nv _ _ o2 hpv
        -- well-formedness of m
        have hwfm : dictWF m = true := by
          -- keys of m are nodup
          have hmkeys : (Dict.keys m).Nodup := by
            simp only [patch_dict] at h
            obtain ⟨res, hres, h2⟩ := except_bind_ok h
            simp only [Except.ok.injEq] at h2
            have hmf : m = res.foldl (fun d e => match e.2.1 with
                | some v => dset d e.1 v | none => d) x := by
              have h3 := congrArg Prod.fst h2
              simpa using h3.symm
            obtain ⟨ws, hkeq, hwnd, hwout⟩ := foldl_writeD_keys_ext res x
            rw [hmf, hkeq]
            exact List.Nodup.append hxnd hwnd (fun a ha hb => hwout a hb ha)
          refine dictWF_of_parts m hmkeys ?_
          intro k v hkv
          have hkm : k ∈ Dict.keys m := by
            by_contra hc
            rw [(dget_none_iff m k).mpr hc] at hkv
            cases hkv
          obtain ⟨nv, hle, o, hpv, hdm⟩ := hkey_val k (hmem_m k hkm)
          have hQ := (ih.1 nv hle (pyget x k) (pyget p k) o
            (pyget_valWF x k hx) (pyget_valWF p k hp) hpv).1
          cases ho : o.1 with
          | some w =>
            rw [ho] at hdm
            rw [hdm] at hkv
            injection hkv with hkv2
            subst hkv2
            rw [ho] at hQ
            simpa using hQ
          | none =>
            rw [ho] at hdm
            rw [hdm] at hkv
            exact dget_valWF x k v hx hkv
        refine ⟨hwfm, ?_⟩
        -- determinism of the second run
        intro n2 z hz
        obtain ⟨m2, b2⟩ := z
        cases n2 with
        | zero => simp [patch_dict] at hz
        | succ n2 =>
          have hmnd := dictWF_keys_nodup m hwfm
          -- second-run characterizations
          have hkey_val2 : ∀ k, k ∈ Dict.keys m ∨ k ∈ Dict.keys p →
              ∃ nv, ∃ o : Option Val × Option Val,
                patch_val nv (pyget m k) (pyget p k) = .ok o ∧
                dget m2 k = (match o.1 with | some v => some v | none => dget m k) := by
            intro k hk
            obtain ⟨nv, _, o, hpv, hdm⟩ :=
              merge_dget_char_in (n2 + 1) m p m2 b2 k hmnd hpnd hz hk
            exact ⟨nv, o, hpv, hdm⟩
          have hkey_out2 : ∀ k, k ∉ Dict.keys m → k ∉ Dict.keys p →
              dget m2 k = none :=
            fun k h1 h2 => merge_dget_char_out (n2 + 1) m p m2 b2 k hz h1 h2
          -- keys of m2 equal keys of m
          have hkeys2 : Dict.keys m2 = Dict.keys m := by
            simp only [patch_dict] at hz
            obtain ⟨res2, hres2, h2⟩ := except_bind_ok hz
            simp only [Except.ok.injEq] at h2
            have hm2f : m2 = res2.foldl (fun d e => match e.2.1 with
                | some v => dset d e.1 v | none => d) m := by
              have h3 := congrArg Prod.fst h2
              simpa using h3.symm
            obtain ⟨hmap2, hall2⟩ := patch_entries_ok_charB _ _ _ _ _ hres2
            rw [hm2f]
            refine foldl_writeD_keys_preserve res2 m ?_
            intro e he hs
            by_contra hc
            have hkitr : e.1 ∈ Dict.keys m ++
                (Dict.keys p).filter (fun k2 => !hasKey m k2) := by
              rw [← hmap2]
              exact List.mem_map.mpr ⟨e, he, rfl⟩
            have hkem : e.1 ∉ Dict.keys m := by
              intro hmem
              exact hc ((hasKey_iff_mem m e.1).mpr hmem)
            have hkep : e.1 ∈ Dict.keys p := by
              rcases List.mem_append.mp hkitr with h1 | h1
              · exact absurd h1 hkem
              · exact (List.mem_filter.mp h1).1
            have hpn : pyget p e.1 = Val.null := hp_null e.1 hkep hkem
            have hmn : pyget m e.1 = Val.null := by
              unfold Dict.pyget
              rw [(dget_none_iff m e.1).mpr hkem]
              rfl
            obtain ⟨nv2, _, hpv2⟩ := hall2 e he
            rw [hmn, hpn] at hpv2
            cases nv2 with
            | zero => simp [patch_val] at hpv2
            | succ nv2 =>
              simp only [patch_val] at hpv2
              injection hpv2 with h3
              rw [← h3] at hs
              simp at hs
          -- values of m2 equal values of m
          refine (dict_ext m m2 hmnd hkeys2.symm ?_).symm
          intro k
          by_cases hkm : k ∈ Dict.keys m
          · have hkxp := hmem_m k hkm
            obtain ⟨nv1, hle1, o1, hpv1, hdm1⟩ := hkey_val k hkxp
            have hpm : pyget m k = o1.1.getD (pyget x k) := by
              cases ho : o1.1 with
              | some w =>
                rw [ho] at hdm1
                rw [Option.getD_some]
                exact dget_pyget m k w hdm1
              | none =>
                rw [ho] at hdm1
                rw [Option.getD_none]
                unfold Dict.pyget
                rw [hdm1]
            obtain ⟨nv2, o2, hpv2, hdm2⟩ := hkey_val2 k (Or.inl hkm)
            have hdet := (ih.1 nv1 hle1 (pyget x k) (pyget p k) o1
              (pyget_valWF x k hx) (pyget_valWF p k hp) hpv1).2 nv2 o2
              (by rw [← hpm]; exact hpv2)
            rw [← hpm] at hdet
            cases ho2 : o2.1 with
            | some w =>
              rw [ho2] at hdm2 hdet
              rw [Option.getD_some] at hdet
              rw [hdet] at hdm2
              have hsome : dget m k = some (pyget m k) := by
                cases hdg : dget m k with
                | none => exact absurd hkm ((dget_none_iff m k).mp hdg)
                | some v => rw [dget_pyget m k v hdg]
              rw [hsome, hdm2]
            | none =>
              rw [ho2] at hdm2
              exact hdm2.symm
          · have hdmn : dget m k = none := (dget_none_iff m k).mpr hkm
            by_cases hkp : k ∈ Dict.keys p
            · obtain ⟨nv2, o2, hpv2, hdm2⟩ := hkey_val2 k (Or.inr hkp)
              have hpn : pyget p k = Val.null := hp_null k hkp hkm
              have hmn : pyget m k = Val.null := by
                unfold Dict.pyget
                rw [hdmn]
                rfl
              rw [hmn, hpn] at hpv2
              cases nv2 with
              | zero => simp [patch_val] at hpv2
              | succ nv2 =>
                simp only [patch_val] at hpv2
                injection hpv2 with h3
                rw [← h3] at hdm2
                rw [hdm2, hdmn]
            · rw [hdmn, hkey_out2 k hkm hkp]

/-! ## Merging with an empty patch dictionary succeeds and is the identity -/

theorem merge_nil_succeeds : ∀ n : Nat,
    (∀ de, valWF de = true → vsize de + 1 ≤ n →
      ∃ o2, patch_val n de .null = .ok (vnilWriteback de, o2)) ∧
    (∀ ks x, dictWF x = true → (∀ k ∈ ks, k ∈ Dict.keys x) →
      (∀ k ∈ ks, vsize (pyget x k) + ks.length + 1 ≤ n) →
      ∃ res, patch_entries n ks x [] = .ok res ∧
        ∀ e ∈ res, e.2.1 = vnilWriteback (pyget x e.1)) ∧
    (∀ x, dictWF x = true → dsize x + 1 ≤ n →
      ∃ b, patch_dict n x [] = .ok (x, b)) := by
  intro n
  induction n with
  | zero =>
    refine ⟨?_, ?_, ?_⟩
    · intro de _ hsz
      have := vsize_pos de
      omega
    · intro ks x _ _ hsz
      cases ks with
      | nil => exact ⟨[], rfl, by simp⟩
      | cons k ks =>
        have h1 := hsz k (List.mem_cons_self _ _)
        have := vsize_pos (pyget x k)
        omega
    · intro x _ hsz
      have := dsize_pos x
      omega
  | succ n ih =>
    obtain ⟨ihv, ihe, ihd⟩ := ih
    refine ⟨?_, ?_, ?_⟩
    · intro de hde hsz
      cases de with
      | dict ds =>
        have hds : dictWF ds = true := by simpa [valWF] using hde
        have hsz2 : dsize ds + 1 ≤ n := by
          simp only [vsize] at hsz
          omega
        obtain ⟨b, hb⟩ := ihd ds hds hsz2
        refine ⟨some (.dict b), ?_⟩
        simp only [patch_val]
        rw [hb]
        rfl
      | null => exact ⟨none, rfl⟩
      | str s => exact ⟨none, rfl⟩
      | int i => exact ⟨none, rfl⟩
      | float f => exact ⟨none, rfl⟩
      | bool b => exact ⟨none, rfl⟩
      | date y m d => exact ⟨none, rfl⟩
      | datetime y m d h mi s us => exact ⟨none, rfl⟩
      | key p => exact ⟨none, rfl⟩
    · intro ks x hx hmem hsz
      cases ks with
      | nil => exact ⟨[], rfl, by simp⟩
      | cons k ks =>
        have hszk := hsz k (List.mem_cons_self _ _)
        have hvk : vsize (pyget x k) + 1 ≤ n := by
          simp only [List.length_cons] at hszk
          omega
        obtain ⟨o2, ho2⟩ := ihv (pyget x k) (pyget_valWF x k hx) hvk
        have hszr : ∀ k2 ∈ ks, vsize (pyget x k2) + ks.length + 1 ≤ n := by
          intro k2 hk2
          have := hsz k2 (List.mem_cons_of_mem _ hk2)
          simp only [List.length_cons] at this
          omega
        obtain ⟨res, hres, hprop⟩ :=
          ihe ks x hx (fun k2 hk2 => hmem k2 (List.mem_cons_of_mem _ hk2)) hszr
        refine ⟨(k, vnilWriteback (pyget x k), o2) :: res, ?_, ?_⟩
        · simp only [patch_entries]
          have hnull : pyget ([] : Dict) k = Val.null := rfl
          rw [hnull, ho2]
          simp only [Bind.bind, Except.bind]
          rw [hres]
        · intro e he
          rcases List.mem_cons.mp he with he1 | he2
          · subst he1
            rfl
          · exact hprop e he2
    · intro x hx hsz
      cases hn : n with
      | zero =>
        have := dsize_pos x
        omega
      | succ n2 =>
        subst hn
        have hkslen : (Dict.keys x ++ (Dict.keys ([] : Dict)).filter
            (fun k2 => !hasKey x k2)).length = x.length := by
          simp [Dict.keys]
        have hmem : ∀ k ∈ Dict.keys x ++ (Dict.keys ([] : Dict)).filter
            (fun k2 => !hasKey x k2), k ∈ Dict.keys x := by
          intro k hk
          simpa [Dict.keys] using hk
        have hszk : ∀ k ∈ Dict.keys x ++ (Dict.keys ([] : Dict)).filter
            (fun k2 => !hasKey x k2),
            vsize (pyget x k) + (Dict.keys x ++ (Dict.keys ([] : Dict)).filter
              (fun k2 => !hasKey x k2)).length + 1 ≤ n2 + 1 := by
          intro k hk
          have hkx := hmem k hk
          have hdg : ∃ v, dget x k = some v := by
            cases hdg2 : dget x k with
            | none => exact absurd hkx ((dget_none_iff x k).mp hdg2)
            | some v => exact ⟨v, rfl⟩
          obtain ⟨v, hv⟩ := hdg
          have hvs := dget_vsize x k v hv
          rw [hkslen]
          rw [dget_pyget x k v hv]
          omega
        obtain ⟨res, hres, hprop⟩ := ihe _ x hx hmem hszk
        obtain ⟨hmap, hall⟩ := patch_entries_ok_charB _ _ _ _ _ hres
        refine ⟨res.foldl (fun p e => match e.2.2 with
          | some v => dset p e.1 v | none => p) [], ?_⟩
        simp only [patch_dict]
        rw [hres]
        simp only [Bind.bind, Except.bind]
        have hfold : res.foldl (fun d e => match e.2.1 with
            | some v => dset d e.1 v | none => d) x = x := by
          refine foldl_writeD_noop res x ?_
          intro e he v hv
          have hwb := hprop e he
          rw [hwb] at hv
          have hkx : e.1 ∈ Dict.keys x := by
            have : e.1 ∈ res.map (·.1) := List.mem_map.mpr ⟨e, he, rfl⟩
            rw [hmap] at this
            exact hmem e.1 this
          have hdg : ∃ w, dget x e.1 = some w := by
            cases hdg2 : dget x e.1 with
            | none => exact absurd hkx ((dget_none_iff x e.1).mp hdg2)
            | some w => exact ⟨w, rfl⟩
          obtain ⟨w, hw⟩ := hdg
          rw [dget_pyget x e.1 w hw] at hv
          have hwv : w = v := by
            cases w with
            | dict es => exact Option.some.inj hv
            | null => simp [vnilWriteback] at hv
            | str a => simp [vnilWriteback] at hv
            | int a => simp [vnilWriteback] at hv
            | float a => simp [vnilWriteback] at hv
            | bool a => simp [vnilWriteback] at hv
            | date a b c => simp [vnilWriteback] at hv
            | datetime a b c d2 e2 f2 g2 => simp [vnilWriteback] at hv
            | key a => simp [vnilWriteback] at hv
          rw [hw, hwv]
        rw [hfold]
  
theorem patch_dict_nil_ok (x : Dict) (hx : dictWF x = true) :
    ∃ b, patch_dict (dsize x + 1) x [] = .ok (x, b) :=
  (merge_nil_succeeds (dsize x + 1)).2.2 x hx (Nat.le_refl _)

/-! ## Element-wise characterization of the parser traversal -/

theorem iter_false_dget_some (cv : PTy → Val → Except PyErr Val) :
    ∀ (din : Dict) (S : Schema) (dout : Dict),
    iter_dict cv S false din = .ok dout →
    ∀ k v, dget din k = some v →
      ∃ w, dget dout k = some w ∧ eConv cv (lookupProp S k) k v = .ok w := by
  intro din
  induction din with
  | nil =>
    intro S dout _ k v hv
    simp [dget] at hv
  | cons e rest ih =>
    intro S dout h k v hv
    obtain ⟨k0, v0⟩ := e
    cases v0
    case null =>
      rw [iter_false_cons_null] at h
      obtain ⟨tail, htail, hout⟩ := except_map_ok h
      subst hout
      by_cases hk : k0 = k
      · subst hk
        simp [dget] at hv
        subst hv
        exact ⟨.null, by simp [dget], rfl⟩
      · simp only [dget, if_neg hk] at hv
        obtain ⟨w, hw, hconv⟩ := ih S tail htail k v hv
        exact ⟨w, by simp [dget, hk, hw], hconv⟩
    all_goals
      rw [iter_false_cons_nonnull _ _ _ _ _ (by simp)] at h
      obtain ⟨v2, hv2, h2⟩ := except_bind_ok h
      obtain ⟨tail, htail, hout⟩ := except_map_ok h2
      subst hout
      by_cases hk : k0 = k
      · subst hk
        simp [dget] at hv
        subst hv
        refine ⟨v2, by simp [dget], ?_⟩
        simp only [eConv]
        exact hv2
      · simp only [dget, if_neg hk] at hv
        obtain ⟨w, hw, hconv⟩ := ih S tail htail k v hv
        exact ⟨w, by simp [dget, hk, hw], hconv⟩

theorem iter_false_dget_none (cv : PTy → Val → Except PyErr Val)
    (din : Dict) (S : Schema) (dout : Dict)
    (h : iter_dict cv S false din = .ok dout) (k : String)
    (hn : dget din k = none) : dget dout k = none := by
  rw [dget_none_iff] at hn ⊢
  rw [iter_false_keys cv din S dout h]
  exact hn

/-! ## Element-wise reading of the store's rendering -/

theorem to_dict_dget : ∀ (S : Schema) (r : Rec) (k : String),
    dget (to_dict S r) k =
      (lookupProp S k).map (fun ty => to_dict_val ty (pyget r k)) := by
  intro S
  induction S with
  | nil =>
    intro r k
    rfl
  | cons e rest ih =>
    intro r k
    obtain ⟨k0, ty0⟩ := e
    by_cases hk : k0 = k
    · subst hk
      simp [to_dict, dget, lookupProp]
    · simp [to_dict, dget, lookupProp, hk, ih]

theorem to_dict_congr : ∀ (S : Schema) (r1 r2 : Rec),
    (∀ e ∈ S, to_dict_val e.2 (pyget r1 e.1) = to_dict_val e.2 (pyget r2 e.1)) →
    to_dict S r1 = to_dict S r2 := by
  intro S
  induction S with
  | nil =>
    intro r1 r2 _
    rfl
  | cons e rest ih =>
    intro r1 r2 h
    obtain ⟨k0, ty0⟩ := e
    simp only [to_dict]
    rw [show to_dict_val ty0 (pyget r1 k0) = to_dict_val ty0 (pyget r2 k0) from
        h (k0, ty0) (List.mem_cons_self _ _),
      ih r1 r2 (fun e2 he2 => h e2 (List.mem_cons_of_mem _ he2))]

/-! ## Schema well-formedness lemmas -/

theorem lookupProp_mem_isSome : ∀ (S : Schema) (k : String) (ty : PTy),
    (k, ty) ∈ S → (lookupProp S k).isSome = true := by
  intro S
  induction S with
  | nil =>
    intro k ty h
    simp at h
  | cons e rest ih =>
    intro k ty h
    obtain ⟨k0, ty0⟩ := e
    rcases List.mem_cons.mp h with h1 | h2
    · injection h1 with ha hb
      subst ha
      simp [lookupProp]
    · by_cases hk : k0 = k
      · simp [lookupProp, hk]
      · simp only [lookupProp, if_neg hk]
        exact ih k ty h2

theorem lookup_mem : ∀ (S : Schema) (k : String) (ty : PTy),
    schemaWF S = true → (k, ty) ∈ S → lookupProp S k = some ty := by
  intro S
  induction S with
  | nil =>
    intro k ty _ h
    simp at h
  | cons e rest ih =>
    intro k ty hwf h
    obtain ⟨k0, ty0⟩ := e
    simp only [schemaWF, Bool.and_eq_true] at hwf
    rcases List.mem_cons.mp h with h1 | h2
    · injection h1 with ha hb
      subst ha
      subst hb
      simp [lookupProp]
    · by_cases hk : k0 = k
      · exfalso
        have hsome := lookupProp_mem_isSome rest k ty h2
        rw [Option.isSome_iff_ne_none] at hsome
        have hnone := hwf.1.1
        rw [Option.isNone_iff_eq_none] at hnone
        rw [hk] at hnone
        exact hsome hnone
      · simp only [lookupProp, if_neg hk]
        exact ih k ty hwf.2 h2

theorem schema_keys_nodup : ∀ (S : Schema), schemaWF S = true →
    (S.map (·.1)).Nodup := by
  intro S
  induction S with
  | nil =>
    intro _
    simp
  | cons e rest ih =>
    intro hwf
    obtain ⟨k0, ty0⟩ := e
    simp only [schemaWF, Bool.and_eq_true] at hwf
    rw [List.map_cons]
    refine List.nodup_cons.mpr ⟨?_, ih hwf.2⟩
    intro hc
    obtain ⟨e2, he2, hek⟩ := List.mem_map.mp hc
    obtain ⟨ka, tya⟩ := e2
    simp only at hek
    have hsome := lookupProp_mem_isSome rest ka tya he2
    rw [hek, Option.isSome_iff_ne_none] at hsome
    have hnone := hwf.1.1
    rw [Option.isNone_iff_eq_none] at hnone
    exact hsome hnone

theorem lookup_ptyWF : ∀ (S : Schema) (k : String) (ty : PTy),
    schemaWF S = true → lookupProp S k = some ty → ptyWF ty = true := by
  intro S
  induction S with
  | nil =>
    intro k ty _ h
    simp [lookupProp] at h
  | cons e rest ih =>
    intro k ty hwf h
    obtain ⟨k0, ty0⟩ := e
    simp only [schemaWF, Bool.and_eq_true] at hwf
    by_cases hk : k0 = k
    · subst hk
      simp [lookupProp] at h
      subst h
      exact hwf.1.2
    · simp only [lookupProp, if_neg hk] at h
      exact ih k ty hwf.2 h

theorem tsize_lt_ssize_of_mem : ∀ (S : Schema) (k : String) (ty : PTy),
    (k, ty) ∈ S → tsize ty < ssize S := by
  intro S
  induction S with
  | nil =>
    intro k ty h
    simp at h
  | cons e rest ih =>
    intro k ty h
    obtain ⟨k0, ty0⟩ := e
    rcases List.mem_cons.mp h with h1 | h2
    · injection h1 with ha hb
      subst hb
      simp only [ssize]
      omega
    · have h3 := ih k ty h2
      simp only [ssize]
      omega

/-! ## Well-formedness preservation through the pipeline -/

theorem tsize_pos (ty : PTy) : 1 ≤ tsize ty := by
  cases ty <;> simp [tsize]

theorem ssize_pos (S : Schema) : 1 ≤ ssize S := by
  cases S with
  | nil => simp [ssize]
  | cons e rest =>
    obtain ⟨k, ty⟩ := e
    simp only [ssize]
    omega

theorem to_dict_wf_core : ∀ N : Nat,
    (∀ ty v, tsize ty ≤ N → ptyWF ty = true → valWF v = true →
      valWF (to_dict_val ty v) = true) ∧
    (∀ S r, ssize S ≤ N → schemaWF S = true → dictWF r = true →
      dictWF (to_dict S r) = true) := by
  intro N
  induction N with
  | zero =>
    constructor
    · intro ty v hsz _ _
      have := tsize_pos ty
      omega
    · intro S r hsz _ _
      have := ssize_pos S
      omega
  | succ N ih =>
    constructor
    · intro ty v hsz hty hv
      cases ty with
      | pStruct ns =>
        cases v with
        | dict sub =>
          have hns : schemaWF ns = true := by simpa [ptyWF] using hty
          have hsub : dictWF sub = true := by simpa [valWF] using hv
          have hsz2 : ssize ns ≤ N := by
            simp only [tsize] at hsz
            omega
          simpa [to_dict_val, valWF] using ih.2 ns sub hsz2 hns hsub
        | null => exact hv
        | str s => exact hv
        | int i => exact hv
        | float f => exact hv
        | bool b => exact hv
        | date a b c => exact hv
        | datetime a b c d2 e2 f2 g2 => exact hv
        | key p => exact hv
      | pStr => exact hv
      | pInt => exact hv
      | pFloat => exact hv
      | pBool => exact hv
      | pDate => exact hv
      | pDateTime => exact hv
      | pKey => exact hv
    · intro S r hsz hS hr
      cases S with
      | nil => rfl
      | cons e rest =>
        obtain ⟨k0, ty0⟩ := e
        simp only [schemaWF, Bool.and_eq_true] at hS
        simp only [to_dict, dictWF, Bool.and_eq_true, Bool.not_eq_true']
        refine ⟨⟨?_, ?_⟩, ?_⟩
        · refine (hasKey_false_iff _ _).mpr ((dget_none_iff _ _).mpr ?_)
          rw [to_dict_keys]
          intro hc
          obtain ⟨e2, he2, hek⟩ := List.mem_map.mp hc
          obtain ⟨ka, tya⟩ := e2
          simp only at hek
          have hsome := lookupProp_mem_isSome rest ka tya he2
          rw [hek, Option.isSome_iff_ne_none] at hsome
          have hnone := hS.1.1
          rw [Option.isNone_iff_eq_none] at hnone
          exact hsome hnone
        · refine ih.1 ty0 (pyget r k0) ?_ hS.1.2 (pyget_valWF r k0 hr)
          have := ssize_pos rest
          simp only [ssize] at hsz
          omega
        · refine ih.2 rest r ?_ hS.2 hr
          have h1 := tsize_pos ty0
          simp only [ssize] at hsz
          omega

theorem iter_false_wf (cv : PTy → Val → Except PyErr Val)
    (hcv : ∀ ty v w, valWF v = true → cv ty v = .ok w → valWF w = true) :
    ∀ N : Nat,
    (∀ o k v w, vsize v ≤ N → valWF v = true → iter_entry cv o k v = .ok w →
      valWF w = true) ∧
    (∀ S din dout, dsize din ≤ N → dictWF din = true →
      iter_dict cv S false din = .ok dout → dictWF dout = true) := by
  intro N
  induction N with
  | zero =>
    constructor
    · intro o k v w hsz _ _
      have := vsize_pos v
      omega
    · intro S din dout hsz _ _
      have := dsize_pos din
      omega
  | succ N ih =>
    constructor
    · intro o k v w hsz hv hent
      cases o with
      | none => simp [iter_entry] at hent
      | some ty =>
        cases ty with
        | pStruct ns =>
          cases v with
          | dict sub =>
            simp only [iter_entry] at hent
            obtain ⟨dout2, hdout2, hw⟩ := except_map_ok hent
            subst hw
            have hsub : dictWF sub = true := by simpa [valWF] using hv
            have hsz2 : dsize sub ≤ N := by
              simp only [vsize] at hsz
              omega
            simpa [valWF] using ih.2 ns sub dout2 hsz2 hsub hdout2
          | null => simp [iter_entry] at hent
          | str s =>
            simp only [iter_entry] at hent
            exact absurd hent (by simp)
          | int i =>
            simp only [iter_entry] at hent
            exact absurd hent (by simp)
          | float f =>
            simp only [iter_entry] at hent
            exact absurd hent (by simp)
          | bool b =>
            simp only [iter_entry] at hent
            exact absurd hent (by simp)
          | date a b c =>
            simp only [iter_entry] at hent
            exact absurd hent (by simp)
          | datetime a b c d2 e2 f2 g2 =>
            simp only [iter_entry] at hent
            exact absurd hent (by simp)
          | key p =>
            simp only [iter_entry] at hent
            exact absurd hent (by simp)
        | pStr =>
          cases v <;>
            (simp only [iter_entry] at hent
             split at hent <;>
               first
                 | (injection hent with h2
                    subst h2
                    next h3 => exact hcv _ _ _ hv h3)
                 | exact absurd hent (by simp))
        | pInt =>
          cases v <;>
            (simp only [iter_entry] at hent
             split at hent <;>
               first
                 | (injection hent with h2
                    subst h2
                    next h3 => exact hcv _ _ _ hv h3)
                 | exact absurd hent (by simp))
        | pFloat =>
          cases v <;>
            (simp only [iter_entry] at hent
             split at hent <;>
               first
                 | (injection hent with h2
                    subst h2
                    next h3 => exact hcv _ _ _ hv h3)
                 | exact absurd hent (by simp))
        | pBool =>
          cases v <;>
            (simp only [iter_entry] at hent
             split at hent <;>
               first
                 | (injection hent with h2
                    subst h2
                    next h3 => exact hcv _ _ _ hv h3)
                 | exact absurd hent (by simp))
        | pDate =>
          cases v <;>
            (simp only [iter_entry] at hent
             split at hent <;>
               first
                 | (injection hent with h2
                    subst h2
                    next h3 => exact hcv _ _ _ hv h3)
                 | exact absurd hent (by simp))
        | pDateTime =>
          cases v <;>
            (simp only [iter_entry] at hent
             split at hent <;>
               first
                 | (injection hent with h2
                    subst h2
                    next h3 => exact hcv _ _ _ hv h3)
                 | exact absurd hent (by simp))
        | pKey =>
          cases v <;>
            (simp only [iter_entry] at hent
             split at hent <;>
               first
                 | (injection hent with h2
                    subst h2
                    next h3 => exact hcv _ _ _ hv h3)
                 | exact absurd hent (by simp))
    · intro S din dout hsz hdin hiter
      cases din with
      | nil =>
        rw [iter_false_nil] at hiter
        cases hiter
        rfl
      | cons e rest =>
        obtain ⟨k0, v0⟩ := e
        have hwf2 := dictWF_tail (k0, v0) rest hdin
        have hk0 : dget rest k0 = none := dictWF_head_not k0 v0 rest hdin
        have hv0 : valWF v0 = true := by
          simp only [dictWF, Bool.and_eq_true] at hdin
          exact hdin.1.2
        have hszrest : dsize rest ≤ N := by
          have := vsize_pos v0
          simp only [dsize] at hsz
          omega
        have hszv : vsize v0 ≤ N := by
          have := dsize_pos rest
          simp only [dsize] at hsz
          omega
        cases hv0c : v0
        case null =>
          subst hv0c
          rw [iter_false_cons_null] at hiter
          obtain ⟨tail, htail, hout⟩ := except_map_ok hiter
          subst hout
          have htailwf := ih.2 S rest tail hszrest hwf2 htail
          simp only [dictWF, Bool.and_eq_true, Bool.not_eq_true']
          refine ⟨⟨?_, rfl⟩, htailwf⟩
          refine (hasKey_false_iff _ _).mpr ?_
          rw [dget_none_iff, iter_false_keys cv rest S tail htail, ← dget_none_iff]
          exact hk0
        all_goals
          subst hv0c
          rw [iter_false_cons_nonnull _ _ _ _ _ (by simp)] at hiter
          obtain ⟨v2, hv2, h2⟩ := except_bind_ok hiter
          obtain ⟨tail, htail, hout⟩ := except_map_ok h2
          subst hout
          have htailwf := ih.2 S rest tail hszrest hwf2 htail
          have hv2wf := ih.1 (lookupProp S k0) k0 _ v2 hszv hv0 hv2
          simp only [dictWF, Bool.and_eq_true, Bool.not_eq_true']
          refine ⟨⟨?_, hv2wf⟩, htailwf⟩
          refine (hasKey_false_iff _ _).mpr ?_
          rw [dget_none_iff, iter_false_keys cv rest S tail htail, ← dget_none_iff]
          exact hk0

theorem text_preserves_valWF (ty : PTy) (v w : Val) (hv : valWF v = true)
    (h : text_from_property ty v = .ok w) : valWF w = true := by
  cases v with
  | null =>
    injection h with h2
    subst h2
    rfl
  | dict es =>
    cases ty <;> simp only [text_from_property] at h <;>
      first
        | (injection h with h2
           subst h2
           exact hv)
        | exact absurd h (by simp)
  | str s =>
    cases ty <;> simp only [text_from_property] at h <;>
      first
        | (injection h with h2
           subst h2
           rfl)
        | exact absurd h (by simp)
  | int n =>
    cases ty <;> simp only [text_from_property] at h <;>
      first
        | (injection h with h2
           subst h2
           rfl)
        | exact absurd h (by simp)
  | float f =>
    cases ty <;> simp only [text_from_property] at h <;>
      first
        | (injection h with h2
           subst h2
           rfl)
        | exact absurd h (by simp)
  | bool b =>
    cases ty <;> simp only [text_from_property] at h <;>
      first
        | (injection h with h2
           subst h2
           rfl)
        | exact absurd h (by simp)
  | key p =>
    cases ty <;> simp only [text_from_property] at h <;>
      first
        | (injection h with h2
           subst h2
           rfl)
        | exact absurd h (by simp)
  | date y m d =>
    cases ty with
    | pDate =>
      simp only [text_from_property] at h
      split at h
      · exact absurd h (by simp)
      · injection h with h2
        subst h2
        rfl
    | pDateTime =>
      simp only [text_from_property] at h
      injection h with h2
      subst h2
      rfl
    | pKey => exact absurd h (by simp [text_from_property])
    | pStr =>
      injection h with h2
      subst h2
      rfl
    | pInt =>
      injection h with h2
      subst h2
      rfl
    | pFloat =>
      injection h with h2
      subst h2
      rfl
    | pBool =>
      injection h with h2
      subst h2
      rfl
    | pStruct ns =>
      injection h with h2
      subst h2
      rfl
  | datetime y m d hh mi ss us =>
    cases ty with
    | pDate =>
      simp only [text_from_property] at h
      split at h
      · exact absurd h (by simp)
      · injection h with h2
        subst h2
        rfl
    | pDateTime =>
      simp only [text_from_property] at h
      injection h with h2
      subst h2
      rfl
    | pKey => exact absurd h (by simp [text_from_property])
    | pStr =>
      injection h with h2
      subst h2
      rfl
    | pInt =>
      injection h with h2
      subst h2
      rfl
    | pFloat =>
      injection h with h2
      subst h2
      rfl
    | pBool =>
      injection h with h2
      subst h2
      rfl
    | pStruct ns =>
      injection h with h2
      subst h2
      rfl

theorem decode_preserves_valWF (v : Val) (b : Bool) (w : Val)
    (h : decode_ndb_key v b = .ok w) : valWF w = true := by
  cases v with
  | null =>
    simp only [decode_ndb_key] at h
    split at h
    · exact absurd h (by simp)
    · injection h with h2
      subst h2
      rfl
  | key p =>
    injection h with h2
    subst h2
    rfl
  | str s =>
    simp only [decode_ndb_key] at h
    split at h
    · injection h with h2
      subst h2
      rfl
    · split at h <;> exact absurd h (by simp)
  | int n =>
    simp only [decode_ndb_key] at h
    split at h <;> exact absurd h (by simp)
  | float f =>
    simp only [decode_ndb_key] at h
    split at h <;> exact absurd h (by simp)
  | bool b2 =>
    simp only [decode_ndb_key] at h
    split at h <;> exact absurd h (by simp)
  | date y m d =>
    simp only [decode_ndb_key] at h
    split at h <;> exact absurd h (by simp)
  | datetime y m d hh mi ss us =>
    simp only [decode_ndb_key] at h
    split at h <;> exact absurd h (by simp)
  | dict es =>
    simp only [decode_ndb_key] at h
    split at h <;> exact absurd h (by simp)

theorem value_preserves_valWF (ty : PTy) (v w : Val) (hv : valWF v = true)
    (h : value_for_property ty v = .ok w) : valWF w = true := by
  cases v with
  | null =>
    injection h with h2
    subst h2
    rfl
  | str s =>
    cases ty with
    | pDate =>
      simp only [value_for_property] at h
      split at h
      · injection h with h2
        subst h2
        rfl
      · exact absurd h (by simp)
    | pDateTime =>
      simp only [value_for_property] at h
      split at h
      · injection h with h2
        subst h2
        rfl
      · exact absurd h (by simp)
    | pKey =>
      simp only [value_for_property] at h
      exact decode_preserves_valWF _ _ _ h
    | pStr =>
      injection h with h2
      subst h2
      rfl
    | pInt =>
      injection h with h2
      subst h2
      rfl
    | pFloat =>
      injection h with h2
      subst h2
      rfl
    | pBool =>
      injection h with h2
      subst h2
      rfl
    | pStruct ns =>
      injection h with h2
      subst h2
      rfl
  | dict es =>
    cases ty <;> simp only [value_for_property] at h <;>
      first
        | (injection h with h2
           subst h2
           exact hv)
        | exact absurd h (by simp)
  | int n =>
    cases ty <;> simp only [value_for_property] at h <;>
      first
        | (injection h with h2
           subst h2
           rfl)
        | exact absurd h (by simp)
  | float f =>
    cases ty <;> simp only [value_for_property] at h <;>
      first
        | (injection h with h2
           subst h2
           rfl)
        | exact absurd h (by simp)
  | bool b =>
    cases ty <;> simp only [value_for_property] at h <;>
      first
        | (injection h with h2
           subst h2
           rfl)
        | exact absurd h (by simp)
  | key p =>
    cases ty <;> simp only [value_for_property] at h <;>
      first
        | (injection h with h2
           subst h2
           rfl)
        | exact absurd h (by simp)
  | date y m d =>
    cases ty <;> simp only [value_for_property] at h <;>
      first
        | (injection h with h2
           subst h2
           rfl)
        | exact absurd h (by simp)
  | datetime y m d hh mi ss us =>
    cases ty <;> simp only [value_for_property] at h <;>
      first
        | (injection h with h2
           subst h2
           rfl)
        | exact absurd h (by simp)

/-! ## Element-wise reading of populate -/

theorem populate_dget : ∀ (dd : Dict) (S : Schema) (r : Rec) (k : String),
    (Dict.keys dd).Nodup →
    dget (populate S r dd) k =
      (match dget dd k with
       | some v => some (populate_val (lookupProp S k) v)
       | none => dget r k) := by
  intro dd
  induction dd with
  | nil =>
    intro S r k _
    rfl
  | cons e rest ih =>
    intro S r k hnd
    obtain ⟨k0, v0⟩ := e
    rw [keys_cons] at hnd
    have hnd2 := List.nodup_cons.mp hnd
    simp only [populate]
    rw [ih S _ k hnd2.2]
    by_cases hk : k0 = k
    · subst hk
      have hr : dget rest k0 = none := (dget_none_iff rest k0).mpr hnd2.1
      rw [hr]
      simp [dget, dget_dset_self]
    · cases hdr : dget rest k <;>
        simp [dget, hk, hdr, dget_dset_ne _ _ _ _ (fun hc => hk hc)]

theorem populate_wf_core : ∀ N : Nat,
    (∀ o v, vsize v ≤ N → valWF v = true → valWF (populate_val o v) = true) ∧
    (∀ S dd r, dsize dd ≤ N → dictWF dd = true → dictWF r = true →
      dictWF (populate S r dd) = true) := by
  intro N
  induction N with
  | zero =>
    constructor
    · intro o v hsz _
      have := vsize_pos v
      omega
    · intro S dd r hsz _ _
      have := dsize_pos dd
      omega
  | succ N ih =>
    constructor
    · intro o v hsz hv
      cases o with
      | none => cases v <;> exact hv
      | some ty =>
        cases ty with
        | pStruct ns =>
          cases v with
          | dict sub =>
            have hsub : dictWF sub = true := by simpa [valWF] using hv
            have hsz2 : dsize sub ≤ N := by
              simp only [vsize] at hsz
              omega
            simpa [populate_val, valWF] using ih.2 ns sub [] hsz2 hsub rfl
          | null => exact hv
          | str s => exact hv
          | int i => exact hv
          | float f => exact hv
          | bool b => exact hv
          | date a b c => exact hv
          | datetime a b c d2 e2 f2 g2 => exact hv
          | key p => exact hv
        | pStr => cases v <;> exact hv
        | pInt => cases v <;> exact hv
        | pFloat => cases v <;> exact hv
        | pBool => cases v <;> exact hv
        | pDate => cases v <;> exact hv
        | pDateTime => cases v <;> exact hv
        | pKey => cases v <;> exact hv
    · intro S dd r hsz hdd hr
      cases dd with
      | nil => exact hr
      | cons e rest =>
        obtain ⟨k0, v0⟩ := e
        have hv0 : valWF v0 = true := by
          simp only [dictWF, Bool.and_eq_true] at hdd
          exact hdd.1.2
        have hszv : vsize v0 ≤ N := by
          have := dsize_pos rest
          simp only [dsize] at hsz
          omega
        have hszrest : dsize rest ≤ N := by
          have := vsize_pos v0
          simp only [dsize] at hsz
          omega
        simp only [populate]
        refine ih.2 S rest _ hszrest (dictWF_tail _ _ hdd) ?_
        exact dset_wf r k0 _ hr (ih.1 (lookupProp S k0) v0 hszv hv0)

theorem populate_val_wf (o : Option PTy) (v : Val) (hv : valWF v = true) :
    valWF (populate_val o v) = true :=
  (populate_wf_core (vsize v)).1 o v (Nat.le_refl _) hv

theorem populate_wf (S : Schema) (dd : Dict) (r : Rec) (hdd : dictWF dd = true)
    (hr : dictWF r = true) : dictWF (populate S r dd) = true :=
  (populate_wf_core (dsize dd)).2 S dd r (Nat.le_refl _) hdd hr

theorem populate_base_irrel (S : Schema) (r : Rec) (dd : Dict)
    (hnd : (Dict.keys dd).Nodup)
    (hcov : ∀ e ∈ S, hasKey dd e.1 = true) :
    to_dict S (populate S r dd) = to_dict S (populate S [] dd) := by
  refine to_dict_congr S _ _ ?_
  intro e he
  have hk := hcov e he
  have hdg : ∃ v, dget dd e.1 = some v := by
    cases hdg2 : dget dd e.1 with
    | none =>
      rw [hasKey, hdg2] at hk
      simp at hk
    | some v => exact ⟨v, rfl⟩
  obtain ⟨v, hv⟩ := hdg
  have h1 := populate_dget dd S r e.1 hnd
  have h2 := populate_dget dd S ([] : Rec) e.1 hnd
  rw [hv] at h1 h2
  unfold Dict.pyget
  rw [h1, h2]

/-! ## Parsed dates are valid -/

theorem digit_lt (c : Char) (d : Nat) (h : digit? c = some d) : d < 10 := by
  unfold digit? at h
  split at h
  · injection h with h2
    subst h2
    next hc => omega
  · cases h

theorem num2_lt (a b : Char) (n : Nat) (h : num2 a b = some n) : n < 100 := by
  unfold num2 at h
  simp only [Option.bind_eq_bind, Option.bind_eq_some, Option.some.injEq] at h
  obtain ⟨x, hx, y, hy, h2⟩ := h
  have h3 := digit_lt a x hx
  have h4 := digit_lt b y hy
  omega

theorem num4_lt (a b c d : Char) (n : Nat) (h : num4 a b c d = some n) :
    n < 10000 := by
  unfold num4 at h
  simp only [Option.bind_eq_bind, Option.bind_eq_some, Option.some.injEq] at h
  obtain ⟨x, hx, y, hy, h2⟩ := h
  have h3 := num2_lt a b x hx
  have h4 := num2_lt c d y hy
  omega

theorem num6_lt (a b c d e f : Char) (n : Nat) (h : num6 a b c d e f = some n) :
    n < 1000000 := by
  unfold num6 at h
  simp only [Option.bind_eq_bind, Option.bind_eq_some, Option.some.injEq] at h
  obtain ⟨x, hx, y, hy, h2⟩ := h
  have h3 := num4_lt a b c d x hx
  have h4 := num2_lt e f y hy
  omega

theorem parseDate_valid (s : String) (y m d : Nat)
    (h : parseDate s = some (y, m, d)) : validDate y m d = true := by
  unfold parseDate at h
  split at h
  · simp only [Option.bind_eq_bind, Option.bind_eq_some] at h
    obtain ⟨y1, hy1, m1, hm1, d1, hd1, h2⟩ := h
    split at h2
    · injection h2 with h3
      injection h3 with ha hb
      injection hb with hb1 hb2
      subst ha
      subst hb1
      subst hb2
      next hcond => exact hcond
    · cases h2
  · cases h

theorem parseDateTime_valid (s : String) (y m d hh mi ss us : Nat)
    (h : parseDateTime s = some (y, m, d, hh, mi, ss, us)) :
    validDate y m d = true ∧ validTime hh mi ss = true ∧ us < 1000000 := by
  unfold parseDateTime at h
  split at h
  · simp only [Option.bind_eq_bind, Option.bind_eq_some] at h
    obtain ⟨y1, hy1, m1, hm1, d1, hd1, h1, hh1, mi1, hmi1, s1, hs1, u1, hu1, h2⟩ := h
    split at h2
    · injection h2 with h3
      injection h3 with ha hb
      injection hb with hb1 hc
      injection hc with hc1 hd2
      injection hd2 with hd1b he
      injection he with he1 hf
      injection hf with hf1 hg
      subst ha
      subst hb1
      subst hc1
      subst hd1b
      subst he1
      subst hf1
      subst hg
      next hcond =>
        simp only [Bool.and_eq_true] at hcond
        exact ⟨hcond.1, hcond.2, num6_lt _ _ _ _ _ _ _ hu1⟩
    · cases h2
  · cases h

/-! ## Per-kind conversion identities -/

theorem eConv_null (cv : PTy → Val → Except PyErr Val) (o : Option PTy)
    (k : String) : eConv cv o k .null = .ok .null := rfl

theorem to_dict_val_null (ty : PTy) : to_dict_val ty .null = .null := by
  cases ty <;> rfl

theorem populate_val_null (o : Option PTy) : populate_val o .null = .null := by
  cases o with
  | none => rfl
  | some ty => cases ty <;> rfl

theorem populate_val_nonstruct (ty : PTy) (v : Val)
    (hty : ∀ ns, ty ≠ .pStruct ns) : populate_val (some ty) v = v := by
  cases ty <;> first
    | (cases v <;> rfl)
    | exact absurd rfl (hty _)

theorem to_dict_val_nonstruct (ty : PTy) (v : Val)
    (hty : ∀ ns, ty ≠ .pStruct ns) : to_dict_val ty v = v := by
  cases ty <;> first
    | (cases v <;> rfl)
    | exact absurd rfl (hty _)

theorem eConv_value_pass (ty : PTy) (k : String) (v : Val)
    (hty : ty = .pStr ∨ ty = .pInt ∨ ty = .pFloat ∨ ty = .pBool) :
    eConv value_for_property (some ty) k v = .ok v := by
  rcases hty with rfl | rfl | rfl | rfl <;> cases v <;> rfl

theorem eConv_text_pass (ty : PTy) (k : String) (v : Val)
    (hty : ty = .pStr ∨ ty = .pInt ∨ ty = .pFloat ∨ ty = .pBool) :
    eConv text_from_property (some ty) k v = .ok v := by
  rcases hty with rfl | rfl | rfl | rfl <;> cases v <;> rfl

theorem patch_val_scalar_wb (n : Nat) (de pe : Val) (v : Val) (o2 : Option Val)
    (h : patch_val n de pe = .ok (some v, o2)) (hv : ∀ es, v ≠ .dict es) :
    pe = v := by
  cases n with
  | zero => simp [patch_val] at h
  | succ n =>
    cases de <;> cases pe <;> simp only [patch_val] at h <;>
      first
        | (simp only [Except.ok.injEq, Prod.mk.injEq, Option.some.injEq] at h
           exact h.1)
        | (simp only [Except.ok.injEq, Prod.mk.injEq] at h
           exact absurd h.1 (by simp))
        | (obtain ⟨y, hy, hx⟩ := except_map_ok h
           simp only [Prod.mk.injEq, Option.some.injEq] at hx
           exact absurd hx.1 (hv _))
        | exact absurd h (by simp)

/-! ## Field-level round-trip: one property, one patch value, patched twice

`fr_*` prove, for each property kind, that if a field survived one
render–merge–parse–populate pass (producing stored value
`populate_val (some ty) dv1`), then a second pass against the same patch
value reads back the same stored value. -/

theorem fr_scalar (ty : PTy)
    (hty : ty = .pStr ∨ ty = .pInt ∨ ty = .pFloat ∨ ty = .pBool)
    (k : String) (tv pv : Val) (o1 : Option Val × Option Val) (dv1 jv2 : Val)
    (o2 : Option Val × Option Val) (dv2 : Val) (n1 n2 : Nat)
    (htv : valWF tv = true) (hpv : valWF pv = true)
    (hA : patch_val n1 tv pv = .ok o1)
    (hB : eConv value_for_property (some ty) k (o1.1.getD tv) = .ok dv1)
    (hC : eConv text_from_property (some ty) k
      (to_dict_val ty (populate_val (some ty) dv1)) = .ok jv2)
    (hD : patch_val n2 jv2 pv = .ok o2)
    (hE : eConv value_for_property (some ty) k (o2.1.getD jv2) = .ok dv2) :
    to_dict_val ty (populate_val (some ty) dv2)
      = to_dict_val ty (populate_val (some ty) dv1) := by
  have hns : ∀ ns, ty ≠ .pStruct ns := by
    rcases hty with rfl | rfl | rfl | rfl <;> intro ns hc <;> cases hc
  rw [eConv_value_pass ty k _ hty] at hB
  injection hB with hB2
  rw [populate_val_nonstruct ty dv1 hns, to_dict_val_nonstruct ty dv1 hns,
    eConv_text_pass ty k _ hty] at hC
  injection hC with hC2
  obtain ⟨hwf1, hdet⟩ := (merge_idem_core n1).1 n1 (Nat.le_refl _) tv pv o1 htv hpv hA
  have hD2 : patch_val n2 (o1.1.getD tv) pv = .ok o2 := by
    rw [hB2, hC2]
    exact hD
  have hgd := hdet n2 o2 hD2
  rw [eConv_value_pass ty k _ hty] at hE
  injection hE with hE2
  rw [← hC2, ← hB2, hgd] at hE2
  rw [populate_val_nonstruct ty dv2 hns, to_dict_val_nonstruct ty dv2 hns,
    populate_val_nonstruct ty dv1 hns, to_dict_val_nonstruct ty dv1 hns,
    ← hE2, ← hB2]

theorem fr_date (k : String) (tv pv : Val) (o1 : Option Val × Option Val)
    (dv1 jv2 : Val) (o2 : Option Val × Option Val) (dv2 : Val) (n1 n2 : Nat)
    (hA : patch_val n1 tv pv = .ok o1)
    (hB : eConv value_for_property (some .pDate) k (o1.1.getD tv) = .ok dv1)
    (hC : eConv text_from_property (some .pDate) k
      (to_dict_val .pDate (populate_val (some .pDate) dv1)) = .ok jv2)
    (hD : patch_val n2 jv2 pv = .ok o2)
    (hE : eConv value_for_property (some .pDate) k (o2.1.getD jv2) = .ok dv2) :
    to_dict_val .pDate (populate_val (some .pDate) dv2)
      = to_dict_val .pDate (populate_val (some .pDate) dv1) := by
  have hns : ∀ ns, PTy.pDate ≠ PTy.pStruct ns := by
    intro ns hc
    cases hc
  rw [populate_val_nonstruct _ _ hns, to_dict_val_nonstruct _ _ hns] at hC
  rw [populate_val_nonstruct _ _ hns, to_dict_val_nonstruct _ _ hns,
    populate_val_nonstruct _ _ hns, to_dict_val_nonstruct _ _ hns]
  cases hmv : o1.1.getD tv with
  | str s =>
    rw [hmv] at hB
    simp only [eConv, iter_entry, value_for_property] at hB
    cases hps : parseDate s with
    | none =>
      rw [hps] at hB
      simp at hB
    | some t =>
      obtain ⟨y, m, d⟩ := t
      rw [hps] at hB
      have hB2 : (Except.ok (Val.datetime y m d 0 0 0 0) : Except PyErr Val)
          = Except.ok dv1 := hB
      injection hB2 with hB3
      subst hB3
      simp only [eConv, iter_entry, text_from_property] at hC
      by_cases hy : y < 1900
      · rw [if_pos hy] at hC
        simp at hC
      · rw [if_neg hy] at hC
        have hC2 : (Except.ok (Val.str (fmtDate y m d)) : Except PyErr Val)
            = Except.ok jv2 := hC
        injection hC2 with hC3
        subst hC3
        cases ho : o1.1 with
        | some w =>
          rw [ho, Option.getD_some] at hmv
          subst hmv
          have ho1e : o1 = (some (Val.str s), o1.2) := by
            rw [← ho]
          rw [ho1e] at hA
          have hpvs : pv = Val.str s := by
            refine patch_val_scalar_wb n1 tv pv _ o1.2 hA ?_
            intro es hc
            cases hc
          rw [hpvs] at hD
          cases n2 with
          | zero => simp [patch_val] at hD
          | succ n2 =>
            simp only [patch_val, Except.ok.injEq] at hD
            rw [← hD] at hE
            have hE2 : eConv value_for_property (some .pDate) k (Val.str s)
                = .ok dv2 := hE
            simp only [eConv, iter_entry, value_for_property] at hE2
            rw [hps] at hE2
            have hE3 : (Except.ok (Val.datetime y m d 0 0 0 0) : Except PyErr Val)
                = Except.ok dv2 := hE2
            exact (Except.ok.inj hE3).symm
        | none =>
          rw [ho, Option.getD_none] at hmv
          have ho1e : o1 = (none, o1.2) := by
            rw [← ho]
          rw [ho1e] at hA
          have hpvn : pv = Val.null := patch_val_none_wb n1 tv pv o1.2 hA
          rw [hpvn] at hD
          cases n2 with
          | zero => simp [patch_val] at hD
          | succ n2 =>
            simp only [patch_val, Except.ok.injEq] at hD
            rw [← hD] at hE
            have hE2 : eConv value_for_property (some .pDate) k
                (Val.str (fmtDate y m d)) = .ok dv2 := hE
            simp only [eConv, iter_entry, value_for_property] at hE2
            rw [parse_fmtDate y m d (parseDate_valid s y m d hps)] at hE2
            have hE3 : (Except.ok (Val.datetime y m d 0 0 0 0) : Except PyErr Val)
                = Except.ok dv2 := hE2
            exact (Except.ok.inj hE3).symm
  | null =>
    rw [hmv, eConv_null] at hB
    injection hB with hB2
    subst hB2
    rw [eConv_null] at hC
    injection hC with hC2
    subst hC2
    have ho1 : o1.1 = none := by
      cases ho : o1.1 with
      | none => rfl
      | some w =>
        rw [ho, Option.getD_some] at hmv
        have ho1e : o1 = (some w, o1.2) := by
          rw [← ho]
        rw [ho1e] at hA
        exact absurd hmv (patch_val_some_ne_null n1 tv pv w o1.2 hA)
    have ho1e : o1 = (none, o1.2) := by
      rw [← ho1]
    rw [ho1e] at hA
    have hpvn : pv = Val.null := patch_val_none_wb n1 tv pv o1.2 hA
    rw [hpvn] at hD
    cases n2 with
    | zero => simp [patch_val] at hD
    | succ n2 =>
      simp only [patch_val, Except.ok.injEq] at hD
      rw [← hD] at hE
      have hE2 : eConv value_for_property (some .pDate) k Val.null
          = .ok dv2 := hE
      rw [eConv_null] at hE2
      exact (Except.ok.inj hE2).symm
  | int n =>
    rw [hmv] at hB
    simp [eConv, iter_entry, value_for_property] at hB
  | float f =>
    rw [hmv] at hB
    simp [eConv, iter_entry, value_for_property] at hB
  | bool b =>
    rw [hmv] at hB
    simp [eConv, iter_entry, value_for_property] at hB
  | date y m d =>
    rw [hmv] at hB
    simp [eConv, iter_entry, value_for_property] at hB
  | datetime y m d hh mi ss us =>
    rw [hmv] at hB
    simp [eConv, iter_entry, value_for_property] at hB
  | key p =>
    rw [hmv] at hB
    simp [eConv, iter_entry, value_for_property] at hB
  | dict es =>
    rw [hmv] at hB
    simp [eConv, iter_entry, value_for_property] at hB

theorem fr_datetime (k : String) (tv pv : Val) (o1 : Option Val × Option Val)
    (dv1 jv2 : Val) (o2 : Option Val × Option Val) (dv2 : Val) (n1 n2 : Nat)
    (hA : patch_val n1 tv pv = .ok o1)
    (hB : eConv value_for_property (some .pDateTime) k (o1.1.getD tv) = .ok dv1)
    (hC : eConv text_from_property (some .pDateTime) k
      (to_dict_val .pDateTime (populate_val (some .pDateTime) dv1)) = .ok jv2)
    (hD : patch_val n2 jv2 pv = .ok o2)
    (hE : eConv value_for_property (some .pDateTime) k (o2.1.getD jv2) = .ok dv2) :
    to_dict_val .pDateTime (populate_val (some .pDateTime) dv2)
      = to_dict_val .pDateTime (populate_val (some .pDateTime) dv1) := by
  have hns : ∀ ns, PTy.pDateTime ≠ PTy.pStruct ns := by
    intro ns hc
    cases hc
  rw [populate_val_nonstruct _ _ hns, to_dict_val_nonstruct _ _ hns] at hC
  rw [populate_val_nonstruct _ _ hns, to_dict_val_nonstruct _ _ hns,
    populate_val_nonstruct _ _ hns, to_dict_val_nonstruct _ _ hns]
  cases hmv : o1.1.getD tv with
  | str s =>
    rw [hmv] at hB
    simp only [eConv, iter_entry, value_for_property] at hB
    cases hps : parseDateTime s with
    | none =>
      rw [hps] at hB
      simp at hB
    | some t =>
      obtain ⟨y, m, d, hh, mi, ss, us⟩ := t
      rw [hps] at hB
      have hB2 : (Except.ok (Val.datetime y m d hh mi ss us) : Except PyErr Val)
          = Except.ok dv1 := hB
      injection hB2 with hB3
      subst hB3
      simp only [eConv, iter_entry, text_from_property] at hC
      have hC2 : (Except.ok (Val.str (fmtDateTime y m d hh mi ss us)) :
          Except PyErr Val) = Except.ok jv2 := hC
      injection hC2 with hC3
      subst hC3
      cases ho : o1.1 with
      | some w =>
        rw [ho, Option.getD_some] at hmv
        subst hmv
        have ho1e : o1 = (some (Val.str s), o1.2) := by
          rw [← ho]
        rw [ho1e] at hA
        have hpvs : pv = Val.str s := by
          refine patch_val_scalar_wb n1 tv pv _ o1.2 hA ?_
          intro es hc
          cases hc
        rw [hpvs] at hD
        cases n2 with
        | zero => simp [patch_val] at hD
        | succ n2 =>
          simp only [patch_val, Except.ok.injEq] at hD
          rw [← hD] at hE
          have hE2 : eConv value_for_property (some .pDateTime) k (Val.str s)
              = .ok dv2 := hE
          simp only [eConv, iter_entry, value_for_property] at hE2
          rw [hps] at hE2
          have hE3 : (Except.ok (Val.datetime y m d hh mi ss us) :
              Except PyErr Val) = Except.ok dv2 := hE2
          exact (Except.ok.inj hE3).symm
      | none =>
        rw [ho, Option.getD_none] at hmv
        have ho1e : o1 = (none, o1.2) := by
          rw [← ho]
        rw [ho1e] at hA
        have hpvn : pv = Val.null := patch_val_none_wb n1 tv pv o1.2 hA
        rw [hpvn] at hD
        cases n2 with
        | zero => simp [patch_val] at hD
        | succ n2 =>
          simp only [patch_val, Except.ok.injEq] at hD
          rw [← hD] at hE
          have hE2 : eConv value_for_property (some .pDateTime) k
              (Val.str (fmtDateTime y m d hh mi ss us)) = .ok dv2 := hE
          simp only [eConv, iter_entry, value_for_property] at hE2
          by_cases hus : us = 0
          · rw [hus, parseDateTime_no_frac] at hE2
            simp at hE2
          · obtain ⟨hvd, hvt, hlt⟩ := parseDateTime_valid s y m d hh mi ss us hps
            rw [parse_fmtDateTime y m d hh mi ss us hvd hvt hlt hus] at hE2
            have hE3 : (Except.ok (Val.datetime y m d hh mi ss us) :
                Except PyErr Val) = Except.ok dv2 := hE2
            exact (Except.ok.inj hE3).symm
  | null =>
    rw [hmv, eConv_null] at hB
    injection hB with hB2
    subst hB2
    rw [eConv_null] at hC
    injection hC with hC2
    subst hC2
    have ho1 : o1.1 = none := by
      cases ho : o1.1 with
      | none => rfl
      | some w =>
        rw [ho, Option.getD_some] at hmv
        have ho1e : o1 = (some w, o1.2) := by
          rw [← ho]
        rw [ho1e] at hA
        exact absurd hmv (patch_val_some_ne_null n1 tv pv w o1.2 hA)
    have ho1e : o1 = (none, o1.2) := by
      rw [← ho1]
    rw [ho1e] at hA
    have hpvn : pv = Val.null := patch_val_none_wb n1 tv pv o1.2 hA
    rw [hpvn] at hD
    cases n2 with
    | zero => simp [patch_val] at hD
    | succ n2 =>
      simp only [patch_val, Except.ok.injEq] at hD
      rw [← hD] at hE
      have hE2 : eConv value_for_property (some .pDateTime) k Val.null
          = .ok dv2 := hE
      rw [eConv_null] at hE2
      exact (Except.ok.inj hE2).symm
  | int n =>
    rw [hmv] at hB
    simp [eConv, iter_entry, value_for_property] at hB
  | float f =>
    rw [hmv] at hB
    simp [eConv, iter_entry, value_for_property] at hB
  | bool b =>
    rw [hmv] at hB
    simp [eConv, iter_entry, value_for_property] at hB
  | date y m d =>
    rw [hmv] at hB
    simp [eConv, iter_entry, value_for_property] at hB
  | datetime y m d hh mi ss us =>
    rw [hmv] at hB
    simp [eConv, iter_entry, value_for_property] at hB
  | key p =>
    rw [hmv] at hB
    simp [eConv, iter_entry, value_for_property] at hB
  | dict es =>
    rw [hmv] at hB
    simp [eConv, iter_entry, value_for_property] at hB

theorem fr_key (k : String) (tv pv : Val) (o1 : Option Val × Option Val)
    (dv1 jv2 : Val) (o2 : Option Val × Option Val) (dv2 : Val) (n1 n2 : Nat)
    (hA : patch_val n1 tv pv = .ok o1)
    (hB : eConv value_for_property (some .pKey) k (o1.1.getD tv) = .ok dv1)
    (hC : eConv text_from_property (some .pKey) k
      (to_dict_val .pKey (populate_val (some .pKey) dv1)) = .ok jv2)
    (hD : patch_val n2 jv2 pv = .ok o2)
    (hE : eConv value_for_property (some .pKey) k (o2.1.getD jv2) = .ok dv2) :
    to_dict_val .pKey (populate_val (some .pKey) dv2)
      = to_dict_val .pKey (populate_val (some .pKey) dv1) := by
  have hns : ∀ ns, PTy.pKey ≠ PTy.pStruct ns := by
    intro ns hc
    cases hc
  rw [populate_val_nonstruct _ _ hns, to_dict_val_nonstruct _ _ hns] at hC
  rw [populate_val_nonstruct _ _ hns, to_dict_val_nonstruct _ _ hns,
    populate_val_nonstruct _ _ hns, to_dict_val_nonstruct _ _ hns]
  -- the second render only succeeds when the stored value is null
  cases dv1 with
  | str s => simp [eConv, iter_entry, text_from_property] at hC
  | int n => simp [eConv, iter_entry, text_from_property] at hC
  | float f => simp [eConv, iter_entry, text_from_property] at hC
  | bool b => simp [eConv, iter_entry, text_from_property] at hC
  | date y m d => simp [eConv, iter_entry, text_from_property] at hC
  | datetime y m d hh mi ss us => simp [eConv, iter_entry, text_from_property] at hC
  | key p => simp [eConv, iter_entry, text_from_property] at hC
  | dict es => simp [eConv, iter_entry, text_from_property] at hC
  | null =>
    rw [eConv_null] at hC
    injection hC with hC2
    subst hC2
    -- the first parse produced null, so the merged value was null
    have hmvn : o1.1.getD tv = Val.null := by
      cases hmv : o1.1.getD tv with
      | null => rfl
      | str s =>
        rw [hmv] at hB
        simp only [eConv, iter_entry, value_for_property, decode_ndb_key] at hB
        cases hdec : decodeUrlsafe s with
        | none =>
          rw [hdec] at hB
          simp at hB
        | some p =>
          rw [hdec] at hB
          simp at hB
      | int n =>
        rw [hmv] at hB
        simp [eConv, iter_entry, value_for_property] at hB
      | float f =>
        rw [hmv] at hB
        simp [eConv, iter_entry, value_for_property] at hB
      | bool b =>
        rw [hmv] at hB
        simp [eConv, iter_entry, value_for_property] at hB
      | date y m d =>
        rw [hmv] at hB
        simp [eConv, iter_entry, value_for_property] at hB
      | datetime y m d hh mi ss us =>
        rw [hmv] at hB
        simp [eConv, iter_entry, value_for_property] at hB
      | key p =>
        rw [hmv] at hB
        simp [eConv, iter_entry, value_for_property] at hB
      | dict es =>
        rw [hmv] at hB
        simp [eConv, iter_entry, value_for_property] at hB
    have ho1 : o1.1 = none := by
      cases ho : o1.1 with
      | none => rfl
      | some w =>
        rw [ho, Option.getD_some] at hmvn
        have ho1e : o1 = (some w, o1.2) := by
          rw [← ho]
        rw [ho1e] at hA
        exact absurd hmvn (patch_val_some_ne_null n1 tv pv w o1.2 hA)
    have ho1e : o1 = (none, o1.2) := by
      rw [← ho1]
    rw [ho1e] at hA
    have hpvn : pv = Val.null := patch_val_none_wb n1 tv pv o1.2 hA
    rw [hpvn] at hD
    cases n2 with
    | zero => simp [patch_val] at hD
    | succ n2 =>
      simp only [patch_val, Except.ok.injEq] at hD
      rw [← hD] at hE
      have hE2 : eConv value_for_property (some .pKey) k Val.null
          = .ok dv2 := hE
      rw [eConv_null] at hE2
      exact (Except.ok.inj hE2).symm

/-! ## The joint round-trip induction

`fr_si_core` ties the per-kind field lemmas together: the first conjunct
(field round-trip) extends them to `StructuredProperty` fields by recursion
into the sub-schema, and the second conjunct (schema idempotence) states that
a second render–merge–parse pass over a sub-model that came out of a first
pass reproduces the same rendered state.  The induction is on the structural
size of the property type / schema. -/

theorem fr_si_core : ∀ N : Nat,
    (∀ ty, tsize ty ≤ N →
      ∀ k tv pv o1 dv1 jv2 o2 dv2 n1 n2,
      ptyWF ty = true → valWF tv = true → valWF pv = true →
      patch_val n1 tv pv = .ok o1 →
      eConv value_for_property (some ty) k (o1.1.getD tv) = .ok dv1 →
      eConv text_from_property (some ty) k
        (to_dict_val ty (populate_val (some ty) dv1)) = .ok jv2 →
      patch_val n2 jv2 pv = .ok o2 →
      eConv value_for_property (some ty) k (o2.1.getD jv2) = .ok dv2 →
      to_dict_val ty (populate_val (some ty) dv2)
        = to_dict_val ty (populate_val (some ty) dv1)) ∧
    (∀ ns, ssize ns ≤ N →
      ∀ x ps m b tsub jd2 m2 b2 tsub2 n1 n2,
      schemaWF ns = true → dictWF x = true → dictWF ps = true →
      patch_dict n1 x ps = .ok (m, b) →
      iter_dict value_for_property ns false m = .ok tsub →
      iter_dict text_from_property ns false
        (to_dict ns (populate ns [] tsub)) = .ok jd2 →
      patch_dict n2 jd2 ps = .ok (m2, b2) →
      iter_dict value_for_property ns false m2 = .ok tsub2 →
      to_dict ns (populate ns [] tsub2) = to_dict ns (populate ns [] tsub)) := by
  intro N
  induction N with
  | zero =>
    constructor
    · intro ty hsz
      have := tsize_pos ty
      omega
    · intro ns hsz
      have := ssize_pos ns
      omega
  | succ N ih =>
    constructor
    · -- field round-trip
      intro ty hsz k tv pv o1 dv1 jv2 o2 dv2 n1 n2 hpty htv hpv hA hB hC hD hE
      cases ty with
      | pStr =>
        exact fr_scalar .pStr (Or.inl rfl) k tv pv o1 dv1 jv2 o2 dv2 n1 n2
          htv hpv hA hB hC hD hE
      | pInt =>
        exact fr_scalar .pInt (Or.inr (Or.inl rfl)) k tv pv o1 dv1 jv2 o2 dv2 n1 n2
          htv hpv hA hB hC hD hE
      | pFloat =>
        exact fr_scalar .pFloat (Or.inr (Or.inr (Or.inl rfl))) k tv pv o1 dv1 jv2 o2
          dv2 n1 n2 htv hpv hA hB hC hD hE
      | pBool =>
        exact fr_scalar .pBool (Or.inr (Or.inr (Or.inr rfl))) k tv pv o1 dv1 jv2 o2
          dv2 n1 n2 htv hpv hA hB hC hD hE
      | pDate => exact fr_date k tv pv o1 dv1 jv2 o2 dv2 n1 n2 hA hB hC hD hE
      | pDateTime => exact fr_datetime k tv pv o1 dv1 jv2 o2 dv2 n1 n2 hA hB hC hD hE
      | pKey => exact fr_key k tv pv o1 dv1 jv2 o2 dv2 n1 n2 hA hB hC hD hE
      | pStruct ns =>
        have hns : schemaWF ns = true := by simpa [ptyWF] using hpty
        have hsz2 : ssize ns ≤ N := by
          simp only [tsize] at hsz
          omega
        cases hmv : o1.1.getD tv with
        | null =>
          rw [hmv, eConv_null] at hB
          injection hB with hB2
          subst hB2
          rw [populate_val_null, to_dict_val_null, eConv_null] at hC
          injection hC with hC2
          subst hC2
          have ho1 : o1.1 = none := by
            cases ho : o1.1 with
            | none => rfl
            | some w =>
              rw [ho, Option.getD_some] at hmv
              have ho1e : o1 = (some w, o1.2) := by
                rw [← ho]
              rw [ho1e] at hA
              exact absurd hmv (patch_val_some_ne_null n1 tv pv w o1.2 hA)
          have ho1e : o1 = (none, o1.2) := by
            rw [← ho1]
          rw [ho1e] at hA
          have hpvn : pv = Val.null := patch_val_none_wb n1 tv pv o1.2 hA
          rw [hpvn] at hD
          cases n2 with
          | zero => simp [patch_val] at hD
          | succ n2 =>
            simp only [patch_val, Except.ok.injEq] at hD
            rw [← hD] at hE
            have hE2 : eConv value_for_property (some (.pStruct ns)) k Val.null
                = .ok dv2 := hE
            rw [eConv_null] at hE2
            rw [← Except.ok.inj hE2]
        | dict msub =>
          rw [hmv] at hB
          simp only [eConv, iter_entry] at hB
          obtain ⟨tsub, htsub, hdv1⟩ := except_map_ok hB
          subst hdv1
          simp only [populate_val, to_dict_val] at hC
          simp only [eConv, iter_entry] at hC
          obtain ⟨jd2, hjd2, hjv2⟩ := except_map_ok hC
          subst hjv2
          cases ho : o1.1 with
          | some w =>
            rw [ho, Option.getD_some] at hmv
            subst hmv
            have ho1e : o1 = (some (Val.dict msub), o1.2) := by
              rw [← ho]
            rw [ho1e] at hA
            cases n1 with
            | zero => simp [patch_val] at hA
            | succ nv =>
              cases tv <;> cases pv <;> simp only [patch_val] at hA
              case dict.dict ds ps2 =>
                obtain ⟨y, hy, hyo⟩ := except_map_ok hA
                obtain ⟨m1, b1⟩ := y
                simp only [Prod.mk.injEq, Option.some.injEq, Val.dict.injEq] at hyo
                rw [← hyo.1] at hy
                have hxd : dictWF ds = true := by simpa [valWF] using htv
                have hpd : dictWF ps2 = true := by simpa [valWF] using hpv
                cases n2 with
                | zero => simp [patch_val] at hD
                | succ nw =>
                  simp only [patch_val] at hD
                  obtain ⟨z, hz, hzo⟩ := except_map_ok hD
                  obtain ⟨m2, b2⟩ := z
                  rw [hzo] at hE
                  have hE2 : eConv value_for_property (some (.pStruct ns)) k
                      (Val.dict m2) = .ok dv2 := hE
                  simp only [eConv, iter_entry] at hE2
                  obtain ⟨tsub2, htsub2, hdv2⟩ := except_map_ok hE2
                  subst hdv2
                  simp only [populate_val, to_dict_val]
                  exact congrArg Val.dict
                    (ih.2 ns hsz2 ds ps2 msub b1 tsub jd2 m2 b2 tsub2 nv nw
                      hns hxd hpd hy htsub hjd2 hz htsub2)
              case dict.null ds =>
                obtain ⟨y, hy, hyo⟩ := except_map_ok hA
                obtain ⟨m1, b1⟩ := y
                simp only [Prod.mk.injEq, Option.some.injEq, Val.dict.injEq] at hyo
                rw [← hyo.1] at hy
                have hxd : dictWF ds = true := by simpa [valWF] using htv
                cases n2 with
                | zero => simp [patch_val] at hD
                | succ nw =>
                  simp only [patch_val] at hD
                  obtain ⟨z, hz, hzo⟩ := except_map_ok hD
                  obtain ⟨m2, b2⟩ := z
                  rw [hzo] at hE
                  have hE2 : eConv value_for_property (some (.pStruct ns)) k
                      (Val.dict m2) = .ok dv2 := hE
                  simp only [eConv, iter_entry] at hE2
                  obtain ⟨tsub2, htsub2, hdv2⟩ := except_map_ok hE2
                  subst hdv2
                  simp only [populate_val, to_dict_val]
                  exact congrArg Val.dict
                    (ih.2 ns hsz2 ds [] msub b1 tsub jd2 m2 b2 tsub2 nv nw
                      hns hxd rfl hy htsub hjd2 hz htsub2)
              case null.dict ps2 =>
                obtain ⟨y, hy, hyo⟩ := except_map_ok hA
                obtain ⟨m1, b1⟩ := y
                simp only [Prod.mk.injEq, Option.some.injEq, Val.dict.injEq] at hyo
                rw [← hyo.1] at hy
                have hpd : dictWF ps2 = true := by simpa [valWF] using hpv
                cases n2 with
                | zero => simp [patch_val] at hD
                | succ nw =>
                  simp only [patch_val] at hD
                  obtain ⟨z, hz, hzo⟩ := except_map_ok hD
                  obtain ⟨m2, b2⟩ := z
                  rw [hzo] at hE
                  have hE2 : eConv value_for_property (some (.pStruct ns)) k
                      (Val.dict m2) = .ok dv2 := hE
                  simp only [eConv, iter_entry] at hE2
                  obtain ⟨tsub2, htsub2, hdv2⟩ := except_map_ok hE2
                  subst hdv2
                  simp only [populate_val, to_dict_val]
                  exact congrArg Val.dict
                    (ih.2 ns hsz2 [] ps2 msub b1 tsub jd2 m2 b2 tsub2 nv nw
                      hns rfl hpd hy htsub hjd2 hz htsub2)
              all_goals simp at hA
          | none =>
            rw [ho, Option.getD_none] at hmv
            subst hmv
            have hmd : dictWF msub = true := by simpa [valWF] using htv
            have ho1e : o1 = (none, o1.2) := by
              rw [← ho]
            rw [ho1e] at hA
            have hpvn : pv = Val.null := patch_val_none_wb n1 (.dict msub) pv o1.2 hA
            rw [hpvn] at hD
            cases n2 with
            | zero => simp [patch_val] at hD
            | succ nw =>
              simp only [patch_val] at hD
              obtain ⟨z, hz, hzo⟩ := except_map_ok hD
              obtain ⟨m2, b2⟩ := z
              rw [hzo] at hE
              have hE2 : eConv value_for_property (some (.pStruct ns)) k
                  (Val.dict m2) = .ok dv2 := hE
              simp only [eConv, iter_entry] at hE2
              obtain ⟨tsub2, htsub2, hdv2⟩ := except_map_ok hE2
              subst hdv2
              simp only [populate_val, to_dict_val]
              obtain ⟨bb, hbb⟩ := patch_dict_nil_ok msub hmd
              exact congrArg Val.dict
                (ih.2 ns hsz2 msub [] msub bb tsub jd2 m2 b2 tsub2
                  (dsize msub + 1) nw hns hmd rfl hbb htsub hjd2 hz htsub2)
        | str s =>
          rw [hmv] at hB
          simp [eConv, iter_entry] at hB
        | int n =>
          rw [hmv] at hB
          simp [eConv, iter_entry] at hB
        | float f =>
          rw [hmv] at hB
          simp [eConv, iter_entry] at hB
        | bool bo =>
          rw [hmv] at hB
          simp [eConv, iter_entry] at hB
        | date y mo d =>
          rw [hmv] at hB
          simp [eConv, iter_entry] at hB
        | datetime y mo d hh mi ss us =>
          rw [hmv] at hB
          simp [eConv, iter_entry] at hB
        | key p =>
          rw [hmv] at hB
          simp [eConv, iter_entry] at hB
    · -- schema idempotence
      intro ns hsz x ps m b tsub jd2 m2 b2 tsub2 n1 n2 hns hx hp H1 H2 H3 H4 H5
      have hxnd : (Dict.keys x).Nodup := dictWF_keys_nodup x hx
      have hpnd : (Dict.keys ps).Nodup := dictWF_keys_nodup ps hp
      have hwfm : dictWF m = true :=
        ((merge_idem_core n1).2 n1 (Nat.le_refl _) x ps m b hx hp H1).1
      have hwftsub : dictWF tsub = true :=
        (iter_false_wf value_for_property value_preserves_valWF (dsize m)).2
          ns m tsub (Nat.le_refl _) hwfm H2
      have hndtsub : (Dict.keys tsub).Nodup := dictWF_keys_nodup tsub hwftsub
      have hwfP1 : dictWF (populate ns [] tsub) = true :=
        populate_wf ns tsub [] hwftsub rfl
      have hwftd : dictWF (to_dict ns (populate ns [] tsub)) = true :=
        (to_dict_wf_core (ssize ns)).2 ns _ (Nat.le_refl _) hns hwfP1
      have hwfjd2 : dictWF jd2 = true :=
        (iter_false_wf text_from_property text_preserves_valWF
          (dsize (to_dict ns (populate ns [] tsub)))).2
          ns _ jd2 (Nat.le_refl _) hwftd H3
      have hjd2nd : (Dict.keys jd2).Nodup := dictWF_keys_nodup jd2 hwfjd2
      have hwfm2 : dictWF m2 = true :=
        ((merge_idem_core n2).2 n2 (Nat.le_refl _) jd2 ps m2 b2 hwfjd2 hp H4).1
      have hwftsub2 : dictWF tsub2 = true :=
        (iter_false_wf value_for_property value_preserves_valWF (dsize m2)).2
          ns m2 tsub2 (Nat.le_refl _) hwfm2 H5
      have hndtsub2 : (Dict.keys tsub2).Nodup := dictWF_keys_nodup tsub2 hwftsub2
      have hktsub : Dict.keys tsub = Dict.keys m :=
        iter_false_keys value_for_property m ns tsub H2
      have hktsub2 : Dict.keys tsub2 = Dict.keys m2 :=
        iter_false_keys value_for_property m2 ns tsub2 H5
      have hkjd2 : Dict.keys jd2 = ns.map (·.1) := by
        rw [iter_false_keys text_from_property _ ns jd2 H3, to_dict_keys]
      refine to_dict_congr ns _ _ ?_
      intro e he
      obtain ⟨k, ty⟩ := e
      show to_dict_val ty (pyget (populate ns [] tsub2) k)
        = to_dict_val ty (pyget (populate ns [] tsub) k)
      have hlk : lookupProp ns k = some ty := lookup_mem ns k ty hns he
      have hpty : ptyWF ty = true := lookup_ptyWF ns k ty hns hlk
      have hkns : k ∈ ns.map (·.1) := List.mem_map.mpr ⟨(k, ty), he, rfl⟩
      cases hdt : dget tsub k with
      | some dv1 =>
        have hkts : k ∈ Dict.keys tsub := by
          by_contra hc
          have h0 := (dget_none_iff tsub k).mpr hc
          rw [h0] at hdt
          exact Option.noConfusion hdt
        have hkm : k ∈ Dict.keys m := by
          rw [← hktsub]
          exact hkts
        obtain ⟨mv1, hdm⟩ : ∃ mv1, dget m k = some mv1 := by
          cases hdm0 : dget m k with
          | none => exact absurd hkm ((dget_none_iff m k).mp hdm0)
          | some w => exact ⟨w, rfl⟩
        obtain ⟨w1, hw1, hcv1⟩ :=
          iter_false_dget_some value_for_property m ns tsub H2 k mv1 hdm
        rw [hdt] at hw1
        rw [hlk, ← Option.some.inj hw1] at hcv1
        have hkxp : k ∈ Dict.keys x ∨ k ∈ Dict.keys ps := by
          by_contra hc
          push_neg at hc
          rw [merge_dget_char_out n1 x ps m b k H1 hc.1 hc.2] at hdm
          exact Option.noConfusion hdm
        obtain ⟨nv, hnv, o, hA1, hdmo⟩ :=
          merge_dget_char_in n1 x ps m b k hxnd hpnd H1 hkxp
        have homv : o.1.getD (pyget x k) = mv1 := by
          cases hoo : o.1 with
          | some v =>
            rw [hoo, hdm] at hdmo
            exact (Option.some.inj hdmo).symm
          | none =>
            rw [hoo, hdm] at hdmo
            have hdx : dget x k = some mv1 := hdmo.symm
            exact dget_pyget x k mv1 hdx
        rw [← homv] at hcv1
        have hP1 : dget (populate ns [] tsub) k
            = some (populate_val (some ty) dv1) := by
          rw [populate_dget tsub ns [] k hndtsub, hdt, hlk]
        have hpygP1 : pyget (populate ns [] tsub) k = populate_val (some ty) dv1 :=
          dget_pyget _ k _ hP1
        have htdP1 : dget (to_dict ns (populate ns [] tsub)) k
            = some (to_dict_val ty (populate_val (some ty) dv1)) := by
          rw [to_dict_dget ns _ k, hlk]
          show some (to_dict_val ty (pyget (populate ns [] tsub) k)) = _
          rw [hpygP1]
        obtain ⟨jv2k, hjw, hcv2⟩ :=
          iter_false_dget_some text_from_property _ ns jd2 H3 k _ htdP1
        rw [hlk] at hcv2
        have hkjd2m : k ∈ Dict.keys jd2 := by
          rw [hkjd2]
          exact hkns
        obtain ⟨nw, hnw, o2, hD1, hdm2o⟩ :=
          merge_dget_char_in n2 jd2 ps m2 b2 k hjd2nd hpnd H4 (Or.inl hkjd2m)
        have hpyjd2 : pyget jd2 k = jv2k := dget_pyget jd2 k jv2k hjw
        rw [hpyjd2] at hD1
        have hdm2 : dget m2 k = some (o2.1.getD jv2k) := by
          cases hoo2 : o2.1 with
          | some v =>
            rw [hoo2] at hdm2o
            exact hdm2o
          | none =>
            rw [hoo2] at hdm2o
            have h2 : dget m2 k = dget jd2 k := hdm2o
            rw [h2, hjw]
            rfl
        obtain ⟨dv2, hdt2, hcv3⟩ :=
          iter_false_dget_some value_for_property m2 ns tsub2 H5 k _ hdm2
        rw [hlk] at hcv3
        have htsz : tsize ty ≤ N := by
          have := tsize_lt_ssize_of_mem ns k ty he
          omega
        have hfr := ih.1 ty htsz k (pyget x k) (pyget ps k) o dv1 jv2k o2 dv2 nv nw
          hpty (pyget_valWF x k hx) (pyget_valWF ps k hp) hA1 hcv1 hcv2 hD1 hcv3
        have hP2 : dget (populate ns [] tsub2) k
            = some (populate_val (some ty) dv2) := by
          rw [populate_dget tsub2 ns [] k hndtsub2, hdt2, hlk]
        rw [dget_pyget _ k _ hP2, hpygP1]
        exact hfr
      | none =>
        have hktsn : k ∉ Dict.keys tsub := (dget_none_iff tsub k).mp hdt
        have hkmn : k ∉ Dict.keys m := by
          rw [← hktsub]
          exact hktsn
        have hdm : dget m k = none := (dget_none_iff m k).mpr hkmn
        have hpvk : pyget ps k = Val.null := by
          by_cases hkps : k ∈ Dict.keys ps
          · obtain ⟨nv, hnv, o, hA1, hdmo⟩ :=
              merge_dget_char_in n1 x ps m b k hxnd hpnd H1 (Or.inr hkps)
            cases hoo : o.1 with
            | some v =>
              rw [hoo, hdm] at hdmo
              have h2 : (none : Option Val) = some v := hdmo
              exact Option.noConfusion h2
            | none =>
              have ho1e : o = (none, o.2) := by
                rw [← hoo]
              rw [ho1e] at hA1
              exact patch_val_none_wb nv (pyget x k) (pyget ps k) o.2 hA1
          · have h0 : dget ps k = none := (dget_none_iff ps k).mpr hkps
            unfold Dict.pyget
            rw [h0]
            rfl
        have hP1n : dget (populate ns [] tsub) k = none := by
          rw [populate_dget tsub ns [] k hndtsub, hdt]
          rfl
        have hpygP1 : pyget (populate ns [] tsub) k = Val.null := by
          unfold Dict.pyget
          rw [hP1n]
          rfl
        have htdP1 : dget (to_dict ns (populate ns [] tsub)) k = some Val.null := by
          rw [to_dict_dget ns _ k, hlk]
          show some (to_dict_val ty (pyget (populate ns [] tsub) k)) = some Val.null
          rw [hpygP1, to_dict_val_null]
        obtain ⟨w0, hjw, hcv2⟩ :=
          iter_false_dget_some text_from_property _ ns jd2 H3 k _ htdP1
        rw [hlk, eConv_null] at hcv2
        have hw0 : Val.null = w0 := Except.ok.inj hcv2
        subst hw0
        have hkjd2m : k ∈ Dict.keys jd2 := by
          rw [hkjd2]
          exact hkns
        obtain ⟨nw, hnw, o2, hD1, hdm2o⟩ :=
          merge_dget_char_in n2 jd2 ps m2 b2 k hjd2nd hpnd H4 (Or.inl hkjd2m)
        rw [dget_pyget jd2 k Val.null hjw, hpvk] at hD1
        have ho2 : o2.1 = none := by
          cases nw with
          | zero => simp [patch_val] at hD1
          | succ nw2 =>
            simp only [patch_val, Except.ok.injEq] at hD1
            rw [← hD1]
        have hdm2 : dget m2 k = some Val.null := by
          rw [ho2] at hdm2o
          have h2 : dget m2 k = dget jd2 k := hdm2o
          rw [h2, hjw]
        obtain ⟨dv2, hdt2, hcv3⟩ :=
          iter_false_dget_some value_for_property m2 ns tsub2 H5 k _ hdm2
        rw [hlk, eConv_null] at hcv3
        have hdv2 : Val.null = dv2 := Except.ok.inj hcv3
        subst hdv2
        have hP2 : dget (populate ns [] tsub2) k = some Val.null := by
          rw [populate_dget tsub2 ns [] k hndtsub2, hdt2, hlk]
          show some (populate_val (some ty) Val.null) = some Val.null
          rw [populate_val_null]
        have hpyg2 : pyget (populate ns [] tsub2) k = Val.null :=
          dget_pyget _ k _ hP2
        rw [hpyg2, hpygP1]

theorem patchT_error (S : Schema) (r : Rec) (d : Dict) (e : PyErr)
    (h : (patch S r d false).1 = .error e) : patchT S r d = r := by
  unfold patchT
  rw [h]

theorem patchT_ok (S : Schema) (r : Rec) (d : Dict) (r2 : Rec)
    (h : (patch S r d false).1 = .ok r2) : patchT S r d = r2 := by
  unfold patchT
  rw [h]

theorem merge_keys_mono (n : Nat) (x p m b : Dict) (k : String)
    (hx : (Dict.keys x).Nodup) (hp : (Dict.keys p).Nodup)
    (h : patch_dict n x p = .ok (m, b)) (hk : k ∈ Dict.keys x) :
    k ∈ Dict.keys m := by
  obtain ⟨nv, hnv, o, hpv, hdmo⟩ :=
    merge_dget_char_in n x p m b k hx hp h (Or.inl hk)
  by_contra hc
  have hnone := (dget_none_iff m k).mpr hc
  rw [hnone] at hdmo
  cases hoo : o.1 with
  | some v =>
    rw [hoo] at hdmo
    have h2 : (none : Option Val) = some v := hdmo
    exact Option.noConfusion h2
  | none =>
    rw [hoo] at hdmo
    have h2 : (none : Option Val) = dget x k := hdmo
    exact (dget_none_iff x k).mp h2.symm hk

/-- C1: `NdbUtilMixIn.patch` is idempotent — for a well-formed persisted record
and a well-formed patch dictionary, running `patch(d)` twice leaves the
record's field values in exactly the same state as running it once.  The
state is compared as ndb reads it: every declared property, recursively
through structured sub-models, with unset fields and fields explicitly set to
`None` both reading as `None` (that is what every code path of the library —
renders, updates and further patches — observes of the record). -/
theorem C1_patch_idempotent (S : Schema) (r : Rec) (d : Dict)
    (hS : schemaWF S = true) (hr : dictWF r = true) (hd : dictWF d = true) :
    to_dict S (patchT S (patchT S r d) d) = to_dict S (patchT S r d) := by
  cases hp1 : (patch S r d false).1 with
  | error e =>
    rw [patchT_error S r d e hp1, patchT_error S r d e hp1]
  | ok r1 =>
    rw [patchT_ok S r d r1 hp1]
    unfold patch at hp1
    split at hp1
    next e heq => simp at hp1
    next j hJ1 =>
      split at hp1
      next e heq2 => simp at hp1
      next m mb hM1 =>
        split at hp1
        next e heq3 => simp at hp1
        next dd hS1 =>
          have hr1 : populate S r dd = r1 := by simpa using hp1
          have hJ1a : iter_dict text_from_property S false (to_dict S r)
              = .ok j := by
            simpa [json_dict, get_dict_from_model] using hJ1
          have hM1a : patch_dict (dsize j + dsize d + 1) j d = .ok (m, mb) := by
            simpa [patch_dict_top] using hM1
          have hS1a : iter_dict value_for_property S false m = .ok dd := by
            simpa [set_dict_for_model] using hS1
          have hwftd : dictWF (to_dict S r) = true :=
            (to_dict_wf_core (ssize S)).2 S r (Nat.le_refl _) hS hr
          have hwfj : dictWF j = true :=
            (iter_false_wf text_from_property text_preserves_valWF
              (dsize (to_dict S r))).2 S _ j (Nat.le_refl _) hwftd hJ1a
          have hwfm : dictWF m = true :=
            ((merge_idem_core (dsize j + dsize d + 1)).2 _ (Nat.le_refl _)
              j d m mb hwfj hd hM1a).1
          have hwfdd : dictWF dd = true :=
            (iter_false_wf value_for_property value_preserves_valWF (dsize m)).2
              S m dd (Nat.le_refl _) hwfm hS1a
          have hnddd : (Dict.keys dd).Nodup := dictWF_keys_nodup dd hwfdd
          have hkj : Dict.keys j = S.map (·.1) := by
            rw [iter_false_keys text_from_property _ S j hJ1a, to_dict_keys]
          have hkdd : Dict.keys dd = Dict.keys m :=
            iter_false_keys value_for_property m S dd hS1a
          have hcov : ∀ e ∈ S, hasKey dd e.1 = true := by
            intro e he
            have hkm : e.1 ∈ Dict.keys m := by
              refine merge_keys_mono _ j d m mb e.1 (dictWF_keys_nodup j hwfj)
                (dictWF_keys_nodup d hd) hM1a ?_
              rw [hkj]
              exact List.mem_map.mpr ⟨e, he, rfl⟩
            refine (hasKey_iff_mem dd e.1).mpr ?_
            rw [hkdd]
            exact hkm
          have hbase : to_dict S r1 = to_dict S (populate S [] dd) := by
            rw [← hr1]
            exact populate_base_irrel S r dd hnddd hcov
          cases hp2 : (patch S r1 d false).1 with
          | error e2 => rw [patchT_error S r1 d e2 hp2]
          | ok r2 =>
            rw [patchT_ok S r1 d r2 hp2]
            unfold patch at hp2
            split at hp2
            next e heq => simp at hp2
            next j2 hJ2 =>
              split at hp2
              next e heq2 => simp at hp2
              next m2 mb2 hM2 =>
                split at hp2
                next e heq3 => simp at hp2
                next dd2 hS2 =>
                  have hr2 : populate S r1 dd2 = r2 := by simpa using hp2
                  have hJ2a : iter_dict text_from_property S false
                      (to_dict S (populate S [] dd)) = .ok j2 := by
                    rw [← hbase]
                    simpa [json_dict, get_dict_from_model] using hJ2
                  have hM2a : patch_dict (dsize j2 + dsize d + 1) j2 d
                      = .ok (m2, mb2) := by
                    simpa [patch_dict_top] using hM2
                  have hS2a : iter_dict value_for_property S false m2 = .ok dd2 := by
                    simpa [set_dict_for_model] using hS2
                  have hsi := (fr_si_core (ssize S)).2 S (Nat.le_refl _)
                    j d m mb dd j2 m2 mb2 dd2
                    (dsize j + dsize d + 1) (dsize j2 + dsize d + 1)
                    hS hwfj hd hM1a hS1a hJ2a hM2a hS2a
                  have hwftd2 : dictWF (to_dict S (populate S [] dd)) = true :=
                    (to_dict_wf_core (ssize S)).2 S _ (Nat.le_refl _) hS
                      (populate_wf S dd [] hwfdd rfl)
                  have hwfj2 : dictWF j2 = true :=
                    (iter_false_wf text_from_property text_preserves_valWF
                      (dsize (to_dict S (populate S [] dd)))).2 S _ j2
                      (Nat.le_refl _) hwftd2 hJ2a
                  have hwfm2 : dictWF m2 = true :=
                    ((merge_idem_core (dsize j2 + dsize d + 1)).2 _ (Nat.le_refl _)
                      j2 d m2 mb2 hwfj2 hd hM2a).1
                  have hwfdd2 : dictWF dd2 = true :=
                    (iter_false_wf value_for_property value_preserves_valWF
                      (dsize m2)).2 S m2 dd2 (Nat.le_refl _) hwfm2 hS2a
                  have hnddd2 : (Dict.keys dd2).Nodup :=
                    dictWF_keys_nodup dd2 hwfdd2
                  have hkj2 : Dict.keys j2 = S.map (·.1) := by
                    rw [iter_false_keys text_from_property _ S j2 hJ2a, to_dict_keys]
                  have hkdd2 : Dict.keys dd2 = Dict.keys m2 :=
                    iter_false_keys value_for_property m2 S dd2 hS2a
                  have hcov2 : ∀ e ∈ S, hasKey dd2 e.1 = true := by
                    intro e he
                    have hkm2 : e.1 ∈ Dict.keys m2 := by
                      refine merge_keys_mono _ j2 d m2 mb2 e.1
                        (dictWF_keys_nodup j2 hwfj2) (dictWF_keys_nodup d hd)
                        hM2a ?_
                      rw [hkj2]
                      exact List.mem_map.mpr ⟨e, he, rfl⟩
                    refine (hasKey_iff_mem dd2 e.1).mpr ?_
                    rw [hkdd2]
                    exact hkm2
                  rw [← hr2, populate_base_irrel S r1 dd2 hnddd2 hcov2, hbase, hsi]

/-- Witness for C1 at a concrete schema and inputs: a `Person` with a name and
no birthday, patched twice with a dictionary that renames them and sets the
birthday. -/
theorem C1_patch_idempotent_witness :
    schemaWF PersonS = true ∧
    dictWF [("name", Val.str "Ada"), ("birthday", Val.null)] = true ∧
    dictWF [("name", Val.str "Bob"), ("birthday", Val.str "2000-01-02")] = true ∧
    to_dict PersonS
        (patchT PersonS
          (patchT PersonS [("name", Val.str "Ada"), ("birthday", Val.null)]
            [("name", Val.str "Bob"), ("birthday", Val.str "2000-01-02")])
          [("name", Val.str "Bob"), ("birthday", Val.str "2000-01-02")])
      = to_dict PersonS
          (patchT PersonS [("name", Val.str "Ada"), ("birthday", Val.null)]
            [("name", Val.str "Bob"), ("birthday", Val.str "2000-01-02")]) :=
  ⟨rfl, rfl, rfl,
    C1_patch_idempotent PersonS
      [("name", Val.str "Ada"), ("birthday", Val.null)]
      [("name", Val.str "Bob"), ("birthday", Val.str "2000-01-02")]
      rfl rfl rfl⟩

end GaeRest
